import Mathlib

/-!
The minion agent: session protocol and command execution.

A shallow embedding of `v0/main.go`: the command model (`Command`,
`CommandOutput`, `NewCommands`, `Config`), `Command.GetArgs`,
`bytesToFormattedHex`, the read loop `session.readWebsocket` with `main`,
the connection as the goroutines that call `session.writeWebSocket` see it, and
`session.executeCommand` with its two capture goroutines.

Go `string` values are Lean `String`s, `[]byte` is a list of bytes, `int64`
Unix times are `Int` (no arithmetic is done on them).
-/

set_option linter.dupNamespace false

namespace Minion

/-! ## Data model (main.go, lines 23-67) -/

/-- CommandOutput: one line of output and the Unix time at which it was read. -/
structure CommandOutput where
  Output : String
  At : Int
  deriving DecidableEq, Repr

/-- Command: a command to be issued by the agent, with its accumulated output. -/
structure Command where
  ID : String
  ServerID : String
  UserID : String
  Command : String
  STDERR : List CommandOutput
  STDOUT : List CommandOutput
  CreatedAt : Int
  StartedAt : Int
  CompletedAt : Int
  Action : String
  deriving DecidableEq, Repr

/-- NewCommands: the subscription request sent once the controller says connected. -/
structure NewCommands where
  Action : String
  ServerID : String
  deriving DecidableEq, Repr

/-- Config: the parameters of config.json. -/
structure Config where
  Location : String
  ServerID : String
  deriving DecidableEq, Repr

/-- The zero value `Command{}`. -/
def Command.zero : Minion.Command :=
  { ID := "", ServerID := "", UserID := "", Command := "", STDERR := [], STDOUT := [],
    CreatedAt := 0, StartedAt := 0, CompletedAt := 0, Action := "" }

/-! ## `strings.Split` and `Command.GetArgs` (lines 49-55) -/

/-- The pieces of `cs` between successive occurrences of the separator `sep`
(`strings.Split` for a one-character separator, on the characters of the string):
one piece more than there are separators, so the empty input gives one empty piece. -/
def splitChars (sep : Char) : List Char → List (List Char)
  | [] => [[]]
  | c :: cs =>
    if c = sep then [] :: splitChars sep cs
    else
      match splitChars sep cs with
      | [] => [[c]]
      | t :: ts => (c :: t) :: ts

/-- Go's `strings.Split(s, sep)` for a separator of one character. -/
def stringsSplit (s : String) (sep : Char) : List String :=
  (splitChars sep s.toList).map String.mk

/-- The method `GetArgs`: `args = strings.Split(c.Command, " ")`. -/
def Command.GetArgs (c : Minion.Command) : List String :=
  stringsSplit c.Command ' '

/-- The pieces joined again with the separator between neighbours (`strings.Join`). -/
def joinChars (sep : Char) : List (List Char) → List Char
  | [] => []
  | [t] => t
  | t :: u :: ts => t ++ sep :: joinChars sep (u :: ts)

/-- The whitespace characters of Go's `unicode.IsSpace` in the Latin-1 range. -/
def isSpace (c : Char) : Bool :=
  c = ' ' || c = '\t' || c = '\n' || c = '\x0b' || c = '\x0c' || c = '\r' ||
    c = '\u0085' || c = '\u00a0'

/-! ## `bytesToFormattedHex` (lines 114-117) -/

/-- One byte of a `[]byte`. -/
abbrev Byte := Fin 256

/-- The lower-case hexadecimal digit of a value below 16 (`hextable` of encoding/hex). -/
def hexDigit (n : Nat) : Char :=
  "0123456789abcdef".toList.getD n '0'

/-- Go's `hex.EncodeToString`: two lower-case hexadecimal digits per byte, high nibble first. -/
def hexEncodeToString (bytes : List Byte) : List Char :=
  bytes.flatMap fun b => [hexDigit (b.val / 16), hexDigit (b.val % 16)]

/-- The call `regexp.MustCompile("(..)").ReplaceAllString(text, "$1 ")`: scanning from the left,
every two adjacent characters other than a newline (`.` does not match `\n`) are
followed by a space; a character that does not start such a pair is copied. -/
def replacePairs : List Char → List Char
  | a :: b :: rest =>
    if a ≠ '\n' ∧ b ≠ '\n' then a :: b :: ' ' :: replacePairs rest
    else a :: replacePairs (b :: rest)
  | rest => rest

/-- The function `bytesToFormattedHex`: the hexadecimal text with its pairs spaced. -/
def bytesToFormattedHex (bytes : List Byte) : String :=
  String.mk (replacePairs (hexEncodeToString bytes))

/-! ## JSON values and the `encoding/json` calls of the read loop -/

/-- A decoded JSON document, as `json.Unmarshal` stores it in an `interface{}`:
nil, bool, number (kept as its literal), string, `[]interface{}`, or
`map[string]interface{}` (the members of the map, each key once). -/
inductive JSON where
  | null
  | bool (b : Bool)
  | num (lit : String)
  | str (s : String)
  | arr (items : List JSON)
  | obj (members : List (String × JSON))
  deriving Repr

/-- The two ways the read loop calls `encoding/json` on inbound data. The library is
not part of the repository: the read loop is defined for any behaviour of these two
calls, and `encodingJSON` below is one concrete decoder.
`unmarshal text` is `json.Unmarshal([]byte(text), &f)` for `var f interface{}`
(`none`: the call returns an error). `unmarshalCommand v` is
`json.Marshal(v)` followed by `json.Unmarshal(newVal, &newCmd)` for
`newCmd := Command{}` (`none`: the second call returns an error). -/
structure JSONLib where
  unmarshal : String → Option JSON
  unmarshalCommand : JSON → Option Command

/-- The map index expression `m[key]`: the member's value, or nil when absent. -/
def JSON.index (m : List (String × JSON)) (key : String) : Option JSON :=
  (m.find? fun kv => kv.1 == key).map Prod.snd

/-- The comparison `v == s` of an interface value with a string constant, as in
`switch m["action"] { case "connected": ... }`: true only for a string equal to `s`. -/
def JSON.eqString (v : Option JSON) (s : String) : Bool :=
  match v with
  | some (JSON.str t) => t == s
  | _ => false

/-- The call `json.Marshal(sub)` for a `NewCommands`, as a JSON value: the struct tags of
lines 59-60, in declaration order. -/
def NewCommands.toJSON (v : NewCommands) : JSON :=
  .obj [("action", .str v.Action), ("server_id", .str v.ServerID)]

/-- The marshalling `json.Marshal` of a `CommandOutput` (tags of lines 31-32). -/
def CommandOutput.toJSON (o : CommandOutput) : JSON :=
  .obj [("output", .str o.Output), ("at", .num (toString o.At))]

/-- The call `json.Marshal(c)` for a `Command`, as a JSON value: the struct tags of lines 37-46,
in declaration order. (A nil slice, which Go renders as `null`, is not told apart
from an empty one here.) -/
def Command.toJSON (c : Minion.Command) : JSON :=
  .obj [("id", .str c.ID), ("server_id", .str c.ServerID), ("user_id", .str c.UserID),
        ("command", .str c.Command),
        ("stderr", .arr (c.STDERR.map CommandOutput.toJSON)),
        ("stdout", .arr (c.STDOUT.map CommandOutput.toJSON)),
        ("created_at", .num (toString c.CreatedAt)),
        ("started_at", .num (toString c.StartedAt)),
        ("completed_at", .num (toString c.CompletedAt)),
        ("action", .str c.Action)]

/-- A text frame handed to `writeWebSocket`: the value that was marshalled. -/
inductive Frame where
  | newCommands (v : NewCommands)
  | command (v : Command)
  deriving DecidableEq, Repr

/-- The JSON document a frame carries. -/
def Frame.toJSON : Frame → JSON
  | .newCommands v => v.toJSON
  | .command v => v.toJSON

/-! ## A concrete decoder for the JSON grammar (RFC 8259)

`encodingJSON` is the decoder used wherever a statement is evaluated on concrete
frames. It follows the grammar `encoding/json` checks: one value surrounded by
optional white space, nothing after it; a repeated key keeps its last value. -/

/-- Skip JSON white space (space, tab, line feed, carriage return). -/
def skipWS : List Char → List Char
  | c :: cs => if c = ' ' ∨ c = '\t' ∨ c = '\n' ∨ c = '\r' then skipWS cs else c :: cs
  | [] => []

/-- The value of a hexadecimal digit. -/
def hexVal (c : Char) : Option Nat :=
  if '0' ≤ c ∧ c ≤ '9' then some (c.toNat - '0'.toNat)
  else if 'a' ≤ c ∧ c ≤ 'f' then some (c.toNat - 'a'.toNat + 10)
  else if 'A' ≤ c ∧ c ≤ 'F' then some (c.toNat - 'A'.toNat + 10)
  else none

/-- The value of four hexadecimal digits. -/
def hex4 (a b c d : Char) : Option Nat :=
  match hexVal a, hexVal b, hexVal c, hexVal d with
  | some x, some y, some z, some w => some (((x * 16 + y) * 16 + z) * 16 + w)
  | _, _, _, _ => none

/-- The character of a `\uXXXX` escape; a surrogate half is U+FFFD (two halves are
not combined). -/
def escapedChar (n : Nat) : Char :=
  if 0xD800 ≤ n ∧ n ≤ 0xDFFF then '\uFFFD' else Char.ofNat n

/-- The rest of a string literal after its opening quote: the decoded string and the
input after the closing quote. `acc` holds the characters decoded so far, reversed. -/
def parseString : List Char → List Char → Option (String × List Char)
  | [], _ => none
  | c :: rest, acc =>
    if c = '\x22' then some (String.mk acc.reverse, rest)
    else if c = '\x5c' then
      match rest with
      | 'u' :: a :: b :: x :: d :: rest2 =>
        match hex4 a b x d with
        | some n => parseString rest2 (escapedChar n :: acc)
        | none => none
      | e :: rest2 =>
        if e = '\x22' ∨ e = '\x5c' ∨ e = '/' then parseString rest2 (e :: acc)
        else if e = 'b' then parseString rest2 ('\x08' :: acc)
        else if e = 'f' then parseString rest2 ('\x0c' :: acc)
        else if e = 'n' then parseString rest2 ('\n' :: acc)
        else if e = 'r' then parseString rest2 ('\r' :: acc)
        else if e = 't' then parseString rest2 ('\t' :: acc)
        else none
      | [] => none
    else if c.toNat < 0x20 then none
    else parseString rest (c :: acc)

/-- The longest prefix of decimal digits, and what follows it. -/
def spanDigits : List Char → List Char × List Char
  | c :: cs =>
    if c.isDigit then ((spanDigits cs).1.cons c, (spanDigits cs).2) else ([], c :: cs)
  | [] => ([], [])

/-- A number literal `-? (0 | [1-9][0-9]*) (. [0-9]+)? ([eE] [+-]? [0-9]+)?`: its text
and the input after it. -/
def parseNumber (cs : List Char) : Option (String × List Char) :=
  let (sign, cs1) := match cs with
    | '-' :: r => (['-'], r)
    | r => ([], r)
  let (int, cs2) := spanDigits cs1
  if int = [] ∨ (int.head? = some '0' ∧ int.length ≠ 1) then none
  else
    let frac? : Option (List Char × List Char) := match cs2 with
      | '.' :: r =>
        let (ds, r2) := spanDigits r
        if ds = [] then none else some ('.' :: ds, r2)
      | r => some ([], r)
    match frac? with
    | none => none
    | some (frac, cs3) =>
      let exp? : Option (List Char × List Char) := match cs3 with
        | e :: r =>
          if e = 'e' ∨ e = 'E' then
            let (sg, r1) := match r with
              | '+' :: q => (['+'], q)
              | '-' :: q => (['-'], q)
              | q => ([], q)
            let (ds, r2) := spanDigits r1
            if ds = [] then none else some (e :: sg ++ ds, r2)
          else some ([], e :: r)
        | [] => some ([], [])
      match exp? with
      | none => none
      | some (exp, cs4) => some (String.mk (sign ++ int ++ frac ++ exp), cs4)

/-- Strip the characters of `lit.toList` from the front of the input. -/
def expect (lit : String) (cs : List Char) : Option (List Char) :=
  if lit.toList.isPrefixOf cs then some (cs.drop lit.length) else none

/-- Set `key` to `v` in the members of a map: a repeated key keeps the last value. -/
def JSON.setMember (m : List (String × JSON)) (key : String) (v : JSON) :
    List (String × JSON) :=
  if m.any (fun kv => kv.1 == key) then
    m.map fun kv => if kv.1 == key then (key, v) else kv
  else m ++ [(key, v)]

mutual
/-- One JSON value after optional white space; `fuel` bounds the number of values. -/
def parseValue : Nat → List Char → Option (JSON × List Char)
  | 0, _ => none
  | fuel + 1, cs =>
    match skipWS cs with
    | [] => none
    | c :: rest =>
      if c = '\x7b' then
        match skipWS rest with
        | d :: rest2 =>
          if d = '\x7d' then some (.obj [], rest2) else parseMembers fuel (d :: rest2) []
        | [] => none
      else if c = '[' then
        match skipWS rest with
        | d :: rest2 =>
          if d = ']' then some (.arr [], rest2) else parseItems fuel (d :: rest2) []
        | [] => none
      else if c = '\x22' then
        match parseString rest [] with
        | some (s, rest2) => some (.str s, rest2)
        | none => none
      else if c = 't' then (expect "rue" rest).map fun r => (.bool true, r)
      else if c = 'f' then (expect "alse" rest).map fun r => (.bool false, r)
      else if c = 'n' then (expect "ull" rest).map fun r => (.null, r)
      else
        match parseNumber (c :: rest) with
        | some (lit, rest2) => some (.num lit, rest2)
        | none => none
/-- The members of an object after its opening brace, up to the closing brace. -/
def parseMembers : Nat → List Char → List (String × JSON) → Option (JSON × List Char)
  | 0, _, _ => none
  | fuel + 1, cs, acc =>
    match skipWS cs with
    | q :: rest =>
      if q = '\x22' then
        match parseString rest [] with
        | none => none
        | some (key, r1) =>
          match skipWS r1 with
          | colon :: r2 =>
            if colon = ':' then
              match parseValue fuel r2 with
              | none => none
              | some (v, r3) =>
                match skipWS r3 with
                | sep :: r4 =>
                  if sep = ',' then parseMembers fuel r4 (JSON.setMember acc key v)
                  else if sep = '\x7d' then some (.obj (JSON.setMember acc key v), r4)
                  else none
                | [] => none
            else none
          | [] => none
      else none
    | [] => none
/-- The items of an array after its opening bracket, up to the closing bracket. -/
def parseItems : Nat → List Char → List JSON → Option (JSON × List Char)
  | 0, _, _ => none
  | fuel + 1, cs, acc =>
    match parseValue fuel cs with
    | none => none
    | some (v, r1) =>
      match skipWS r1 with
      | sep :: r2 =>
        if sep = ',' then parseItems fuel r2 (acc ++ [v])
        else if sep = ']' then some (.arr (acc ++ [v]), r2)
        else none
      | [] => none
end

/-- Decode a whole text: one value, then only white space. The fuel is enough for
every input, since each value parsed consumes at least one character. -/
def parseJSON (text : String) : Option JSON :=
  match parseValue (text.length + 1) text.toList with
  | some (v, rest) => if skipWS rest = [] then some v else none
  | none => none

/-- A struct field of type `string`: absent or null leaves the zero value. -/
def fieldString (m : List (String × JSON)) (key : String) : Option String :=
  match JSON.index m key with
  | none => some ""
  | some .null => some ""
  | some (.str s) => some s
  | some _ => none

/-- A struct field of type `int64`: absent or null leaves zero; the literal has to be
an integer in decimal digits. -/
def fieldInt (m : List (String × JSON)) (key : String) : Option Int :=
  match JSON.index m key with
  | none => some 0
  | some .null => some 0
  | some (.num lit) => lit.toInt?
  | some _ => none

/-- One element of a `[]CommandOutput`. -/
def toCommandOutput : JSON → Option CommandOutput
  | .null => some { Output := "", At := 0 }
  | .obj m =>
    match fieldString m "output", fieldInt m "at" with
    | some o, some a => some { Output := o, At := a }
    | _, _ => none
  | _ => none

/-- A struct field of type `[]CommandOutput`. -/
def fieldOutputs (m : List (String × JSON)) (key : String) : Option (List CommandOutput) :=
  match JSON.index m key with
  | none => some []
  | some .null => some []
  | some (.arr items) => items.mapM toCommandOutput
  | some _ => none

/-- Decode a JSON value into `Command{}` by the struct tags of lines 37-46: null
leaves the zero Command, an object sets the fields it names, anything else and any
member of the wrong type is an error. -/
def decodeCommand : JSON → Option Command
  | .null => some Command.zero
  | .obj m =>
    match fieldString m "id", fieldString m "server_id", fieldString m "user_id",
      fieldString m "command", fieldOutputs m "stderr", fieldOutputs m "stdout",
      fieldInt m "created_at", fieldInt m "started_at", fieldInt m "completed_at",
      fieldString m "action" with
    | some id, some sid, some uid, some cmd, some err, some out, some cr, some st, some co,
      some act =>
      some { ID := id, ServerID := sid, UserID := uid, Command := cmd, STDERR := err,
             STDOUT := out, CreatedAt := cr, StartedAt := st, CompletedAt := co, Action := act }
    | _, _, _, _, _, _, _, _, _, _ => none
  | _ => none

/-- The concrete decoder. -/
def encodingJSON : JSONLib :=
  { unmarshal := parseJSON, unmarshalCommand := decodeCommand }

/-! ## The session: `main` and `readWebsocket` (lines 75-112, 182-239) -/

/-- What one call `s.ws.ReadMessage()` returns: `msgType, buf, err`. -/
structure ReadMessage where
  msgType : Int
  buf : List Byte
  err : Option String
  deriving DecidableEq, Repr

/-- The constant `websocket.TextMessage`. -/
def TextMessage : Int := 1

/-- The constant `websocket.BinaryMessage`. -/
def BinaryMessage : Int := 2

/-- The conversion `string(buf)`: the string with the bytes of `buf`, one character
per byte. -/
def goString (buf : List Byte) : String :=
  String.mk (buf.map fun b => Char.ofNat b.val)

/-- The conversion `[]byte(s)` for a string of one-byte characters. -/
def goBytes (s : String) : List Byte :=
  s.toList.map fun c => Fin.ofNat c.toNat

/-- A text frame with the given payload, read without error. -/
def textFrame (payload : String) : ReadMessage :=
  { msgType := TextMessage, buf := goBytes payload, err := none }

/-- A binary frame with the given payload, read without error. -/
def binaryFrame (payload : List Byte) : ReadMessage :=
  { msgType := BinaryMessage, buf := payload, err := none }

/-- A goroutine started by the read loop with a `go` statement. -/
inductive Task where
  /-- The function literal of lines 216-221. -/
  | subscribe
  /-- The call `go s.executeCommand(newCmd)` of line 231. -/
  | executeCommand (newCmd : Command)
  deriving DecidableEq, Repr

/-- Where the goroutine running `readWebsocket` is. -/
inductive Status where
  /-- In the `for` loop, about to call `ReadMessage`. -/
  | running
  /-- The function returned. -/
  | returned
  /-- A `panic` left the goroutine; the Go runtime then ends the process. -/
  | panicked (why : String)
  deriving DecidableEq, Repr

/-- The session as the read loop sees and changes it. -/
structure Session where
  /-- The results the coming `ReadMessage` calls return, in order. -/
  inbox : List ReadMessage
  /-- The frame renderings written to standard output by line 203 (the other
  diagnostic prints of the loop are not recorded). -/
  display : List String
  /-- The goroutines started so far, in order. -/
  spawned : List Task
  /-- The errors sent on `s.errChan`, which `main` receives from. -/
  errChan : List String
  status : Status
  deriving DecidableEq, Repr

/-- Lines 203-237 of the loop body, for the rendering `text` of the frame: display
it, decode it, and dispatch on `m["action"]`. -/
def dispatch (lib : JSONLib) (s : Session) (text : String) : Session :=
  let s := { s with display := s.display ++ ["< " ++ text ++ "\n"] }
  match lib.unmarshal text with
  | none => { s with status := .panicked "check: json.Unmarshal" }
  | some (.obj m) =>
    let action := JSON.index m "action"
    if JSON.eqString action "connected" then
      { s with spawned := s.spawned ++ [.subscribe] }
    else if JSON.eqString action "output_command" then s
    else if JSON.eqString action "new_commands" then
      match lib.unmarshalCommand ((JSON.index m "new_val").getD .null) with
      | none => { s with status := .panicked "check: json.Unmarshal" }
      | some newCmd => { s with spawned := s.spawned ++ [.executeCommand newCmd] }
    else if JSON.eqString action "update_command" then s
    else { s with status := .returned }
  | some _ => { s with status := .panicked "interface conversion" }

/-- One pass of the `for` loop of `readWebsocket` (lines 186-237) on the result `r`
of its `ReadMessage` call. -/
def iteration (lib : JSONLib) (s : Session) (r : ReadMessage) : Session :=
  match r.err with
  | some e => { s with errChan := s.errChan ++ [e], status := .returned }
  | none =>
    if r.msgType = TextMessage then dispatch lib s (goString r.buf)
    else if r.msgType = BinaryMessage then dispatch lib s (bytesToFormattedHex r.buf)
    else
      { s with errChan := s.errChan ++ ["unknown websocket frame type: " ++ toString r.msgType],
               status := .returned }

/-- The `for` loop on the frames still to come: it ends when a pass returns or
panics; when no frame is left, `ReadMessage` blocks and the loop is still running. -/
def readLoop (lib : JSONLib) : List ReadMessage → Session → Session
  | [], s => s
  | r :: rest, s =>
    let s1 := iteration lib { s with inbox := rest } r
    match s1.status with
    | .running => readLoop lib rest s1
    | _ => s1

/-- The method `readWebsocket`: the loop, entered only while the goroutine is running. -/
def readWebsocket (lib : JSONLib) (s : Session) : Session :=
  match s.status with
  | .running => readLoop lib s.inbox s
  | _ => s

/-- How the process of `main` ends. -/
inductive Exit where
  /-- The receive `<-sess.errChan` got a value and `main` returned. -/
  | returned
  /-- A panic in a goroutine ended the process. -/
  | crashed
  /-- The function `main` stays blocked in `<-sess.errChan`: nothing was or will be sent. -/
  | blocked
  deriving DecidableEq, Repr

/-- How `main` ends for a final state of the read loop: a panic ends the process;
otherwise `<-sess.errChan` returns only if something was sent on the channel. -/
def Session.exit (s : Session) : Exit :=
  match s.status with
  | .panicked _ => .crashed
  | _ => if s.errChan = [] then .blocked else .returned

/-- The function `main` from line 105 on, for a configuration already loaded and a connection
already dialled whose reads return `frames`: start `readWebsocket` and wait on
`errChan`. The result is the final session and how `main` ends. -/
def main (lib : JSONLib) (_config : Config) (frames : List ReadMessage) : Session × Exit :=
  let sess : Session :=
    { inbox := frames, display := [], spawned := [], errChan := [], status := .running }
  let s := readWebsocket lib sess
  (s, s.exit)

/-- The commands handed to `executeCommand`, in spawn order. -/
def launched (tasks : List Task) : List Command :=
  tasks.filterMap fun t => match t with
    | .subscribe => none
    | .executeCommand c => some c

/-! ## The connection: `writeWebSocket` (lines 172-180)

The method `writeWebSocket` calls `s.ws.WriteMessage` and logs an error if there is
one. It takes no lock, and it is called from the subscription goroutines (line 219)
and from the two capture goroutines of every executor (lines 146, 160), which all
run at once. A send is therefore two steps of the caller, the call of `WriteMessage`
and its return, and other goroutines can take steps in between. -/

/-- The two output streams of the subprocess. -/
inductive Stream where
  | stdout
  | stderr
  deriving DecidableEq, Repr

/-- A goroutine that calls `writeWebSocket`. -/
inductive Writer where
  /-- A capture goroutine of the executor under study (lines 136-148, 150-162). -/
  | capture (st : Stream)
  /-- The subscription goroutine started for the connected frame number `i`. -/
  | subscribe (i : Nat)
  /-- One of several goroutines that each send a list of frames. -/
  | producer (i : Nat)
  /-- Any other goroutine of the process. -/
  | other
  deriving DecidableEq, Repr

/-- The connection `s.ws` as its writers see it. -/
structure Conn where
  /-- Every call of `WriteMessage` so far, in the order of the calls. -/
  calls : List (Writer × Frame)
  /-- The calls that have not returned. -/
  inflight : List (Writer × Frame)
  /-- The frames transmitted whole, in the order in which their calls returned. -/
  wire : List (Writer × Frame)
  /-- Whether some call began while another had not returned. The library then panics
  or mixes the bytes of the frames: what is transmitted from then on is not decided
  by main.go, and nothing more is added to `wire`. -/
  clashed : Bool
  /-- The number of calls that returned an error (the frame was not sent). -/
  dropped : Nat
  deriving DecidableEq, Repr

/-- The connection before any send. -/
def Conn.idle : Conn :=
  { calls := [], inflight := [], wire := [], clashed := false, dropped := 0 }

/-- The first half of `writeWebSocket(msg)` (line 173): `WriteMessage` is called. -/
def Conn.call (k : Conn) (w : Writer) (msg : Frame) : Conn :=
  { k with calls := k.calls ++ [(w, msg)], inflight := k.inflight ++ [(w, msg)],
           clashed := k.clashed || !k.inflight.isEmpty }

/-- Take the first call of the writer `w` out of the calls in flight. -/
def takeOut (w : Writer) :
    List (Writer × Frame) → Option ((Writer × Frame) × List (Writer × Frame))
  | [] => none
  | x :: xs =>
    if x.1 = w then some (x, xs)
    else
      match takeOut w xs with
      | some (y, ys) => some (y, x :: ys)
      | none => none

/-- The second half of `writeWebSocket` (lines 173-179): the call of the writer `w`
returns, with `ok = false` when it returns an error, which is logged. The frame is
transmitted whole when the call succeeds and no two calls have overlapped. -/
def Conn.ret (k : Conn) (w : Writer) (ok : Bool) : Conn :=
  match takeOut w k.inflight with
  | none => k
  | some (x, rest) =>
    { k with inflight := rest,
             wire := if ok && !k.clashed then k.wire ++ [x] else k.wire,
             dropped := if ok then k.dropped else k.dropped + 1 }

/-! ## `executeCommand` and its capture goroutines (lines 119-170)

`executeCommand` runs three threads of control on one shared `Command` variable `c`:
its own body and the two function literals started with `go`. The model is a
transition system whose steps are the statements of the source, taken one at a
time by whichever thread is scheduled. A statement that reads the clock and stores
the result in `c` is two steps, and so is a send (see `Conn`). The subprocess, the
clock and the other goroutines that write on the connection are the environment.
The process can end at any point (a panic in any goroutine): an execution that ends
early is a shorter schedule. -/

/-- An `exec.Cmd`, as far as `exec.Command` fills it in. -/
structure Cmd where
  Path : String
  Args : List String
  deriving DecidableEq, Repr

/-- Go's `exec.Command(name, arg...)`: the command `name` with the arguments `arg`;
`Args` holds the name followed by the arguments. (`Path` is the name as given: the
lookup of the executable in the search path is not modelled.) -/
def execCommand (name : String) (arg : List String) : Cmd :=
  { Path := name, Args := name :: arg }

/-- The subprocess. -/
inductive Proc where
  /-- The call `cmd.Start` has not been made. -/
  | notStarted
  /-- The call `cmd.Start` returned an error: there is no subprocess and the pipes are closed. -/
  | failed
  | running
  | exited
  deriving DecidableEq, Repr

/-- The next statement of the body of `executeCommand`. -/
inductive MainPc where
  /-- Before line 120. -/
  | entry
  /-- After lines 120-124: `cmd` and its two pipes exist. -/
  | created
  /-- In line 127: `time.Now().Unix()` returned `t`, not yet stored. -/
  | timedStart (t : Int)
  /-- After line 127: `c.StartedAt` is set. -/
  | stamped
  /-- After line 129, `cmd.Start()`, and the scanners of lines 131-134. -/
  | started
  /-- After the `go` statement of lines 136-148. -/
  | forkedStdout
  /-- After the `go` statement of lines 150-162: at `cmd.Wait()`. -/
  | forkedStderr
  /-- After line 164: `cmd.Wait()` returned. -/
  | waited
  /-- In line 167: `time.Now().Unix()` returned `t`, not yet stored. -/
  | timedEnd (t : Int)
  /-- After line 167, `c.CompletedAt` is set, and the return. -/
  | returned
  /-- The index expression `args[0]` panicked (never the case, see `GetArgs_ne_nil`). -/
  | panicked
  deriving DecidableEq, Repr

/-- Whether `cmd.Wait()` (line 164) has returned. -/
def MainPc.pastWait : MainPc → Bool
  | .waited => true
  | .timedEnd _ => true
  | .returned => true
  | _ => false

/-- The next statement of a capture goroutine. -/
inductive ReaderPc where
  /-- The goroutine has not been started. -/
  | idle
  /-- At the loop condition `scanner.Scan()`. -/
  | scan
  /-- The call `Scan` returned true and `m := scanner.Text()` was read (lines 138, 152). -/
  | text (m : String)
  /-- After `out := CommandOutput{Output: m, At: time.Now().Unix()}` (lines 141, 155). -/
  | out (o : CommandOutput)
  /-- After the first of the two assignments to `c` (line 142, line 156). -/
  | half (o : CommandOutput)
  /-- After the second assignment to `c` (line 143, line 157). -/
  | ready
  /-- After `jstr, err := json.Marshal(c)` (lines 144, 158): the value marshalled. -/
  | marshalled (jstr : Command)
  /-- In `writeWebSocket` (lines 146, 160): `WriteMessage` was called and has not returned. -/
  | writing
  /-- The call `Scan` returned false: the goroutine ended. -/
  | done
  deriving DecidableEq, Repr

/-- The state of one execution of `executeCommand`. -/
structure Exec where
  /-- The parameter `c`, shared by the body and both goroutines. -/
  c : Command
  /-- The variable `cmd`. -/
  cmd : Option Cmd
  main : MainPc
  stdoutPc : ReaderPc
  stderrPc : ReaderPc
  /-- Whether the operating system can start the executable. -/
  startOK : Bool
  proc : Proc
  /-- The lines the subprocess wrote to its standard output that were not read yet. -/
  stdoutPipe : List String
  /-- The lines the subprocess wrote to its standard error that were not read yet. -/
  stderrPipe : List String
  /-- The Unix time `time.Now().Unix()` returns. -/
  now : Int
  /-- The connection `s.ws`. -/
  conn : Conn
  deriving DecidableEq, Repr

/-- The call `s.executeCommand(c)` at time `now`, on a connection with no send in
flight. -/
def Exec.init (c : Command) (now : Int) (startOK : Bool) : Exec :=
  { c := c, cmd := none, main := .entry, stdoutPc := .idle, stderrPc := .idle,
    startOK := startOK, proc := .notStarted, stdoutPipe := [], stderrPipe := [],
    now := now, conn := Conn.idle }

/-- The frames the capture goroutines handed to `writeWebSocket`, in the order of the
calls: the calling goroutine and the `Command` value that was marshalled. -/
def sentBy : List (Writer × Frame) → List (Stream × Command)
  | [] => []
  | (.capture st, .command v) :: rest => (st, v) :: sentBy rest
  | _ :: rest => sentBy rest

/-- The frames the capture goroutines of this execution handed to `writeWebSocket`. -/
def Exec.sent (s : Exec) : List (Stream × Command) :=
  sentBy s.conn.calls

/-- One step of the body of `executeCommand`; `none` when it cannot run
(`cmd.Wait()` before the subprocess is gone, or after the return). -/
def stepMain (s : Exec) : Option Exec :=
  match s.main with
  | .entry =>
    match s.c.GetArgs with
    | name :: _ => some { s with cmd := some (execCommand name []), main := .created }
    | [] => some { s with main := .panicked }
  | .created => some { s with main := .timedStart s.now }
  | .timedStart t => some { s with c := { s.c with StartedAt := t }, main := .stamped }
  | .stamped =>
    some { s with proc := if s.startOK then .running else .failed, main := .started }
  | .started => some { s with stdoutPc := .scan, main := .forkedStdout }
  | .forkedStdout => some { s with stderrPc := .scan, main := .forkedStderr }
  | .forkedStderr =>
    if s.proc = .exited ∨ s.proc = .failed then some { s with main := .waited } else none
  | .waited => some { s with main := .timedEnd s.now }
  | .timedEnd t => some { s with c := { s.c with CompletedAt := t }, main := .returned }
  | .returned => none
  | .panicked => none

/-- One step of the goroutine of lines 136-148 (standard output); `none` when it
cannot run (not started, ended, or `Scan` waiting for the subprocess). -/
def stepStdout (s : Exec) : Option Exec :=
  match s.stdoutPc with
  | .idle => none
  | .scan =>
    match s.stdoutPipe with
    | m :: rest => some { s with stdoutPipe := rest, stdoutPc := .text m }
    | [] =>
      if s.proc = .exited ∨ s.proc = .failed then some { s with stdoutPc := .done } else none
  | .text m => some { s with stdoutPc := .out { Output := m, At := s.now } }
  | .out o => some { s with c := { s.c with STDOUT := s.c.STDOUT ++ [o] }, stdoutPc := .half o }
  | .half _ => some { s with c := { s.c with Action := "update_command" }, stdoutPc := .ready }
  | .ready => some { s with stdoutPc := .marshalled s.c }
  | .marshalled jstr =>
    some { s with conn := s.conn.call (.capture .stdout) (.command jstr), stdoutPc := .writing }
  | .writing => some { s with conn := s.conn.ret (.capture .stdout) true, stdoutPc := .scan }
  | .done => none

/-- One step of the goroutine of lines 150-162 (standard error), which sets
`c.Action` before it appends. -/
def stepStderr (s : Exec) : Option Exec :=
  match s.stderrPc with
  | .idle => none
  | .scan =>
    match s.stderrPipe with
    | m :: rest => some { s with stderrPipe := rest, stderrPc := .text m }
    | [] =>
      if s.proc = .exited ∨ s.proc = .failed then some { s with stderrPc := .done } else none
  | .text m => some { s with stderrPc := .out { Output := m, At := s.now } }
  | .out o => some { s with c := { s.c with Action := "update_command" }, stderrPc := .half o }
  | .half o => some { s with c := { s.c with STDERR := s.c.STDERR ++ [o] }, stderrPc := .ready }
  | .ready => some { s with stderrPc := .marshalled s.c }
  | .marshalled jstr =>
    some { s with conn := s.conn.call (.capture .stderr) (.command jstr), stderrPc := .writing }
  | .writing => some { s with conn := s.conn.ret (.capture .stderr) true, stderrPc := .scan }
  | .done => none

/-- What happens next. -/
inductive Action where
  /-- The body of `executeCommand` takes its next step. -/
  | main
  /-- The capture goroutine of the stream takes its next step; a send succeeds. -/
  | reader (st : Stream)
  /-- The send of the capture goroutine of the stream returns an error. -/
  | fail (st : Stream)
  /-- The subprocess writes a line to the stream. -/
  | emit (st : Stream) (line : String)
  /-- The subprocess exits. -/
  | exit
  /-- Data still unread in a pipe is lost: `cmd.Wait()` closed the pipe. -/
  | lose (st : Stream)
  /-- The clock advances by `d` seconds: it never goes back. -/
  | tick (d : Nat)
  /-- Another goroutine of the process calls `writeWebSocket` with the frame. -/
  | otherCall (msg : Frame)
  /-- A send of another goroutine returns. -/
  | otherRet (ok : Bool)
  deriving DecidableEq, Repr

/-- One step of the system; `none` when the action is not possible in the state. -/
def step (a : Action) (s : Exec) : Option Exec :=
  match a with
  | .main => stepMain s
  | .reader .stdout => stepStdout s
  | .reader .stderr => stepStderr s
  | .fail .stdout =>
    if s.stdoutPc = .writing then
      some { s with conn := s.conn.ret (.capture .stdout) false, stdoutPc := .scan }
    else none
  | .fail .stderr =>
    if s.stderrPc = .writing then
      some { s with conn := s.conn.ret (.capture .stderr) false, stderrPc := .scan }
    else none
  | .emit .stdout line =>
    if s.proc = .running then some { s with stdoutPipe := s.stdoutPipe ++ [line] } else none
  | .emit .stderr line =>
    if s.proc = .running then some { s with stderrPipe := s.stderrPipe ++ [line] } else none
  | .exit => if s.proc = .running then some { s with proc := .exited } else none
  | .lose .stdout =>
    if s.main.pastWait then some { s with stdoutPipe := [] } else none
  | .lose .stderr =>
    if s.main.pastWait then some { s with stderrPipe := [] } else none
  | .tick d => some { s with now := s.now + d }
  | .otherCall msg => some { s with conn := s.conn.call .other msg }
  | .otherRet ok => some { s with conn := s.conn.ret .other ok }

/-- Run a schedule: the actions in order; `none` when one of them is not possible. -/
def run : List Action → Exec → Option Exec
  | [], s => some s
  | a :: rest, s =>
    match step a s with
    | some s1 => run rest s1
    | none => none

/-- The records appended to the standard-output sequence since the call with `c0`. -/
def appendedStdout (c0 : Command) (s : Exec) : List CommandOutput :=
  s.c.STDOUT.drop c0.STDOUT.length

/-- The records appended to the standard-error sequence since the call with `c0`. -/
def appendedStderr (c0 : Command) (s : Exec) : List CommandOutput :=
  s.c.STDERR.drop c0.STDERR.length

/-- The final state of a schedule, or the initial state when the schedule cannot run. -/
def finalState (sched : List Action) (s : Exec) : Exec :=
  (run sched s).getD s

/-! ## The session with its subscription goroutines (lines 182-239, 216-221)

The read loop of `readWebsocket` together with the goroutines it starts for connected
frames, all writing on the one connection, and the other writers of the process as
the environment. -/

/-- The next statement of a subscription goroutine (lines 216-221). -/
inductive SubPc where
  /-- Started, before line 217. -/
  | start
  /-- In `writeWebSocket` (line 219): `WriteMessage` was called and has not returned. -/
  | writing
  /-- After `check(err)` (line 220): the goroutine ended. -/
  | done
  deriving DecidableEq, Repr

/-- The frame of lines 217-218: `NewCommands{Action: "new_commands", ServerID: "abc123"}`
marshalled. -/
def subscription : Frame :=
  .newCommands { Action := "new_commands", ServerID := "abc123" }

/-- The goroutine number `i` takes a step: the new list, and where the goroutine was. -/
def advance : Nat → List SubPc → Option (List SubPc × SubPc)
  | _, [] => none
  | 0, .start :: ps => some (.writing :: ps, .start)
  | 0, .writing :: ps => some (.done :: ps, .writing)
  | 0, .done :: _ => none
  | i + 1, p :: ps =>
    match advance i ps with
    | some (qs, old) => some (p :: qs, old)
    | none => none

/-- The process of `main`: the read loop, the subscription goroutines in the order in
which they were started, the connection, and whether the process has ended. -/
structure Live where
  sess : Session
  subs : List SubPc
  conn : Conn
  dead : Bool
  deriving DecidableEq, Repr

/-- The process of `main` from line 105 on: nothing read, no goroutine started. -/
def Live.init (_config : Config) (frames : List ReadMessage) : Live :=
  { sess := { inbox := frames, display := [], spawned := [], errChan := [], status := .running },
    subs := [], conn := Conn.idle, dead := false }

/-- What happens next in the process. -/
inductive LiveAction where
  /-- The read loop makes one pass: it reads the next frame and dispatches it. -/
  | loop
  /-- The subscription goroutine number `i` takes its next step; a send succeeds. -/
  | sub (i : Nat)
  /-- The send of the subscription goroutine number `i` returns an error. -/
  | subFail (i : Nat)
  /-- Another goroutine (a capture goroutine of an executor) calls `writeWebSocket`. -/
  | otherCall (msg : Frame)
  /-- A send of another goroutine returns. -/
  | otherRet (ok : Bool)
  /-- The library panics on the overlapping sends: the process ends. -/
  | crash
  deriving DecidableEq, Repr

/-- One step of the process; `none` when the action is not possible. A pass of the
read loop that ends in a panic, or that returns after sending on `errChan` (so that
`main` returns), ends the process with all its goroutines. -/
def liveStep (lib : JSONLib) (a : LiveAction) (p : Live) : Option Live :=
  if p.dead then none
  else
    match a with
    | .loop =>
      match p.sess.status, p.sess.inbox with
      | .running, r :: rest =>
        let s1 := iteration lib { p.sess with inbox := rest } r
        some { p with
          sess := s1
          subs := p.subs ++
            List.replicate (s1.spawned.count .subscribe - p.sess.spawned.count .subscribe) .start
          dead := decide (s1.exit ≠ .blocked) }
      | _, _ => none
    | .sub i =>
      match advance i p.subs with
      | some (qs, .start) =>
        some { p with subs := qs, conn := p.conn.call (.subscribe i) subscription }
      | some (qs, .writing) => some { p with subs := qs, conn := p.conn.ret (.subscribe i) true }
      | _ => none
    | .subFail i =>
      match advance i p.subs with
      | some (qs, .writing) => some { p with subs := qs, conn := p.conn.ret (.subscribe i) false }
      | _ => none
    | .otherCall msg => some { p with conn := p.conn.call .other msg }
    | .otherRet ok => some { p with conn := p.conn.ret .other ok }
    | .crash => if p.conn.clashed then some { p with dead := true } else none

/-- Run a schedule of the process. -/
def liveRun (lib : JSONLib) : List LiveAction → Live → Option Live
  | [], p => some p
  | a :: rest, p =>
    match liveStep lib a p with
    | some p1 => liveRun lib rest p1
    | none => none

/-- The final state of a schedule of the process, or the initial one when it cannot run. -/
def liveFinal (lib : JSONLib) (sched : List LiveAction) (p : Live) : Live :=
  (liveRun lib sched p).getD p

/-! ## Several producers on one connection -/

/-- A goroutine that calls `writeWebSocket` once for each frame of a list, in order. -/
structure Producer where
  /-- The frames still to send. -/
  pending : List Frame
  /-- Whether the goroutine is in `writeWebSocket`: `WriteMessage` has not returned. -/
  sending : Bool
  deriving DecidableEq, Repr

/-- The producer at position `j` of the list, whose number is `id`, takes its next
step: it calls `WriteMessage` with its next frame, or the call returns (`ok = false`:
with an error). -/
def stepAt (id : Nat) (ok : Bool) : Nat → List Producer → Conn → Option (List Producer × Conn)
  | _, [], _ => none
  | 0, p :: ps, k =>
    if p.sending then some ({ p with sending := false } :: ps, k.ret (.producer id) ok)
    else
      match p.pending with
      | msg :: rest =>
        if ok then some ({ pending := rest, sending := true } :: ps, k.call (.producer id) msg)
        else none
      | [] => none
  | j + 1, p :: ps, k =>
    match stepAt id ok j ps k with
    | some (qs, k1) => some (p :: qs, k1)
    | none => none

/-- The producers and the connection they share. -/
structure Writers where
  producers : List Producer
  conn : Conn
  deriving DecidableEq, Repr

/-- The producers before their first call: producer `i` is to send `frames[i]`. -/
def Writers.init (frames : List (List Frame)) : Writers :=
  { producers := frames.map fun l => { pending := l, sending := false }, conn := Conn.idle }

/-- What happens next among the producers. -/
inductive WriterAction where
  /-- The producer takes its next step; a send succeeds. -/
  | next (i : Nat)
  /-- The send of the producer returns an error. -/
  | fail (i : Nat)
  deriving DecidableEq, Repr

/-- One step of the producers; `none` when the action is not possible. -/
def writersStep (a : WriterAction) (w : Writers) : Option Writers :=
  match a with
  | .next i =>
    match stepAt i true i w.producers w.conn with
    | some (qs, k) => some { producers := qs, conn := k }
    | none => none
  | .fail i =>
    match stepAt i false i w.producers w.conn with
    | some (qs, k) => some { producers := qs, conn := k }
    | none => none

/-- Run a schedule of the producers. -/
def writersRun : List WriterAction → Writers → Option Writers
  | [], w => some w
  | a :: rest, w =>
    match writersStep a w with
    | some w1 => writersRun rest w1
    | none => none

/-- The final state of a schedule of the producers, or the initial one when it cannot
run. -/
def writersFinal (sched : List WriterAction) (w : Writers) : Writers :=
  (writersRun sched w).getD w

/-- The number of frames the producers have not yet handed to `WriteMessage`. -/
def remaining (ps : List Producer) : Nat :=
  (ps.map fun p => p.pending.length).sum

/-- The number of producers that are in `writeWebSocket`. -/
def sendingCount (ps : List Producer) : Nat :=
  (ps.filter fun p => p.sending).length

/-- The four action tags the read loop knows. -/
def knownActions : List String :=
  ["connected", "output_command", "new_commands", "update_command"]

/-- A property every decoder of the JSON grammar has: only a text whose first character
after white space is an opening brace decodes to an object. -/
def JSONLib.objectsStartWithBrace (lib : JSONLib) : Prop :=
  ∀ text m, lib.unmarshal text = some (.obj m) →
    ∃ rest, skipWS text.toList = '\x7b' :: rest

/-! ## Invariants and concrete executions used in the theorems -/

/-- The snapshot `a` of a Command is not ahead of `b`: each output sequence of `a` is a
prefix of the same sequence of `b`. -/
def Command.earlier (a b : Minion.Command) : Prop :=
  a.STDOUT <+: b.STDOUT ∧ a.STDERR <+: b.STDERR

/-- The body of `executeCommand` has stored `c.StartedAt` (line 127). -/
def MainPc.stamped? : MainPc → Bool
  | .entry => false
  | .created => false
  | .timedStart _ => false
  | .panicked => false
  | _ => true

/-- The local variable `out` of a capture goroutine, while it holds a record that
was stamped (lines 141, 155). -/
def ReaderPc.pending : ReaderPc → Option CommandOutput
  | .out o => some o
  | .half o => some o
  | _ => none

/-- The invariant of the connection: while no two calls have overlapped, at most one
call is in flight, and if moreover no call failed, the frames transmitted followed by
the call in flight are the calls made. -/
def Conn.Whole (k : Conn) : Prop :=
  k.clashed = false →
    k.inflight.length ≤ 1 ∧ (k.dropped = 0 → k.wire ++ k.inflight = k.calls)

/-- The invariant behind the order of frames: every frame handed to `writeWebSocket`,
and every value marshalled but not yet handed over, is a snapshot not ahead of `c`;
the value a goroutine holds carries that goroutine's own sequence as it is in `c`, and
is not behind the frames that goroutine sent; and a frame carries its sender's own
sequence at least as far as every frame before it, and both sequences at least as far
as every earlier frame of the same sender. -/
def WireInv (s : Exec) : Prop :=
  (∀ f ∈ s.sent, Command.earlier f.2 s.c) ∧
  (∀ j, s.stdoutPc = .marshalled j →
    Command.earlier j s.c ∧ j.STDOUT = s.c.STDOUT ∧
      ∀ f ∈ s.sent, f.1 = .stdout → Command.earlier f.2 j) ∧
  (∀ j, s.stderrPc = .marshalled j →
    Command.earlier j s.c ∧ j.STDERR = s.c.STDERR ∧
      ∀ f ∈ s.sent, f.1 = .stderr → Command.earlier f.2 j) ∧
  s.sent.Pairwise (fun f g =>
    (g.1 = .stdout → f.2.STDOUT <+: g.2.STDOUT) ∧
    (g.1 = .stderr → f.2.STDERR <+: g.2.STDERR) ∧
    (f.1 = g.1 → Command.earlier f.2 g.2))

/-- The invariant behind the time stamps: the output sequences are those of the call
followed by the records appended since; `c.StartedAt` is stored before either
goroutine exists and before anything is appended; every record appended or held in a
variable `out` was stamped between `c.StartedAt` and the present; a time read by the
body is not in the future; and the completion time is not before the start time. -/
def TimeInv (c0 : Command) (s : Exec) : Prop :=
  (∃ xs, s.c.STDOUT = c0.STDOUT ++ xs ∧ ∀ r ∈ xs, s.c.StartedAt ≤ r.At ∧ r.At ≤ s.now) ∧
  (∃ ys, s.c.STDERR = c0.STDERR ++ ys ∧ ∀ r ∈ ys, s.c.StartedAt ≤ r.At ∧ r.At ≤ s.now) ∧
  (s.main.stamped? = true → s.c.StartedAt ≤ s.now) ∧
  (s.main.stamped? = false →
    s.c.STDOUT = c0.STDOUT ∧ s.c.STDERR = c0.STDERR ∧ s.stdoutPc = .idle ∧ s.stderrPc = .idle) ∧
  (∀ o, s.stdoutPc.pending = some o → s.c.StartedAt ≤ o.At ∧ o.At ≤ s.now) ∧
  (∀ o, s.stderrPc.pending = some o → s.c.StartedAt ≤ o.At ∧ o.At ≤ s.now) ∧
  (∀ t, s.main = .timedStart t → t ≤ s.now) ∧
  (∀ t, s.main = .timedEnd t → s.c.StartedAt ≤ t ∧ t ≤ s.now) ∧
  (s.main = .returned → s.c.StartedAt ≤ s.c.CompletedAt)

/-- The invariant after the body has read the completion time `t` (line 167) in a state
whose start time is `st`: the start time stays, and the completion time, once stored,
is `t`. -/
def EndInv (st t : Int) (s : Exec) : Prop :=
  s.c.StartedAt = st ∧ (s.main = .timedEnd t ∨ (s.main = .returned ∧ s.c.CompletedAt = t))

/-- The invariant of an execution whose executable cannot be started: there is never
a subprocess, the pipes stay empty, the goroutines only ever find the end of their
stream, nothing is appended, and every send on the connection is another goroutine's. -/
def FailInv (c0 : Command) (s : Exec) : Prop :=
  s.startOK = false ∧ s.stdoutPipe = [] ∧ s.stderrPipe = [] ∧
  (s.proc = .notStarted ∨ s.proc = .failed) ∧
  (s.stdoutPc = .idle ∨ s.stdoutPc = .scan ∨ s.stdoutPc = .done) ∧
  (s.stderrPc = .idle ∨ s.stderrPc = .scan ∨ s.stderrPc = .done) ∧
  s.c.STDOUT = c0.STDOUT ∧ s.c.STDERR = c0.STDERR ∧
  (∀ x ∈ s.conn.calls, x.1 = .other)

/-- The invariant of the variable `cmd`: the command line is never changed, and `cmd`,
once created, is the first element of `GetArgs` with no arguments. -/
def CmdInv (c0 : Command) (s : Exec) : Prop :=
  s.c.Command = c0.Command ∧
  (s.cmd = none ∨ ∃ name rest, c0.GetArgs = name :: rest ∧ s.cmd = some (execCommand name []))

/-- The number of calls of `WriteMessage` made by the subscription goroutine `i`. -/
def callsOf (i : Nat) (k : Conn) : Nat :=
  (k.calls.filter fun x => x.1 = .subscribe i).length

/-- The number of calls of the writer `w` that have not returned. -/
def inflightOf (w : Writer) (k : Conn) : Nat :=
  (k.inflight.filter fun x => x.1 = w).length

/-- The invariant of the process: one subscription goroutine for each connected frame
dispatched; a goroutine has made one call once it is past its start and none before;
every such call carries the subscription frame; while the loop runs nothing has been
sent on `errChan`; and a goroutine has a call in flight exactly while it is in
`writeWebSocket`. -/
def LiveInv (p : Live) : Prop :=
  p.subs.length = p.sess.spawned.count .subscribe ∧
  (∀ i, callsOf i p.conn =
    match p.subs[i]? with
    | some .writing => 1
    | some .done => 1
    | _ => 0) ∧
  (∀ x ∈ p.conn.calls, ∀ i, x.1 = .subscribe i → x.2 = subscription) ∧
  (p.sess.status = .running → p.sess.errChan = []) ∧
  (∀ i, inflightOf (.subscribe i) p.conn =
    match p.subs[i]? with
    | some .writing => 1
    | _ => 0)

/-- The command of the happy-path scenario. -/
def echoCommand : Minion.Command :=
  { Command.zero with ID := "1", Command := "echo hi" }

/-- The command of the bad-executable scenario. -/
def missingCommand : Minion.Command :=
  { Command.zero with ID := "2", Command := "definitely-not-a-real-binary" }

/-- A complete execution for an executable that cannot be started: the body runs to
`cmd.Wait()`, both goroutines find their stream closed, a second passes, `Wait`
returns, and the completion time is read and stored. -/
def failedSchedule : List Action :=
  [.main, .main, .main, .main, .main, .main, .reader .stdout, .reader .stderr, .tick 1,
   .main, .main, .main]

/-- An execution in which the subprocess writes one line and exits, the goroutine has
taken the line from its scanner, and `cmd.Wait()` returns and the completion time is
read and stored (the first twelve actions) before the goroutine stamps and appends the
record one second later. -/
def lateSchedule : List Action :=
  [.main, .main, .main, .main, .main, .main, .emit .stdout "hi", .exit, .reader .stdout,
   .main, .main, .main, .tick 1, .reader .stdout, .reader .stdout]

/-- An execution up to the return of `cmd.Wait()`: the standard-error goroutine has
stamped a record at 100, appended it and sent its frame; the standard-output goroutine
has stamped a record at 101 and still holds it in `out`; the time is 102. -/
def stampedSchedule : List Action :=
  [.main, .main, .main, .main, .main, .main, .emit .stderr "e", .emit .stdout "hi",
   .reader .stderr, .reader .stderr, .reader .stderr, .reader .stderr, .reader .stderr,
   .reader .stderr, .reader .stderr,
   .tick 1, .reader .stdout, .reader .stdout, .exit, .tick 1, .main]

/-- The rest of that execution after the completion time is read: the standard-output
goroutine appends the record it held, a second passes, and the body stores the time. -/
def stampedRest : List Action :=
  [.reader .stdout, .tick 1, .main]

/-- An execution in which the subprocess writes one line to each stream: the
standard-output goroutine appends and marshals its record, then the standard-error
goroutine appends, marshals and sends its frame, and only then the standard-output
goroutine sends the frame it had marshalled. No two sends overlap. -/
def reorderSchedule : List Action :=
  [.main, .main, .main, .main, .main, .main, .emit .stdout "a", .emit .stderr "e", .exit,
   .reader .stdout, .reader .stdout, .reader .stdout, .reader .stdout, .reader .stdout,
   .reader .stderr, .reader .stderr, .reader .stderr, .reader .stderr, .reader .stderr,
   .reader .stderr, .reader .stderr,
   .reader .stdout, .reader .stdout]

/-- An execution with three frames: the standard-output goroutine sends the line a,
the standard-error goroutine sends the line e, and the standard-output goroutine sends
the line b. -/
def growSchedule : List Action :=
  [.main, .main, .main, .main, .main, .main, .emit .stdout "a", .emit .stdout "b",
   .emit .stderr "e", .exit,
   .reader .stdout, .reader .stdout, .reader .stdout, .reader .stdout, .reader .stdout,
   .reader .stdout, .reader .stdout,
   .reader .stderr, .reader .stderr, .reader .stderr, .reader .stderr, .reader .stderr,
   .reader .stderr, .reader .stderr,
   .reader .stdout, .reader .stdout, .reader .stdout, .reader .stdout, .reader .stdout,
   .reader .stdout, .reader .stdout]

/-- A text frame whose action is connected. -/
def connectedFrame : ReadMessage :=
  textFrame "\x7b\"action\":\"connected\"\x7d"

/-- A text frame whose action is output_command. -/
def outputFrame : ReadMessage :=
  textFrame "\x7b\"action\":\"output_command\"\x7d"

/-- The configuration of the happy-path scenario, with another server_id. -/
def sampleConfig : Config :=
  { Location := "wss://ctrl.example/ws", ServerID := "srv-7" }

/-- Two connected frames are dispatched, both subscription goroutines call
`WriteMessage` before either call returns, and the library panics. -/
def clashSchedule : List LiveAction :=
  [.loop, .loop, .sub 0, .sub 1, .crash]

/-- One connected frame is dispatched and its goroutine sends the subscription, alone
on the connection: the call returns before anything else happens. -/
def calmSchedule : List LiveAction :=
  [.loop, .sub 0, .sub 0]

/-- Two frames for two producers. -/
def twoFrames : List (List Frame) :=
  [[.newCommands { Action := "new_commands", ServerID := "a" }],
   [.newCommands { Action := "new_commands", ServerID := "b" }]]

/-- The frames of the calls the producer `j` has made, in the order of the calls. -/
def callsBy (j : Nat) (l : List (Writer × Frame)) : List Frame :=
  (l.filter fun x => x.1 = .producer j).map fun x => x.2

/-- The frames the producer `j` has still to send. -/
def pendingAt (j : Nat) (ps : List Producer) : List Frame :=
  match ps[j]? with
  | some p => p.pending
  | none => []

/-- The invariant of the producers: the calls made and the frames still to send are
all the frames; each producer has handed over its frames in their order, as far as it
has come; the calls in flight are as many as the producers in `writeWebSocket`; and a
producer in `writeWebSocket` has a call in flight. -/
def WritersInv (frames : List (List Frame)) (w : Writers) : Prop :=
  w.conn.calls.length + remaining w.producers = (frames.map List.length).sum ∧
  (∀ j, callsBy j w.conn.calls ++ pendingAt j w.producers = (frames[j]?).getD []) ∧
  w.conn.inflight.length = sendingCount w.producers ∧
  (∀ j p, w.producers[j]? = some p → p.sending = true →
    ∃ x ∈ w.conn.inflight, x.1 = .producer j)

/-- Two frames for each of two producers. -/
def pairFrames : List (List Frame) :=
  [[.newCommands { Action := "new_commands", ServerID := "a1" },
    .newCommands { Action := "new_commands", ServerID := "a2" }],
   [.newCommands { Action := "new_commands", ServerID := "b1" },
    .newCommands { Action := "new_commands", ServerID := "b2" }]]

/-- The two producers take turns, and each send returns before the next call. -/
def turnsSchedule : List WriterAction :=
  [.next 0, .next 0, .next 1, .next 1, .next 1, .next 1, .next 0, .next 0]

/-- Both producers call `WriteMessage` before either call returns. -/
def overlapSchedule : List WriterAction :=
  [.next 0, .next 1]

end Minion

/-! # Theorems -/

namespace Minion

/-! ## `GetArgs` -/

theorem splitChars_ne_nil (sep : Char) (cs : List Char) : splitChars sep cs ≠ [] := by
  induction cs with
  | nil => simp [splitChars]
  | cons c cs ih =>
    unfold splitChars
    split
    · simp
    · split
      · simp
      · simp

theorem splitChars_no_sep (sep : Char) (cs : List Char) :
    ∀ t ∈ splitChars sep cs, sep ∉ t := by
  induction cs with
  | nil => simp [splitChars]
  | cons c cs ih =>
    unfold splitChars
    split
    · intro t ht
      rcases List.mem_cons.mp ht with h | h
      · simp [h]
      · exact ih t h
    · rename_i hc
      split
      · intro t ht
        simp only [List.mem_singleton] at ht
        subst ht
        simpa using fun h => hc h.symm
      · rename_i t0 ts heq
        rw [heq] at ih
        intro t ht
        rcases List.mem_cons.mp ht with h | h
        · subst h
          have := ih t0 (List.mem_cons_self _ _)
          simp only [List.mem_cons, not_or]
          exact ⟨fun h => hc h.symm, this⟩
        · exact ih t (List.mem_cons_of_mem _ h)

theorem joinChars_splitChars (sep : Char) (cs : List Char) :
    joinChars sep (splitChars sep cs) = cs := by
  induction cs with
  | nil => simp [splitChars, joinChars]
  | cons c cs ih =>
    unfold splitChars
    split
    · rename_i hc
      cases hsp : splitChars sep cs with
      | nil => exact absurd hsp (splitChars_ne_nil sep cs)
      | cons t ts =>
        rw [hsp] at ih
        simp [joinChars, ih, hc]
    · split
      · rename_i heq
        exact absurd heq (splitChars_ne_nil sep cs)
      · rename_i t0 ts heq
        rw [heq] at ih
        cases ts with
        | nil => simpa [joinChars] using ih
        | cons u us =>
          simp only [joinChars] at ih ⊢
          simp [ih]

theorem splitChars_length (sep : Char) (cs : List Char) :
    (splitChars sep cs).length = cs.count sep + 1 := by
  induction cs with
  | nil => simp [splitChars]
  | cons c cs ih =>
    unfold splitChars
    split
    · rename_i hc
      simp [ih, hc]
    · rename_i hc
      split
      · rename_i heq
        exact absurd heq (splitChars_ne_nil sep cs)
      · rename_i t0 ts heq
        rw [heq] at ih
        simp only [List.length_cons] at ih ⊢
        rw [ih, List.count_cons_of_ne (fun h => hc h.symm)]

/-- The method `GetArgs` never returns the empty slice, so `args[0]` is always in range. -/
theorem GetArgs_ne_nil (c : Command) : c.GetArgs ≠ [] := by
  simp [Command.GetArgs, stringsSplit, splitChars_ne_nil]

/-- The command lines used in the concrete statements below. -/
theorem GetArgs_examples :
    Command.GetArgs { Command.zero with Command := "echo hi" } = ["echo", "hi"] ∧
    Command.GetArgs { Command.zero with Command := "" } = [""] := by
  decide

/-! ## The read loop -/

theorem goString_goBytes_ascii :
    goString (goBytes "not-json") = "not-json" ∧
    goString (goBytes "\x7b\"action\":\"bogus\"\x7d") = "\x7b\"action\":\"bogus\"\x7d" := by
  decide

/-- One pass of the loop on a frame read without error whose rendering is `text`:
what the pass does for each outcome of the two decoding calls. -/
theorem readWebsocket_step (lib : JSONLib) (s : Session) (r : ReadMessage)
    (rest : List ReadMessage) (hrun : s.status = .running) (hin : s.inbox = r :: rest) :
    readWebsocket lib s =
      match (iteration lib { s with inbox := rest } r).status with
      | .running => readWebsocket lib (iteration lib { s with inbox := rest } r)
      | _ => iteration lib { s with inbox := rest } r := by
  have hd : ∀ (t : Session) (text : String), (dispatch lib t text).inbox = t.inbox := by
    intro t text
    unfold dispatch
    dsimp only
    repeat' split
    all_goals rfl
  have hinbox : ∀ t : Session, (iteration lib t r).inbox = t.inbox := by
    intro t
    unfold iteration
    repeat' split
    all_goals first | rfl | exact hd _ _
  obtain ⟨inbox, display, spawned, errChan, status⟩ := s
  simp only at hrun hin
  subst hrun hin
  have hi := hinbox
    { inbox := rest, display := display, spawned := spawned, errChan := errChan,
      status := .running }
  simp only [readWebsocket, readLoop]
  generalize iteration lib _ r = s1 at hi ⊢
  simp only at hi
  cases hst : s1.status <;> simp only [hst, hi]

theorem eqString_iff (v : Option JSON) (a : String) :
    JSON.eqString v a = true ↔ v = some (.str a) := by
  unfold JSON.eqString
  split
  · simp
  · rename_i h
    constructor
    · intro hf
      exact absurd hf (by simp)
    · intro hv
      exact absurd hv (h a)

/-- The dispatch of an object whose action is none of the four known ones: the
default case. -/
theorem dispatch_unknown (lib : JSONLib) (s : Session) (text : String)
    (m : List (String × JSON)) (hobj : lib.unmarshal text = some (.obj m))
    (hact : ∀ a ∈ knownActions, JSON.index m "action" ≠ some (.str a)) :
    dispatch lib s text =
      { s with display := s.display ++ ["< " ++ text ++ "\n"], status := .returned } := by
  have h1 : JSON.eqString (JSON.index m "action") "connected" = false := by
    rw [Bool.eq_false_iff, Ne, eqString_iff]
    exact hact _ (by simp [knownActions])
  have h2 : JSON.eqString (JSON.index m "action") "output_command" = false := by
    rw [Bool.eq_false_iff, Ne, eqString_iff]
    exact hact _ (by simp [knownActions])
  have h3 : JSON.eqString (JSON.index m "action") "new_commands" = false := by
    rw [Bool.eq_false_iff, Ne, eqString_iff]
    exact hact _ (by simp [knownActions])
  have h4 : JSON.eqString (JSON.index m "action") "update_command" = false := by
    rw [Bool.eq_false_iff, Ne, eqString_iff]
    exact hact _ (by simp [knownActions])
  simp [dispatch, hobj, h1, h2, h3, h4]

theorem dispatch_malformed (lib : JSONLib) (s : Session) (text : String)
    (hbad : ∀ m, lib.unmarshal text ≠ some (.obj m)) :
    dispatch lib s text =
      { s with display := s.display ++ ["< " ++ text ++ "\n"],
               status := .panicked (if (lib.unmarshal text).isNone then "check: json.Unmarshal"
                                    else "interface conversion") } := by
  unfold dispatch
  cases h : lib.unmarshal text with
  | none => simp
  | some v =>
    cases v with
    | obj m => exact absurd h (hbad m)
    | _ => simp

theorem dispatch_connected (lib : JSONLib) (s : Session) (text : String)
    (m : List (String × JSON)) (hobj : lib.unmarshal text = some (.obj m))
    (hact : JSON.index m "action" = some (.str "connected")) :
    dispatch lib s text =
      { s with display := s.display ++ ["< " ++ text ++ "\n"],
               spawned := s.spawned ++ [.subscribe] } := by
  have h1 : JSON.eqString (JSON.index m "action") "connected" = true :=
    (eqString_iff _ _).mpr hact
  simp [dispatch, hobj, h1]

/-- C1 (what the code does): a text frame that decodes to an object whose `action`
is absent or none of the four known tags makes `readWebsocket` return at once. No
later frame is read, nothing is spawned and there is no panic, but nothing is sent
on `errChan` either: the channel is as it was, so when nothing had been sent before,
`main` stays blocked in its receive. -/
theorem unknown_action_returns_without_signal (lib : JSONLib) (s : Session)
    (buf : List Byte) (rest : List ReadMessage) (m : List (String × JSON))
    (hrun : s.status = .running)
    (hin : s.inbox = { msgType := TextMessage, buf := buf, err := none } :: rest)
    (hobj : lib.unmarshal (goString buf) = some (.obj m))
    (hact : ∀ a ∈ knownActions, JSON.index m "action" ≠ some (.str a)) :
    readWebsocket lib s =
      { s with inbox := rest, display := s.display ++ ["< " ++ goString buf ++ "\n"],
               status := .returned } ∧
    (readWebsocket lib s).errChan = s.errChan ∧
    (s.errChan = [] → (readWebsocket lib s).exit = .blocked) := by
  have h : readWebsocket lib s =
      { s with inbox := rest, display := s.display ++ ["< " ++ goString buf ++ "\n"],
               status := .returned } := by
    rw [readWebsocket_step lib s _ rest hrun hin]
    simp [iteration, dispatch_unknown lib _ _ m hobj hact]
  refine ⟨h, ?_, ?_⟩
  · rw [h]
  · intro he
    rw [h]
    simp [Session.exit, he]

/-- C1 at the frame of the specification: with the concrete decoder, a session whose
first frame is the object with action bogus ends with the loop returned, the next
frame unread, nothing spawned, nothing on `errChan`, and `main` blocked. -/
theorem unknown_action_bogus_blocks_main :
    main encodingJSON { Location := "wss://ctrl.example/ws", ServerID := "abc123" }
        [textFrame "\x7b\"action\":\"bogus\"\x7d", textFrame "\x7b\"action\":\"connected\"\x7d"] =
      ({ inbox := [textFrame "\x7b\"action\":\"connected\"\x7d"],
         display := ["< \x7b\"action\":\"bogus\"\x7d\n"],
         spawned := [], errChan := [], status := .returned }, .blocked) := by
  decide

/-- C2: a text frame whose payload does not decode to a JSON object makes the read
loop panic in that pass. Nothing is spawned (no frame sent, no command launched),
nothing is sent on `errChan`, the frames after it stay unread, and the process
ends with the panic. The panic is a function of the payload alone: any other running
session that reads the same frame ends with the same status. -/
theorem malformed_text_frame_is_fatal (lib : JSONLib) (s : Session) (buf : List Byte)
    (rest : List ReadMessage) (hrun : s.status = .running)
    (hin : s.inbox = { msgType := TextMessage, buf := buf, err := none } :: rest)
    (hbad : ∀ m, lib.unmarshal (goString buf) ≠ some (.obj m)) :
    readWebsocket lib s =
      { s with inbox := rest, display := s.display ++ ["< " ++ goString buf ++ "\n"],
               status := .panicked (if (lib.unmarshal (goString buf)).isNone
                                    then "check: json.Unmarshal" else "interface conversion") } ∧
    (readWebsocket lib s).spawned = s.spawned ∧
    (readWebsocket lib s).errChan = s.errChan ∧
    (readWebsocket lib s).inbox = rest ∧
    (readWebsocket lib s).exit = .crashed ∧
    ∀ (s2 : Session) (rest2 : List ReadMessage), s2.status = .running →
      s2.inbox = { msgType := TextMessage, buf := buf, err := none } :: rest2 →
      (readWebsocket lib s2).status = (readWebsocket lib s).status := by
  have key : ∀ (t : Session) (r : List ReadMessage), t.status = .running →
      t.inbox = { msgType := TextMessage, buf := buf, err := none } :: r →
      readWebsocket lib t =
        { t with inbox := r, display := t.display ++ ["< " ++ goString buf ++ "\n"],
                 status := .panicked (if (lib.unmarshal (goString buf)).isNone
                                      then "check: json.Unmarshal" else "interface conversion") } := by
    intro t r ht hr
    rw [readWebsocket_step lib t _ r ht hr]
    simp [iteration, dispatch_malformed lib _ _ hbad]
  have h := key s rest hrun hin
  refine ⟨h, ?_, ?_, ?_, ?_, ?_⟩
  · rw [h]
  · rw [h]
  · rw [h]
  · rw [h]
    simp [Session.exit]
  · intro s2 rest2 h2 hin2
    rw [h, key s2 rest2 h2 hin2]

/-- C2 at the frame of the specification: the payload not-json, after which another
frame is waiting. -/
theorem malformed_text_frame_is_fatal_witness :
    (readWebsocket encodingJSON
        { inbox := [textFrame "not-json", textFrame "\x7b\"action\":\"connected\"\x7d"],
          display := [], spawned := [], errChan := [], status := .running }).exit = .crashed :=
  (malformed_text_frame_is_fatal encodingJSON
    { inbox := [textFrame "not-json", textFrame "\x7b\"action\":\"connected\"\x7d"],
      display := [], spawned := [], errChan := [], status := .running }
    (goBytes "not-json") [textFrame "\x7b\"action\":\"connected\"\x7d"] rfl rfl
    (by
      intro m h
      have h0 : encodingJSON.unmarshal (goString (goBytes "not-json")) = none := by rfl
      rw [h0] at h
      exact Option.noConfusion h)).2.2.2.2.1

/-! ## Binary frames -/

theorem parseItems_arr (fuel : Nat) : ∀ (cs : List Char) (acc : List JSON) (v : JSON)
    (r : List Char), parseItems fuel cs acc = some (v, r) → ∃ items, v = .arr items := by
  induction fuel with
  | zero =>
    intro cs acc v r h
    simp [parseItems] at h
  | succ n ih =>
    intro cs acc v r h
    unfold parseItems at h
    split at h
    · exact absurd h (by simp)
    · split at h
      · split at h
        · exact ih _ _ _ _ h
        · split at h
          · simp only [Option.some.injEq, Prod.mk.injEq] at h
            exact ⟨_, h.1.symm⟩
          · exact absurd h (by simp)
      · exact absurd h (by simp)

/-- The concrete decoder returns an object only for a text whose first character
after white space is an opening brace. -/
theorem parseValue_obj_brace (fuel : Nat) (cs : List Char) (m : List (String × JSON))
    (r : List Char) (h : parseValue fuel cs = some (.obj m, r)) :
    ∃ rest, skipWS cs = '\x7b' :: rest := by
  cases fuel with
  | zero => simp [parseValue] at h
  | succ n =>
    unfold parseValue at h
    split at h
    · exact absurd h (by simp)
    · rename_i c rest hws
      by_cases hc : c = '\x7b'
      · exact ⟨rest, by rw [hws, hc]⟩
      · exfalso
        rw [if_neg hc] at h
        split at h
        · split at h
          · split at h
            · simp at h
            · obtain ⟨items, hi⟩ := parseItems_arr _ _ _ _ _ h
              simp at hi
          · simp at h
        · split at h
          · split at h
            · simp at h
            · simp at h
          · split at h
            · cases hx : expect "rue" rest <;> simp [hx] at h
            · split at h
              · cases hx : expect "alse" rest <;> simp [hx] at h
              · split at h
                · cases hx : expect "ull" rest <;> simp [hx] at h
                · split at h
                  · simp at h
                  · simp at h

theorem hexDigit_plain (n : Nat) (hn : n < 16) :
    hexDigit n ≠ '\n' ∧ hexDigit n ≠ ' ' ∧ hexDigit n ≠ '\t' ∧ hexDigit n ≠ '\r' ∧
      hexDigit n ≠ '\x7b' := by
  interval_cases n <;> decide

/-- The regular expression finds a pair at every second character of a hexadecimal
text: the dump is each byte as two digits followed by a space. -/
theorem bytesToFormattedHex_eq (bytes : List Byte) :
    bytesToFormattedHex bytes =
      String.mk (bytes.flatMap fun b => [hexDigit (b.val / 16), hexDigit (b.val % 16), ' ']) := by
  unfold bytesToFormattedHex hexEncodeToString
  congr 1
  induction bytes with
  | nil => simp [replacePairs]
  | cons b bs ih =>
    have h1 := (hexDigit_plain (b.val / 16) (by omega)).1
    have h2 := (hexDigit_plain (b.val % 16) (by omega)).1
    simp only [List.flatMap_cons, List.cons_append, List.nil_append]
    rw [replacePairs, if_pos ⟨h1, h2⟩, ih]

theorem encodingJSON_objectsStartWithBrace : encodingJSON.objectsStartWithBrace := by
  intro text m h
  simp only [encodingJSON, parseJSON] at h
  split at h
  · rename_i v rest hv
    split at h
    · simp only [Option.some.injEq] at h
      subst h
      exact parseValue_obj_brace _ _ _ _ hv
    · exact absurd h (by simp)
  · exact absurd h (by simp)

/-- No hexadecimal dump starts, after white space, with an opening brace. -/
theorem hexdump_no_brace (bytes : List Byte) (rest : List Char) :
    skipWS (bytesToFormattedHex bytes).toList ≠ '\x7b' :: rest := by
  intro hb
  rw [bytesToFormattedHex_eq] at hb
  cases bytes with
  | nil => simp [skipWS] at hb
  | cons b bs =>
    obtain ⟨_, h2, h3, h4, h5⟩ := hexDigit_plain (b.val / 16) (by omega)
    simp only [List.flatMap_cons, List.cons_append, List.nil_append, String.toList] at hb
    rw [skipWS, if_neg (by simp [h2, h3, h4, hexDigit_plain (b.val / 16) (by omega)])] at hb
    simp only [List.cons.injEq] at hb
    exact h5 hb.1

/-- C10 (what the code does): the rendering of a binary frame is the hexadecimal dump,
which is displayed and then handed to the JSON decoder like the payload of a text
frame. No dump starts with an opening brace, so for every decoder that returns objects
only for texts that do, every binary frame makes the read loop panic: nothing is
spawned, nothing is sent on `errChan`, the frames after it stay unread and the
process ends. -/
theorem binary_frame_panics (lib : JSONLib) (hlib : lib.objectsStartWithBrace)
    (s : Session) (buf : List Byte) (rest : List ReadMessage)
    (hrun : s.status = .running)
    (hin : s.inbox = { msgType := BinaryMessage, buf := buf, err := none } :: rest) :
    readWebsocket lib s =
      { s with inbox := rest,
               display := s.display ++ ["< " ++ bytesToFormattedHex buf ++ "\n"],
               status := .panicked (if (lib.unmarshal (bytesToFormattedHex buf)).isNone
                                    then "check: json.Unmarshal" else "interface conversion") } ∧
    (readWebsocket lib s).exit = .crashed := by
  have hbad : ∀ m, lib.unmarshal (bytesToFormattedHex buf) ≠ some (.obj m) := by
    intro m hm
    obtain ⟨r, hr⟩ := hlib _ m hm
    exact hexdump_no_brace buf r hr
  have h : readWebsocket lib s =
      { s with inbox := rest,
               display := s.display ++ ["< " ++ bytesToFormattedHex buf ++ "\n"],
               status := .panicked (if (lib.unmarshal (bytesToFormattedHex buf)).isNone
                                    then "check: json.Unmarshal" else "interface conversion") } := by
    rw [readWebsocket_step lib s _ rest hrun hin]
    have hd := dispatch_malformed lib { s with inbox := rest }
      (bytesToFormattedHex buf) hbad
    have ht : BinaryMessage ≠ TextMessage := by decide
    simp only [iteration, if_neg ht, if_true, hd]
  refine ⟨h, ?_⟩
  rw [h]
  simp [Session.exit]

/-- C10 at a concrete frame: the two bytes de ad, followed by a connected frame that
is never read. -/
theorem binary_frame_panics_witness :
    (readWebsocket encodingJSON
        { inbox := [binaryFrame [0xde, 0xad], textFrame "\x7b\"action\":\"connected\"\x7d"],
          display := [], spawned := [], errChan := [], status := .running }) =
      { inbox := [textFrame "\x7b\"action\":\"connected\"\x7d"],
        display := ["< de ad \n"], spawned := [], errChan := [],
        status := .panicked "check: json.Unmarshal" } :=
  (binary_frame_panics encodingJSON encodingJSON_objectsStartWithBrace
    { inbox := [binaryFrame [0xde, 0xad], textFrame "\x7b\"action\":\"connected\"\x7d"],
      display := [], spawned := [], errChan := [], status := .running }
    [0xde, 0xad] [textFrame "\x7b\"action\":\"connected\"\x7d"] rfl rfl).1

/-! ## The connection -/

theorem takeOut_spec (w : Writer) : ∀ (l : List (Writer × Frame)) (x : Writer × Frame)
    (rest : List (Writer × Frame)), takeOut w l = some (x, rest) →
    x ∈ l ∧ x.1 = w ∧ ∀ y ∈ rest, y ∈ l := by
  intro l
  induction l with
  | nil =>
    intro x rest h
    simp [takeOut] at h
  | cons a as ih =>
    intro x rest h
    unfold takeOut at h
    split at h
    · rename_i ha
      simp only [Option.some.injEq, Prod.mk.injEq] at h
      obtain ⟨rfl, rfl⟩ := h
      exact ⟨List.mem_cons_self _ _, ha, fun y hy => List.mem_cons_of_mem _ hy⟩
    · split at h
      · rename_i y ys hy
        simp only [Option.some.injEq, Prod.mk.injEq] at h
        obtain ⟨rfl, rfl⟩ := h
        obtain ⟨h1, h2, h3⟩ := ih _ _ hy
        refine ⟨List.mem_cons_of_mem _ h1, h2, ?_⟩
        intro z hz
        rcases List.mem_cons.mp hz with hz | hz
        · exact hz ▸ List.mem_cons_self _ _
        · exact List.mem_cons_of_mem _ (h3 z hz)
      · simp at h

theorem ret_calls (k : Conn) (w : Writer) (ok : Bool) : (k.ret w ok).calls = k.calls := by
  unfold Conn.ret
  split <;> rfl

theorem ret_clashed (k : Conn) (w : Writer) (ok : Bool) :
    (k.ret w ok).clashed = k.clashed := by
  unfold Conn.ret
  split <;> rfl

theorem whole_idle : Conn.idle.Whole := by
  intro _
  simp [Conn.idle]

theorem whole_call (k : Conn) (w : Writer) (msg : Frame) (h : k.Whole) :
    (k.call w msg).Whole := by
  intro hc
  simp only [Conn.call, Bool.or_eq_false_iff, Bool.not_eq_false', List.isEmpty_iff] at hc
  obtain ⟨h1, h2⟩ := hc
  obtain ⟨_, hw⟩ := h h1
  refine ⟨by simp [Conn.call, h2], ?_⟩
  intro hd
  have := hw hd
  simp only [h2, List.append_nil] at this
  simp [Conn.call, h2, this]

theorem whole_ret (k : Conn) (w : Writer) (ok : Bool) (h : k.Whole) :
    (k.ret w ok).Whole := by
  unfold Conn.ret
  split
  · exact h
  · rename_i x rest hx
    intro hc
    simp only at hc
    obtain ⟨hl, hw⟩ := h hc
    have hshape : k.inflight = [x] ∧ rest = [] := by
      cases hfl : k.inflight with
      | nil =>
        rw [hfl] at hx
        simp [takeOut] at hx
      | cons a as =>
        rw [hfl] at hl hx
        have has : as = [] := by
          cases as with
          | nil => rfl
          | cons b bs => simp at hl
        subst has
        unfold takeOut at hx
        split at hx
        · simp only [Option.some.injEq, Prod.mk.injEq] at hx
          exact ⟨by rw [hx.1], hx.2.symm⟩
        · simp [takeOut] at hx
    refine ⟨by simp [hshape.2], ?_⟩
    intro hd
    simp only at hd
    cases ok with
    | false => simp at hd
    | true =>
      simp only [if_true] at hd
      have := hw hd
      rw [hshape.1] at this
      simp [hc, hshape.2, this]

theorem sentBy_append (l l2 : List (Writer × Frame)) :
    sentBy (l ++ l2) = sentBy l ++ sentBy l2 := by
  induction l with
  | nil => simp [sentBy]
  | cons x xs ih =>
    obtain ⟨w, f⟩ := x
    cases w <;> cases f <;> simp [sentBy, ih]

theorem sentBy_call_capture (k : Conn) (st : Stream) (j : Command) :
    sentBy (k.call (.capture st) (.command j)).calls = sentBy k.calls ++ [(st, j)] := by
  simp [Conn.call, sentBy_append, sentBy]

theorem sentBy_call_other (k : Conn) (msg : Frame) :
    sentBy (k.call .other msg).calls = sentBy k.calls := by
  simp [Conn.call, sentBy_append, sentBy]

theorem sentBy_ret (k : Conn) (w : Writer) (ok : Bool) :
    sentBy (k.ret w ok).calls = sentBy k.calls := by
  rw [ret_calls]

/-! ## Executions of `executeCommand` -/

/-- A property that holds at the start and is kept by every step holds after
every schedule. -/
theorem run_invariant (P : Exec → Prop)
    (hstep : ∀ a s s1, P s → step a s = some s1 → P s1) :
    ∀ (sched : List Action) (s s1 : Exec), P s → run sched s = some s1 → P s1 := by
  intro sched
  induction sched with
  | nil =>
    intro s s1 hP h
    simp only [run, Option.some.injEq] at h
    exact h ▸ hP
  | cons a rest ih =>
    intro s s1 hP h
    simp only [run] at h
    split at h
    · rename_i s2 h2
      exact ih s2 s1 (hstep a s s2 hP h2) h
    · exact absurd h (by simp)

theorem run_append (l1 l2 : List Action) (s s1 s2 : Exec) (h1 : run l1 s = some s1)
    (h2 : run l2 s1 = some s2) : run (l1 ++ l2) s = some s2 := by
  induction l1 generalizing s with
  | nil =>
    simp only [run, Option.some.injEq] at h1
    subst h1
    exact h2
  | cons a rest ih =>
    simp only [run] at h1
    split at h1
    · rename_i s3 h3
      simp only [List.cons_append, run, h3]
      exact ih s3 h1
    · exact absurd h1 (by simp)

theorem earlier_refl (a : Command) : Command.earlier a a :=
  ⟨List.prefix_refl _, List.prefix_refl _⟩

theorem earlier_trans {a b c : Command} (h1 : Command.earlier a b)
    (h2 : Command.earlier b c) : Command.earlier a c :=
  ⟨h1.1.trans h2.1, h1.2.trans h2.2⟩

/-- What a step does to the two output sequences: nothing, or the standard-output
goroutine appends its variable `out` to `c.STDOUT` (line 142), or the standard-error
goroutine appends its variable `out` to `c.STDERR` (line 157). -/
theorem step_sequences (a : Action) (s s1 : Exec) (h : step a s = some s1) :
    (s1.c.STDOUT = s.c.STDOUT ∧ s1.c.STDERR = s.c.STDERR) ∨
    (∃ o, a = .reader .stdout ∧ s.stdoutPc = .out o ∧
      s1.c.STDOUT = s.c.STDOUT ++ [o] ∧ s1.c.STDERR = s.c.STDERR) ∨
    (∃ o, a = .reader .stderr ∧ s.stderrPc = .half o ∧
      s1.c.STDERR = s.c.STDERR ++ [o] ∧ s1.c.STDOUT = s.c.STDOUT) := by
  cases a with
  | main =>
    simp only [step, stepMain] at h
    repeat' split at h
    all_goals first
      | (simp only [Option.some.injEq] at h; subst h; exact Or.inl ⟨rfl, rfl⟩)
      | simp at h
  | reader st =>
    cases st with
    | stdout =>
      simp only [step, stepStdout] at h
      repeat' split at h
      all_goals first
        | (simp only [Option.some.injEq] at h; subst h; exact Or.inl ⟨rfl, rfl⟩)
        | (rename_i o hpc; simp only [Option.some.injEq] at h; subst h
           exact Or.inr (Or.inl ⟨o, rfl, hpc, rfl, rfl⟩))
        | simp at h
    | stderr =>
      simp only [step, stepStderr] at h
      repeat' split at h
      all_goals first
        | (simp only [Option.some.injEq] at h; subst h; exact Or.inl ⟨rfl, rfl⟩)
        | (rename_i o hpc; simp only [Option.some.injEq] at h; subst h
           exact Or.inr (Or.inr ⟨o, rfl, hpc, rfl, rfl⟩))
        | simp at h
  | fail st =>
    cases st <;> simp only [step] at h <;> split at h <;>
      first
        | (simp only [Option.some.injEq] at h; subst h; exact Or.inl ⟨rfl, rfl⟩)
        | simp at h
  | emit st line =>
    cases st <;> simp only [step] at h <;> split at h <;>
      first
        | (simp only [Option.some.injEq] at h; subst h; exact Or.inl ⟨rfl, rfl⟩)
        | simp at h
  | exit =>
    simp only [step] at h
    split at h
    · simp only [Option.some.injEq] at h; subst h; exact Or.inl ⟨rfl, rfl⟩
    · simp at h
  | lose st =>
    cases st <;> simp only [step] at h <;> split at h <;>
      first
        | (simp only [Option.some.injEq] at h; subst h; exact Or.inl ⟨rfl, rfl⟩)
        | simp at h
  | tick d =>
    simp only [step, Option.some.injEq] at h
    subst h
    exact Or.inl ⟨rfl, rfl⟩
  | otherCall msg =>
    simp only [step, Option.some.injEq] at h
    subst h
    exact Or.inl ⟨rfl, rfl⟩
  | otherRet ok =>
    simp only [step, Option.some.injEq] at h
    subst h
    exact Or.inl ⟨rfl, rfl⟩

/-- Every step leaves the two output sequences alone or appends one record to one of
them: the new Command is not behind the old one. -/
theorem step_earlier (a : Action) (s s1 : Exec) (h : step a s = some s1) :
    Command.earlier s.c s1.c := by
  rcases step_sequences a s s1 h with ⟨h1, h2⟩ | ⟨o, _, _, h1, h2⟩ | ⟨o, _, _, h1, h2⟩
  · exact ⟨by rw [h1], by rw [h2]⟩
  · exact ⟨by rw [h1]; exact List.prefix_append _ _, by rw [h2]⟩
  · exact ⟨by rw [h2], by rw [h1]; exact List.prefix_append _ _⟩

theorem run_earlier (sched : List Action) : ∀ (s s1 : Exec), run sched s = some s1 →
    Command.earlier s.c s1.c := by
  induction sched with
  | nil =>
    intro s s1 h
    simp only [run, Option.some.injEq] at h
    subst h
    exact earlier_refl _
  | cons a rest ih =>
    intro s s1 h
    simp only [run] at h
    split at h
    · rename_i s2 h2
      exact earlier_trans (step_earlier a s s2 h2) (ih s2 s1 h)
    · exact absurd h (by simp)

/-- What a step does to the connection: nothing, a call, or a return. -/
theorem step_conn (a : Action) (s s1 : Exec) (h : step a s = some s1) :
    s1.conn = s.conn ∨ (∃ w msg, s1.conn = s.conn.call w msg) ∨
      (∃ w ok, s1.conn = s.conn.ret w ok) := by
  cases a with
  | main =>
    simp only [step, stepMain] at h
    repeat' split at h
    all_goals first
      | (simp only [Option.some.injEq] at h; subst h; exact Or.inl rfl)
      | simp at h
  | reader st =>
    cases st with
    | stdout =>
      simp only [step, stepStdout] at h
      repeat' split at h
      all_goals first
        | (simp only [Option.some.injEq] at h; subst h; exact Or.inl rfl)
        | (simp only [Option.some.injEq] at h; subst h; exact Or.inr (Or.inl ⟨_, _, rfl⟩))
        | (simp only [Option.some.injEq] at h; subst h; exact Or.inr (Or.inr ⟨_, _, rfl⟩))
        | simp at h
    | stderr =>
      simp only [step, stepStderr] at h
      repeat' split at h
      all_goals first
        | (simp only [Option.some.injEq] at h; subst h; exact Or.inl rfl)
        | (simp only [Option.some.injEq] at h; subst h; exact Or.inr (Or.inl ⟨_, _, rfl⟩))
        | (simp only [Option.some.injEq] at h; subst h; exact Or.inr (Or.inr ⟨_, _, rfl⟩))
        | simp at h
  | fail st =>
    cases st <;> simp only [step] at h <;> split at h <;>
      first
        | (simp only [Option.some.injEq] at h; subst h; exact Or.inr (Or.inr ⟨_, _, rfl⟩))
        | simp at h
  | emit st line =>
    cases st <;> simp only [step] at h <;> split at h <;>
      first
        | (simp only [Option.some.injEq] at h; subst h; exact Or.inl rfl)
        | simp at h
  | exit =>
    simp only [step] at h
    split at h
    · simp only [Option.some.injEq] at h; subst h; exact Or.inl rfl
    · simp at h
  | lose st =>
    cases st <;> simp only [step] at h <;> split at h <;>
      first
        | (simp only [Option.some.injEq] at h; subst h; exact Or.inl rfl)
        | simp at h
  | tick d =>
    simp only [step, Option.some.injEq] at h
    subst h
    exact Or.inl rfl
  | otherCall msg =>
    simp only [step, Option.some.injEq] at h
    subst h
    exact Or.inr (Or.inl ⟨_, _, rfl⟩)
  | otherRet ok =>
    simp only [step, Option.some.injEq] at h
    subst h
    exact Or.inr (Or.inr ⟨_, _, rfl⟩)

theorem whole_step (a : Action) (s s1 : Exec) (hP : s.conn.Whole) (h : step a s = some s1) :
    s1.conn.Whole := by
  rcases step_conn a s s1 h with h1 | ⟨w, msg, h1⟩ | ⟨w, ok, h1⟩
  · rw [h1]; exact hP
  · rw [h1]; exact whole_call _ _ _ hP
  · rw [h1]; exact whole_ret _ _ _ hP

/-- A step other than one of the body leaves the body where it is and does not touch
the two times stored in `c`. -/
theorem step_other_keeps_body (a : Action) (s s1 : Exec) (ha : a ≠ .main)
    (h : step a s = some s1) :
    s1.main = s.main ∧ s1.c.StartedAt = s.c.StartedAt ∧
      s1.c.CompletedAt = s.c.CompletedAt := by
  cases a with
  | main => exact absurd rfl ha
  | reader st =>
    cases st with
    | stdout =>
      simp only [step, stepStdout] at h
      repeat' split at h
      all_goals first
        | (simp only [Option.some.injEq] at h; subst h; exact ⟨rfl, rfl, rfl⟩)
        | simp at h
    | stderr =>
      simp only [step, stepStderr] at h
      repeat' split at h
      all_goals first
        | (simp only [Option.some.injEq] at h; subst h; exact ⟨rfl, rfl, rfl⟩)
        | simp at h
  | fail st =>
    cases st <;> simp only [step] at h <;> split at h <;>
      first
        | (simp only [Option.some.injEq] at h; subst h; exact ⟨rfl, rfl, rfl⟩)
        | simp at h
  | emit st line =>
    cases st <;> simp only [step] at h <;> split at h <;>
      first
        | (simp only [Option.some.injEq] at h; subst h; exact ⟨rfl, rfl, rfl⟩)
        | simp at h
  | exit =>
    simp only [step] at h
    split at h
    · simp only [Option.some.injEq] at h; subst h; exact ⟨rfl, rfl, rfl⟩
    · simp at h
  | lose st =>
    cases st <;> simp only [step] at h <;> split at h <;>
      first
        | (simp only [Option.some.injEq] at h; subst h; exact ⟨rfl, rfl, rfl⟩)
        | simp at h
  | tick d =>
    simp only [step, Option.some.injEq] at h
    subst h
    exact ⟨rfl, rfl, rfl⟩
  | otherCall msg =>
    simp only [step, Option.some.injEq] at h
    subst h
    exact ⟨rfl, rfl, rfl⟩
  | otherRet ok =>
    simp only [step, Option.some.injEq] at h
    subst h
    exact ⟨rfl, rfl, rfl⟩

theorem wireInv_init (c : Command) (now : Int) (ok : Bool) : WireInv (Exec.init c now ok) := by
  simp [WireInv, Exec.init, Exec.sent, Conn.idle, sentBy]

/-- A step that changes neither the output sequences, nor the frames sent, nor what the
goroutines hold marshalled keeps the invariant. -/
theorem wireInv_of_same (s s1 : Exec) (hP : WireInv s)
    (hso : s1.c.STDOUT = s.c.STDOUT) (hse : s1.c.STDERR = s.c.STDERR)
    (hw : s1.sent = s.sent)
    (ho : ∀ j, s1.stdoutPc = .marshalled j → s.stdoutPc = .marshalled j)
    (he : ∀ j, s1.stderrPc = .marshalled j → s.stderrPc = .marshalled j) : WireInv s1 := by
  obtain ⟨h1, h2, h3, h4⟩ := hP
  have hc : ∀ f : Command, Command.earlier f s.c → Command.earlier f s1.c := by
    intro f hf
    exact ⟨by rw [hso]; exact hf.1, by rw [hse]; exact hf.2⟩
  refine ⟨?_, ?_, ?_, ?_⟩
  · intro f hf
    rw [hw] at hf
    exact hc _ (h1 f hf)
  · intro j hj
    obtain ⟨a, b, d⟩ := h2 j (ho j hj)
    exact ⟨hc _ a, by rw [hso]; exact b, by rw [hw]; exact d⟩
  · intro j hj
    obtain ⟨a, b, d⟩ := h3 j (he j hj)
    exact ⟨hc _ a, by rw [hse]; exact b, by rw [hw]; exact d⟩
  · rw [hw]
    exact h4

theorem wireInv_step (a : Action) (s s1 : Exec) (hP : WireInv s) (h : step a s = some s1) :
    WireInv s1 := by
  cases a with
  | main =>
    simp only [step, stepMain] at h
    repeat' split at h
    all_goals first
      | (simp only [Option.some.injEq] at h; subst h
         exact wireInv_of_same _ _ hP rfl rfl rfl (fun j hj => hj) (fun j hj => hj))
      | (simp only [Option.some.injEq] at h; subst h
         exact wireInv_of_same _ _ hP rfl rfl rfl (fun j hj => by cases hj) (fun j hj => hj))
      | (simp only [Option.some.injEq] at h; subst h
         exact wireInv_of_same _ _ hP rfl rfl rfl (fun j hj => hj) (fun j hj => by cases hj))
      | simp at h
  | reader st =>
    cases st with
    | stdout =>
      simp only [step, stepStdout] at h
      split at h
      · simp at h
      · split at h
        · simp only [Option.some.injEq] at h; subst h
          exact wireInv_of_same _ _ hP rfl rfl rfl (fun j hj => by cases hj) (fun j hj => hj)
        · split at h
          · simp only [Option.some.injEq] at h; subst h
            exact wireInv_of_same _ _ hP rfl rfl rfl (fun j hj => by cases hj) (fun j hj => hj)
          · simp at h
      · simp only [Option.some.injEq] at h; subst h
        exact wireInv_of_same _ _ hP rfl rfl rfl (fun j hj => by cases hj) (fun j hj => hj)
      · rename_i o hpc
        simp only [Option.some.injEq] at h; subst h
        obtain ⟨h1, h2, h3, h4⟩ := hP
        have hc : ∀ f : Command, Command.earlier f s.c →
            Command.earlier f { s.c with STDOUT := s.c.STDOUT ++ [o] } :=
          fun f hf => ⟨hf.1.trans (List.prefix_append _ _), hf.2⟩
        refine ⟨fun f hf => hc _ (h1 f hf), ?_, ?_, h4⟩
        · intro j hj
          cases hj
        · intro j hj
          obtain ⟨a, b, d⟩ := h3 j hj
          exact ⟨hc _ a, b, d⟩
      · simp only [Option.some.injEq] at h; subst h
        exact wireInv_of_same _ _ hP rfl rfl rfl (fun j hj => by cases hj) (fun j hj => hj)
      · simp only [Option.some.injEq] at h; subst h
        obtain ⟨h1, h2, h3, h4⟩ := hP
        refine ⟨h1, ?_, h3, h4⟩
        intro j hj
        simp only [ReaderPc.marshalled.injEq] at hj
        subst hj
        exact ⟨earlier_refl _, rfl, fun f hf _ => h1 f hf⟩
      · rename_i jstr hpc
        simp only [Option.some.injEq] at h; subst h
        obtain ⟨h1, h2, h3, h4⟩ := hP
        obtain ⟨a, b, d⟩ := h2 jstr hpc
        have hs : sentBy (s.conn.call (.capture .stdout) (.command jstr)).calls =
            s.sent ++ [(.stdout, jstr)] := sentBy_call_capture _ _ _
        refine ⟨?_, ?_, ?_, ?_⟩
        · intro f hf
          simp only [Exec.sent, hs] at hf
          rcases List.mem_append.mp hf with hf | hf
          · exact h1 f hf
          · simp only [List.mem_singleton] at hf
            subst hf
            exact a
        · intro j hj
          cases hj
        · intro j hj
          obtain ⟨a2, b2, d2⟩ := h3 j hj
          refine ⟨a2, b2, ?_⟩
          intro f hf hst
          simp only [Exec.sent, hs] at hf
          rcases List.mem_append.mp hf with hf | hf
          · exact d2 f hf hst
          · simp only [List.mem_singleton] at hf
            subst hf
            cases hst
        · simp only [Exec.sent, hs]
          rw [List.pairwise_append]
          refine ⟨h4, List.pairwise_singleton _ _, ?_⟩
          intro f hf g hg
          simp only [List.mem_singleton] at hg
          subst hg
          refine ⟨fun _ => ?_, fun hst => (by cases hst), fun hst => d f hf hst⟩
          rw [b]
          exact (h1 f hf).1
      · simp only [Option.some.injEq] at h; subst h
        exact wireInv_of_same _ _ hP rfl rfl (sentBy_ret _ _ _)
          (fun j hj => by cases hj) (fun j hj => hj)
      · simp at h
    | stderr =>
      simp only [step, stepStderr] at h
      split at h
      · simp at h
      · split at h
        · simp only [Option.some.injEq] at h; subst h
          exact wireInv_of_same _ _ hP rfl rfl rfl (fun j hj => hj) (fun j hj => by cases hj)
        · split at h
          · simp only [Option.some.injEq] at h; subst h
            exact wireInv_of_same _ _ hP rfl rfl rfl (fun j hj => hj) (fun j hj => by cases hj)
          · simp at h
      · simp only [Option.some.injEq] at h; subst h
        exact wireInv_of_same _ _ hP rfl rfl rfl (fun j hj => hj) (fun j hj => by cases hj)
      · simp only [Option.some.injEq] at h; subst h
        exact wireInv_of_same _ _ hP rfl rfl rfl (fun j hj => hj) (fun j hj => by cases hj)
      · rename_i o hpc
        simp only [Option.some.injEq] at h; subst h
        obtain ⟨h1, h2, h3, h4⟩ := hP
        have hc : ∀ f : Command, Command.earlier f s.c →
            Command.earlier f { s.c with STDERR := s.c.STDERR ++ [o] } :=
          fun f hf => ⟨hf.1, hf.2.trans (List.prefix_append _ _)⟩
        refine ⟨fun f hf => hc _ (h1 f hf), ?_, ?_, h4⟩
        · intro j hj
          obtain ⟨a, b, d⟩ := h2 j hj
          exact ⟨hc _ a, b, d⟩
        · intro j hj
          cases hj
      · simp only [Option.some.injEq] at h; subst h
        obtain ⟨h1, h2, h3, h4⟩ := hP
        refine ⟨h1, h2, ?_, h4⟩
        intro j hj
        simp only [ReaderPc.marshalled.injEq] at hj
        subst hj
        exact ⟨earlier_refl _, rfl, fun f hf _ => h1 f hf⟩
      · rename_i jstr hpc
        simp only [Option.some.injEq] at h; subst h
        obtain ⟨h1, h2, h3, h4⟩ := hP
        obtain ⟨a, b, d⟩ := h3 jstr hpc
        have hs : sentBy (s.conn.call (.capture .stderr) (.command jstr)).calls =
            s.sent ++ [(.stderr, jstr)] := sentBy_call_capture _ _ _
        refine ⟨?_, ?_, ?_, ?_⟩
        · intro f hf
          simp only [Exec.sent, hs] at hf
          rcases List.mem_append.mp hf with hf | hf
          · exact h1 f hf
          · simp only [List.mem_singleton] at hf
            subst hf
            exact a
        · intro j hj
          obtain ⟨a2, b2, d2⟩ := h2 j hj
          refine ⟨a2, b2, ?_⟩
          intro f hf hst
          simp only [Exec.sent, hs] at hf
          rcases List.mem_append.mp hf with hf | hf
          · exact d2 f hf hst
          · simp only [List.mem_singleton] at hf
            subst hf
            cases hst
        · intro j hj
          cases hj
        · simp only [Exec.sent, hs]
          rw [List.pairwise_append]
          refine ⟨h4, List.pairwise_singleton _ _, ?_⟩
          intro f hf g hg
          simp only [List.mem_singleton] at hg
          subst hg
          refine ⟨fun hst => (by cases hst), fun _ => ?_, fun hst => d f hf hst⟩
          rw [b]
          exact (h1 f hf).2
      · simp only [Option.some.injEq] at h; subst h
        exact wireInv_of_same _ _ hP rfl rfl (sentBy_ret _ _ _)
          (fun j hj => hj) (fun j hj => by cases hj)
      · simp at h
  | fail st =>
    cases st with
    | stdout =>
      simp only [step] at h
      split at h
      · simp only [Option.some.injEq] at h; subst h
        exact wireInv_of_same _ _ hP rfl rfl (sentBy_ret _ _ _)
          (fun j hj => by cases hj) (fun j hj => hj)
      · simp at h
    | stderr =>
      simp only [step] at h
      split at h
      · simp only [Option.some.injEq] at h; subst h
        exact wireInv_of_same _ _ hP rfl rfl (sentBy_ret _ _ _)
          (fun j hj => hj) (fun j hj => by cases hj)
      · simp at h
  | emit st line =>
    cases st <;> simp only [step] at h <;> split at h <;>
      first
        | (simp only [Option.some.injEq] at h; subst h
           exact wireInv_of_same _ _ hP rfl rfl rfl (fun j hj => hj) (fun j hj => hj))
        | simp at h
  | exit =>
    simp only [step] at h
    split at h
    · simp only [Option.some.injEq] at h; subst h
      exact wireInv_of_same _ _ hP rfl rfl rfl (fun j hj => hj) (fun j hj => hj)
    · simp at h
  | lose st =>
    cases st <;> simp only [step] at h <;> split at h <;>
      first
        | (simp only [Option.some.injEq] at h; subst h
           exact wireInv_of_same _ _ hP rfl rfl rfl (fun j hj => hj) (fun j hj => hj))
        | simp at h
  | tick d =>
    simp only [step, Option.some.injEq] at h
    subst h
    exact wireInv_of_same _ _ hP rfl rfl rfl (fun j hj => hj) (fun j hj => hj)
  | otherCall msg =>
    simp only [step, Option.some.injEq] at h
    subst h
    exact wireInv_of_same _ _ hP rfl rfl (sentBy_call_other _ _) (fun j hj => hj)
      (fun j hj => hj)
  | otherRet ok =>
    simp only [step, Option.some.injEq] at h
    subst h
    exact wireInv_of_same _ _ hP rfl rfl (sentBy_ret _ _ _) (fun j hj => hj) (fun j hj => hj)

theorem timeInv_init (c : Command) (now : Int) (ok : Bool) :
    TimeInv c (Exec.init c now ok) := by
  simp [TimeInv, Exec.init, MainPc.stamped?, ReaderPc.pending]

/-- A step that leaves the output sequences, `c.StartedAt` and the clock alone keeps
the invariant, provided a record newly held in a variable `out` is stamped now and the
facts about the body hold in the new state. -/
theorem timeInv_frame (c0 : Command) (s s1 : Exec) (hP : TimeInv c0 s)
    (hout : s1.c.STDOUT = s.c.STDOUT) (herr : s1.c.STDERR = s.c.STDERR)
    (hst : s1.c.StartedAt = s.c.StartedAt) (hnow : s1.now = s.now)
    (hpo : ∀ o, s1.stdoutPc.pending = some o →
      s.stdoutPc.pending = some o ∨ (s.stdoutPc ≠ .idle ∧ o.At = s.now))
    (hpe : ∀ o, s1.stderrPc.pending = some o →
      s.stderrPc.pending = some o ∨ (s.stderrPc ≠ .idle ∧ o.At = s.now))
    (h3n : s1.main.stamped? = true → s.main.stamped? = true)
    (h4n : s1.main.stamped? = false → s.main.stamped? = false ∧
      (s.stdoutPc = .idle → s1.stdoutPc = .idle) ∧ (s.stderrPc = .idle → s1.stderrPc = .idle))
    (h7n : ∀ t, s1.main = .timedStart t → t ≤ s.now)
    (h8n : ∀ t, s1.main = .timedEnd t → s.c.StartedAt ≤ t ∧ t ≤ s.now)
    (h9n : s1.main = .returned → s.c.StartedAt ≤ s1.c.CompletedAt) :
    TimeInv c0 s1 := by
  obtain ⟨⟨xs, hx, hxs⟩, ⟨ys, hy, hys⟩, h3, h4, h5, h6, _, _, _⟩ := hP
  have hstart : ∀ pc : ReaderPc, (s.stdoutPc = pc ∨ s.stderrPc = pc) → pc ≠ .idle →
      s.c.StartedAt ≤ s.now := by
    intro pc hpc hne
    cases hb : s.main.stamped? with
    | true => exact h3 hb
    | false =>
      obtain ⟨_, _, i1, i2⟩ := h4 hb
      rcases hpc with hpc | hpc
      · exact absurd (hpc ▸ i1) hne
      · exact absurd (hpc ▸ i2) hne
  refine ⟨⟨xs, by rw [hout, hx], ?_⟩, ⟨ys, by rw [herr, hy], ?_⟩, ?_, ?_, ?_, ?_, ?_, ?_, ?_⟩
  · intro r hr
    rw [hst, hnow]
    exact hxs r hr
  · intro r hr
    rw [hst, hnow]
    exact hys r hr
  · intro h
    rw [hst, hnow]
    exact h3 (h3n h)
  · intro h
    obtain ⟨b1, b2, b3⟩ := h4n h
    obtain ⟨a1, a2, a3, a4⟩ := h4 b1
    exact ⟨by rw [hout, a1], by rw [herr, a2], b2 a3, b3 a4⟩
  · intro o ho
    rw [hst, hnow]
    rcases hpo o ho with hp | ⟨hne, hat⟩
    · exact h5 o hp
    · rw [hat]
      exact ⟨hstart _ (Or.inl rfl) hne, le_refl _⟩
  · intro o ho
    rw [hst, hnow]
    rcases hpe o ho with hp | ⟨hne, hat⟩
    · exact h6 o hp
    · rw [hat]
      exact ⟨hstart _ (Or.inr rfl) hne, le_refl _⟩
  · intro t ht
    rw [hnow]
    exact h7n t ht
  · intro t ht
    rw [hst, hnow]
    exact h8n t ht
  · intro h
    rw [hst]
    exact h9n h

/-- The same for a step that is not one of the body. -/
theorem timeInv_nonmain (c0 : Command) (s s1 : Exec) (hP : TimeInv c0 s)
    (hout : s1.c.STDOUT = s.c.STDOUT) (herr : s1.c.STDERR = s.c.STDERR)
    (hst : s1.c.StartedAt = s.c.StartedAt) (hco : s1.c.CompletedAt = s.c.CompletedAt)
    (hnow : s1.now = s.now) (hm : s1.main = s.main)
    (hpo : ∀ o, s1.stdoutPc.pending = some o →
      s.stdoutPc.pending = some o ∨ (s.stdoutPc ≠ .idle ∧ o.At = s.now))
    (hpe : ∀ o, s1.stderrPc.pending = some o →
      s.stderrPc.pending = some o ∨ (s.stderrPc ≠ .idle ∧ o.At = s.now))
    (hio : s.stdoutPc = .idle → s1.stdoutPc = .idle)
    (hie : s.stderrPc = .idle → s1.stderrPc = .idle) : TimeInv c0 s1 := by
  have hP2 := hP
  obtain ⟨_, _, _, _, _, _, h7, h8, h9⟩ := hP2
  exact timeInv_frame c0 s s1 hP hout herr hst hnow hpo hpe
    (fun h => hm ▸ h) (fun h => ⟨hm ▸ h, hio, hie⟩)
    (fun t ht => h7 t (hm ▸ ht)) (fun t ht => h8 t (hm ▸ ht))
    (fun h => by rw [hco]; exact h9 (hm ▸ h))

theorem timeInv_step (c0 : Command) (a : Action) (s s1 : Exec) (hP : TimeInv c0 s)
    (h : step a s = some s1) : TimeInv c0 s1 := by
  have hP2 := hP
  obtain ⟨⟨xs, hx, hxs⟩, ⟨ys, hy, hys⟩, h3, h4, h5, h6, h7, h8, h9⟩ := hP2
  cases a with
  | main =>
    simp only [step, stepMain] at h
    split at h
    · rename_i hpc
      have hf : s.main.stamped? = false := by rw [hpc]; rfl
      split at h
      · simp only [Option.some.injEq] at h; subst h
        exact timeInv_frame c0 _ _ hP rfl rfl rfl rfl
          (fun o ho => Or.inl ho) (fun o ho => Or.inl ho)
          (fun hh => by simp [MainPc.stamped?] at hh) (fun _ => ⟨hf, fun hi => hi, fun hi => hi⟩)
          (fun t ht => by cases ht) (fun t ht => by cases ht) (fun ht => by cases ht)
      · simp only [Option.some.injEq] at h; subst h
        exact timeInv_frame c0 _ _ hP rfl rfl rfl rfl
          (fun o ho => Or.inl ho) (fun o ho => Or.inl ho)
          (fun hh => by simp [MainPc.stamped?] at hh) (fun _ => ⟨hf, fun hi => hi, fun hi => hi⟩)
          (fun t ht => by cases ht) (fun t ht => by cases ht) (fun ht => by cases ht)
    · rename_i hpc
      have hf : s.main.stamped? = false := by rw [hpc]; rfl
      simp only [Option.some.injEq] at h; subst h
      exact timeInv_frame c0 _ _ hP rfl rfl rfl rfl
        (fun o ho => Or.inl ho) (fun o ho => Or.inl ho)
        (fun hh => by simp [MainPc.stamped?] at hh) (fun _ => ⟨hf, fun hi => hi, fun hi => hi⟩)
        (fun t ht => by
          simp only [MainPc.timedStart.injEq] at ht
          rw [← ht])
        (fun t ht => by cases ht) (fun ht => by cases ht)
    · rename_i t hpc
      have hf : s.main.stamped? = false := by rw [hpc]; rfl
      simp only [Option.some.injEq] at h; subst h
      obtain ⟨a1, a2, a3, a4⟩ := h4 hf
      refine ⟨⟨[], by simpa using a1, by simp⟩, ⟨[], by simpa using a2, by simp⟩,
        ?_, ?_, ?_, ?_, ?_, ?_, ?_⟩
      · intro _
        exact h7 t hpc
      · intro hh
        simp [MainPc.stamped?] at hh
      · intro o ho
        simp only [a3, ReaderPc.pending] at ho
        cases ho
      · intro o ho
        simp only [a4, ReaderPc.pending] at ho
        cases ho
      · intro t2 ht
        cases ht
      · intro t2 ht
        cases ht
      · intro ht
        cases ht
    · rename_i hpc
      have ht : s.main.stamped? = true := by rw [hpc]; rfl
      simp only [Option.some.injEq] at h; subst h
      exact timeInv_frame c0 _ _ hP rfl rfl rfl rfl
        (fun o ho => Or.inl ho) (fun o ho => Or.inl ho)
        (fun _ => ht) (fun hh => by simp [MainPc.stamped?] at hh)
        (fun t ht => by cases ht) (fun t ht => by cases ht) (fun ht => by cases ht)
    · rename_i hpc
      have ht : s.main.stamped? = true := by rw [hpc]; rfl
      simp only [Option.some.injEq] at h; subst h
      exact timeInv_frame c0 _ _ hP rfl rfl rfl rfl
        (fun o ho => by simp [ReaderPc.pending] at ho) (fun o ho => Or.inl ho)
        (fun _ => ht) (fun hh => by simp [MainPc.stamped?] at hh)
        (fun t ht => by cases ht) (fun t ht => by cases ht) (fun ht => by cases ht)
    · rename_i hpc
      have ht : s.main.stamped? = true := by rw [hpc]; rfl
      simp only [Option.some.injEq] at h; subst h
      exact timeInv_frame c0 _ _ hP rfl rfl rfl rfl
        (fun o ho => Or.inl ho) (fun o ho => by simp [ReaderPc.pending] at ho)
        (fun _ => ht) (fun hh => by simp [MainPc.stamped?] at hh)
        (fun t ht => by cases ht) (fun t ht => by cases ht) (fun ht => by cases ht)
    · rename_i hpc
      have ht : s.main.stamped? = true := by rw [hpc]; rfl
      split at h
      · simp only [Option.some.injEq] at h; subst h
        exact timeInv_frame c0 _ _ hP rfl rfl rfl rfl
          (fun o ho => Or.inl ho) (fun o ho => Or.inl ho)
          (fun _ => ht) (fun hh => by simp [MainPc.stamped?] at hh)
          (fun t ht => by cases ht) (fun t ht => by cases ht) (fun ht => by cases ht)
      · simp at h
    · rename_i hpc
      have ht : s.main.stamped? = true := by rw [hpc]; rfl
      simp only [Option.some.injEq] at h; subst h
      exact timeInv_frame c0 _ _ hP rfl rfl rfl rfl
        (fun o ho => Or.inl ho) (fun o ho => Or.inl ho)
        (fun _ => ht) (fun hh => by simp [MainPc.stamped?] at hh)
        (fun t ht => by cases ht)
        (fun t hte => by
          simp only [MainPc.timedEnd.injEq] at hte
          rw [← hte]
          exact ⟨h3 ht, le_refl _⟩)
        (fun ht => by cases ht)
    · rename_i t hpc
      have ht : s.main.stamped? = true := by rw [hpc]; rfl
      simp only [Option.some.injEq] at h; subst h
      exact timeInv_frame c0 _ _ hP rfl rfl rfl rfl
        (fun o ho => Or.inl ho) (fun o ho => Or.inl ho)
        (fun _ => ht) (fun hh => by simp [MainPc.stamped?] at hh)
        (fun t ht => by cases ht) (fun t ht => by cases ht)
        (fun _ => (h8 t hpc).1)
    · simp at h
    · simp at h
  | reader st =>
    cases st with
    | stdout =>
      simp only [step, stepStdout] at h
      split at h
      · simp at h
      · rename_i hpc
        split at h
        · simp only [Option.some.injEq] at h; subst h
          exact timeInv_nonmain c0 _ _ hP rfl rfl rfl rfl rfl rfl
            (fun o ho => by simp [ReaderPc.pending] at ho) (fun o ho => Or.inl ho)
            (fun hi => by rw [hpc] at hi; cases hi) (fun hi => hi)
        · split at h
          · simp only [Option.some.injEq] at h; subst h
            exact timeInv_nonmain c0 _ _ hP rfl rfl rfl rfl rfl rfl
              (fun o ho => by simp [ReaderPc.pending] at ho) (fun o ho => Or.inl ho)
              (fun hi => by rw [hpc] at hi; cases hi) (fun hi => hi)
          · simp at h
      · rename_i m hpc
        simp only [Option.some.injEq] at h; subst h
        exact timeInv_nonmain c0 _ _ hP rfl rfl rfl rfl rfl rfl
          (fun o ho => by
            simp only [ReaderPc.pending, Option.some.injEq] at ho
            subst ho
            exact Or.inr ⟨by rw [hpc]; simp, rfl⟩)
          (fun o ho => Or.inl ho)
          (fun hi => by rw [hpc] at hi; cases hi) (fun hi => hi)
      · rename_i o hpc
        simp only [Option.some.injEq] at h; subst h
        have ho := h5 o (by rw [hpc]; rfl)
        refine ⟨⟨xs ++ [o], by simp [hx], ?_⟩, ⟨ys, hy, hys⟩, h3, ?_, ?_, h6, h7, h8, h9⟩
        · intro r hr
          rcases List.mem_append.mp hr with hr | hr
          · exact hxs r hr
          · simp only [List.mem_singleton] at hr
            subst hr
            exact ho
        · intro hf
          obtain ⟨_, _, i1, _⟩ := h4 hf
          rw [hpc] at i1
          cases i1
        · intro o2 ho2
          simp only [ReaderPc.pending, Option.some.injEq] at ho2
          subst ho2
          exact ho
      · rename_i o hpc
        simp only [Option.some.injEq] at h; subst h
        exact timeInv_nonmain c0 _ _ hP rfl rfl rfl rfl rfl rfl
          (fun o ho => by simp [ReaderPc.pending] at ho) (fun o ho => Or.inl ho)
          (fun hi => by rw [hpc] at hi; cases hi) (fun hi => hi)
      · rename_i hpc
        simp only [Option.some.injEq] at h; subst h
        exact timeInv_nonmain c0 _ _ hP rfl rfl rfl rfl rfl rfl
          (fun o ho => by simp [ReaderPc.pending] at ho) (fun o ho => Or.inl ho)
          (fun hi => by rw [hpc] at hi; cases hi) (fun hi => hi)
      · rename_i j hpc
        simp only [Option.some.injEq] at h; subst h
        exact timeInv_nonmain c0 _ _ hP rfl rfl rfl rfl rfl rfl
          (fun o ho => by simp [ReaderPc.pending] at ho) (fun o ho => Or.inl ho)
          (fun hi => by rw [hpc] at hi; cases hi) (fun hi => hi)
      · rename_i hpc
        simp only [Option.some.injEq] at h; subst h
        exact timeInv_nonmain c0 _ _ hP rfl rfl rfl rfl rfl rfl
          (fun o ho => by simp [ReaderPc.pending] at ho) (fun o ho => Or.inl ho)
          (fun hi => by rw [hpc] at hi; cases hi) (fun hi => hi)
      · simp at h
    | stderr =>
      simp only [step, stepStderr] at h
      split at h
      · simp at h
      · rename_i hpc
        split at h
        · simp only [Option.some.injEq] at h; subst h
          exact timeInv_nonmain c0 _ _ hP rfl rfl rfl rfl rfl rfl
            (fun o ho => Or.inl ho) (fun o ho => by simp [ReaderPc.pending] at ho)
            (fun hi => hi) (fun hi => by rw [hpc] at hi; cases hi)
        · split at h
          · simp only [Option.some.injEq] at h; subst h
            exact timeInv_nonmain c0 _ _ hP rfl rfl rfl rfl rfl rfl
              (fun o ho => Or.inl ho) (fun o ho => by simp [ReaderPc.pending] at ho)
              (fun hi => hi) (fun hi => by rw [hpc] at hi; cases hi)
          · simp at h
      · rename_i m hpc
        simp only [Option.some.injEq] at h; subst h
        exact timeInv_nonmain c0 _ _ hP rfl rfl rfl rfl rfl rfl
          (fun o ho => Or.inl ho)
          (fun o ho => by
            simp only [ReaderPc.pending, Option.some.injEq] at ho
            subst ho
            exact Or.inr ⟨by rw [hpc]; simp, rfl⟩)
          (fun hi => hi) (fun hi => by rw [hpc] at hi; cases hi)
      · rename_i o hpc
        simp only [Option.some.injEq] at h; subst h
        exact timeInv_nonmain c0 _ _ hP rfl rfl rfl rfl rfl rfl
          (fun o ho => Or.inl ho)
          (fun o2 ho => by
            simp only [ReaderPc.pending, Option.some.injEq] at ho
            subst ho
            exact Or.inl (by rw [hpc]; rfl))
          (fun hi => hi) (fun hi => by rw [hpc] at hi; cases hi)
      · rename_i o hpc
        simp only [Option.some.injEq] at h; subst h
        have ho := h6 o (by rw [hpc]; rfl)
        refine ⟨⟨xs, hx, hxs⟩, ⟨ys ++ [o], by simp [hy], ?_⟩, h3, ?_, h5, ?_, h7, h8, h9⟩
        · intro r hr
          rcases List.mem_append.mp hr with hr | hr
          · exact hys r hr
          · simp only [List.mem_singleton] at hr
            subst hr
            exact ho
        · intro hf
          obtain ⟨_, _, _, i2⟩ := h4 hf
          rw [hpc] at i2
          cases i2
        · intro o2 ho2
          simp [ReaderPc.pending] at ho2
      · rename_i hpc
        simp only [Option.some.injEq] at h; subst h
        exact timeInv_nonmain c0 _ _ hP rfl rfl rfl rfl rfl rfl
          (fun o ho => Or.inl ho) (fun o ho => by simp [ReaderPc.pending] at ho)
          (fun hi => hi) (fun hi => by rw [hpc] at hi; cases hi)
      · rename_i j hpc
        simp only [Option.some.injEq] at h; subst h
        exact timeInv_nonmain c0 _ _ hP rfl rfl rfl rfl rfl rfl
          (fun o ho => Or.inl ho) (fun o ho => by simp [ReaderPc.pending] at ho)
          (fun hi => hi) (fun hi => by rw [hpc] at hi; cases hi)
      · rename_i hpc
        simp only [Option.some.injEq] at h; subst h
        exact timeInv_nonmain c0 _ _ hP rfl rfl rfl rfl rfl rfl
          (fun o ho => Or.inl ho) (fun o ho => by simp [ReaderPc.pending] at ho)
          (fun hi => hi) (fun hi => by rw [hpc] at hi; cases hi)
      · simp at h
  | fail st =>
    cases st with
    | stdout =>
      simp only [step] at h
      split at h
      · rename_i hpc
        simp only [Option.some.injEq] at h; subst h
        exact timeInv_nonmain c0 _ _ hP rfl rfl rfl rfl rfl rfl
          (fun o ho => by simp [ReaderPc.pending] at ho) (fun o ho => Or.inl ho)
          (fun hi => by rw [hpc] at hi; cases hi) (fun hi => hi)
      · simp at h
    | stderr =>
      simp only [step] at h
      split at h
      · rename_i hpc
        simp only [Option.some.injEq] at h; subst h
        exact timeInv_nonmain c0 _ _ hP rfl rfl rfl rfl rfl rfl
          (fun o ho => Or.inl ho) (fun o ho => by simp [ReaderPc.pending] at ho)
          (fun hi => hi) (fun hi => by rw [hpc] at hi; cases hi)
      · simp at h
  | emit st line =>
    cases st <;> simp only [step] at h <;> split at h <;>
      first
        | (simp only [Option.some.injEq] at h; subst h
           exact timeInv_nonmain c0 _ _ hP rfl rfl rfl rfl rfl rfl
             (fun o ho => Or.inl ho) (fun o ho => Or.inl ho) (fun hi => hi) (fun hi => hi))
        | simp at h
  | exit =>
    simp only [step] at h
    split at h
    · simp only [Option.some.injEq] at h; subst h
      exact timeInv_nonmain c0 _ _ hP rfl rfl rfl rfl rfl rfl
        (fun o ho => Or.inl ho) (fun o ho => Or.inl ho) (fun hi => hi) (fun hi => hi)
    · simp at h
  | lose st =>
    cases st <;> simp only [step] at h <;> split at h <;>
      first
        | (simp only [Option.some.injEq] at h; subst h
           exact timeInv_nonmain c0 _ _ hP rfl rfl rfl rfl rfl rfl
             (fun o ho => Or.inl ho) (fun o ho => Or.inl ho) (fun hi => hi) (fun hi => hi))
        | simp at h
  | otherCall msg =>
    simp only [step, Option.some.injEq] at h
    subst h
    exact timeInv_nonmain c0 _ _ hP rfl rfl rfl rfl rfl rfl
      (fun o ho => Or.inl ho) (fun o ho => Or.inl ho) (fun hi => hi) (fun hi => hi)
  | otherRet ok =>
    simp only [step, Option.some.injEq] at h
    subst h
    exact timeInv_nonmain c0 _ _ hP rfl rfl rfl rfl rfl rfl
      (fun o ho => Or.inl ho) (fun o ho => Or.inl ho) (fun hi => hi) (fun hi => hi)
  | tick d =>
    simp only [step, Option.some.injEq] at h
    subst h
    refine ⟨⟨xs, hx, ?_⟩, ⟨ys, hy, ?_⟩, ?_, h4, ?_, ?_, ?_, ?_, h9⟩
    · intro r hr
      have := hxs r hr
      exact ⟨this.1, by simp only; omega⟩
    · intro r hr
      have := hys r hr
      exact ⟨this.1, by simp only; omega⟩
    · intro hm
      have := h3 hm
      simp only
      omega
    · intro o ho
      have := h5 o ho
      exact ⟨this.1, by simp only; omega⟩
    · intro o ho
      have := h6 o ho
      exact ⟨this.1, by simp only; omega⟩
    · intro t ht
      have := h7 t ht
      simp only
      omega
    · intro t ht
      have := h8 t ht
      exact ⟨this.1, by simp only; omega⟩

/-- After the body has read the completion time, every step keeps the start time, and
the only time ever stored as the completion time is the one read. -/
theorem endInv_step (st t : Int) (a : Action) (s s1 : Exec) (hP : EndInv st t s)
    (h : step a s = some s1) : EndInv st t s1 := by
  obtain ⟨h1, h2⟩ := hP
  by_cases ha : a = .main
  · subst ha
    rcases h2 with h2 | ⟨h2, _⟩
    · simp only [step, stepMain, h2, Option.some.injEq] at h
      subst h
      exact ⟨h1, Or.inr ⟨rfl, rfl⟩⟩
    · simp [step, stepMain, h2] at h
  · obtain ⟨b1, b2, b3⟩ := step_other_keeps_body a s s1 ha h
    refine ⟨by rw [b2, h1], ?_⟩
    rcases h2 with h2 | ⟨h2, h3⟩
    · exact Or.inl (by rw [b1, h2])
    · exact Or.inr ⟨by rw [b1, h2], by rw [b3, h3]⟩

theorem failInv_step (c0 : Command) (a : Action) (s s1 : Exec) (hP : FailInv c0 s)
    (h : step a s = some s1) : FailInv c0 s1 := by
  obtain ⟨h1, h3, h4, h5, h6, h7, h8, h9, h10⟩ := hP
  cases a with
  | main =>
    simp only [step, stepMain] at h
    repeat' split at h
    all_goals first
      | (simp only [Option.some.injEq] at h; subst h
         exact ⟨h1, h3, h4, h5, h6, h7, h8, h9, h10⟩)
      | (simp only [Option.some.injEq] at h; subst h
         exact ⟨h1, h3, h4, Or.inr rfl, h6, h7, h8, h9, h10⟩)
      | (simp only [Option.some.injEq] at h; subst h
         exact ⟨h1, h3, h4, h5, Or.inr (Or.inl rfl), h7, h8, h9, h10⟩)
      | (simp only [Option.some.injEq] at h; subst h
         exact ⟨h1, h3, h4, h5, h6, Or.inr (Or.inl rfl), h8, h9, h10⟩)
      | (rename_i hs; rw [h1] at hs; cases hs)
      | simp at h
  | reader st =>
    cases st with
    | stdout =>
      simp only [step, stepStdout] at h
      split at h
      · simp at h
      · rw [h3] at h
        simp only at h
        split at h
        · simp only [Option.some.injEq] at h; subst h
          exact ⟨h1, rfl, h4, h5, Or.inr (Or.inr rfl), h7, h8, h9, h10⟩
        · simp at h
      all_goals first
        | (simp at h; done)
        | (rename_i hpc; rcases h6 with h6 | h6 | h6 <;> rw [hpc] at h6 <;> cases h6)
    | stderr =>
      simp only [step, stepStderr] at h
      split at h
      · simp at h
      · rw [h4] at h
        simp only at h
        split at h
        · simp only [Option.some.injEq] at h; subst h
          exact ⟨h1, h3, rfl, h5, h6, Or.inr (Or.inr rfl), h8, h9, h10⟩
        · simp at h
      all_goals first
        | (simp at h; done)
        | (rename_i hpc; rcases h7 with h7 | h7 | h7 <;> rw [hpc] at h7 <;> cases h7)
  | fail st =>
    cases st with
    | stdout =>
      simp only [step] at h
      split at h
      · rename_i hpc
        rcases h6 with h6 | h6 | h6 <;> rw [hpc] at h6 <;> cases h6
      · simp at h
    | stderr =>
      simp only [step] at h
      split at h
      · rename_i hpc
        rcases h7 with h7 | h7 | h7 <;> rw [hpc] at h7 <;> cases h7
      · simp at h
  | emit st line =>
    cases st <;> simp only [step] at h <;> split at h <;>
      first
        | (rename_i hr; rcases h5 with h5 | h5 <;> rw [hr] at h5 <;> cases h5)
        | simp at h
  | exit =>
    simp only [step] at h
    split at h
    · rename_i hr
      rcases h5 with h5 | h5 <;> rw [hr] at h5 <;> cases h5
    · simp at h
  | lose st =>
    cases st <;> simp only [step] at h <;> split at h <;>
      first
        | (simp only [Option.some.injEq] at h; subst h
           exact ⟨h1, rfl, h4, h5, h6, h7, h8, h9, h10⟩)
        | (simp only [Option.some.injEq] at h; subst h
           exact ⟨h1, h3, rfl, h5, h6, h7, h8, h9, h10⟩)
        | simp at h
  | tick d =>
    simp only [step, Option.some.injEq] at h
    subst h
    exact ⟨h1, h3, h4, h5, h6, h7, h8, h9, h10⟩
  | otherCall msg =>
    simp only [step, Option.some.injEq] at h
    subst h
    refine ⟨h1, h3, h4, h5, h6, h7, h8, h9, ?_⟩
    intro x hx
    simp only [Conn.call, List.mem_append, List.mem_singleton] at hx
    rcases hx with hx | hx
    · exact h10 x hx
    · rw [hx]
  | otherRet ok =>
    simp only [step, Option.some.injEq] at h
    subst h
    refine ⟨h1, h3, h4, h5, h6, h7, h8, h9, ?_⟩
    intro x hx
    simp only [ret_calls] at hx
    exact h10 x hx

theorem sentBy_other (l : List (Writer × Frame)) (h : ∀ x ∈ l, x.1 = .other) :
    sentBy l = [] := by
  induction l with
  | nil => rfl
  | cons x xs ih =>
    obtain ⟨w, f⟩ := x
    have hw : w = .other := h (w, f) (List.mem_cons_self _ _)
    subst hw
    simp only [sentBy]
    exact ih (fun y hy => h y (List.mem_cons_of_mem _ hy))

theorem cmdInv_step (c0 : Command) (a : Action) (s s1 : Exec) (hP : CmdInv c0 s)
    (h : step a s = some s1) : CmdInv c0 s1 := by
  obtain ⟨h1, h2⟩ := hP
  cases a with
  | main =>
    simp only [step, stepMain] at h
    split at h
    · split at h
      · rename_i name rest hargs
        simp only [Option.some.injEq] at h; subst h
        refine ⟨h1, Or.inr ⟨name, rest, ?_, rfl⟩⟩
        rw [← hargs]
        simp only [Command.GetArgs, h1]
      · simp only [Option.some.injEq] at h; subst h
        exact ⟨h1, h2⟩
    all_goals first
      | (simp only [Option.some.injEq] at h; subst h; exact ⟨h1, h2⟩)
      | (split at h
         · simp only [Option.some.injEq] at h; subst h; exact ⟨h1, h2⟩
         · simp at h)
      | simp at h
  | reader st =>
    cases st with
    | stdout =>
      simp only [step, stepStdout] at h
      repeat' split at h
      all_goals first
        | (simp only [Option.some.injEq] at h; subst h; exact ⟨h1, h2⟩)
        | simp at h
    | stderr =>
      simp only [step, stepStderr] at h
      repeat' split at h
      all_goals first
        | (simp only [Option.some.injEq] at h; subst h; exact ⟨h1, h2⟩)
        | simp at h
  | fail st =>
    cases st <;> simp only [step] at h <;> split at h <;>
      first
        | (simp only [Option.some.injEq] at h; subst h; exact ⟨h1, h2⟩)
        | simp at h
  | emit st line =>
    cases st <;> simp only [step] at h <;> split at h <;>
      first
        | (simp only [Option.some.injEq] at h; subst h; exact ⟨h1, h2⟩)
        | simp at h
  | exit =>
    simp only [step] at h
    split at h
    · simp only [Option.some.injEq] at h; subst h; exact ⟨h1, h2⟩
    · simp at h
  | lose st =>
    cases st <;> simp only [step] at h <;> split at h <;>
      first
        | (simp only [Option.some.injEq] at h; subst h; exact ⟨h1, h2⟩)
        | simp at h
  | tick d =>
    simp only [step, Option.some.injEq] at h
    subst h
    exact ⟨h1, h2⟩
  | otherCall msg =>
    simp only [step, Option.some.injEq] at h
    subst h
    exact ⟨h1, h2⟩
  | otherRet ok =>
    simp only [step, Option.some.injEq] at h
    subst h
    exact ⟨h1, h2⟩

/-- One pass of the standard-output loop run without interruption (lines 137-146):
the line is taken from the scanner, one record with the line and the present time is
appended to `c.STDOUT`, the action is set, and the resulting Command is handed to
`writeWebSocket`; `c.STDERR` is untouched. -/
theorem stdout_pass (s : Exec) (m : String) (rest : List String)
    (hpc : s.stdoutPc = .scan) (hp : s.stdoutPipe = m :: rest) :
    run (List.replicate 7 (.reader .stdout)) s =
      some { s with
        stdoutPipe := rest
        c := { s.c with STDOUT := s.c.STDOUT ++ [{ Output := m, At := s.now }],
                        Action := "update_command" }
        conn := (s.conn.call (.capture .stdout)
          (.command { s.c with STDOUT := s.c.STDOUT ++ [{ Output := m, At := s.now }],
                               Action := "update_command" })).ret (.capture .stdout) true } := by
  obtain ⟨c, cmd, main, stdoutPc, stderrPc, startOK, proc, stdoutPipe, stderrPipe, now, conn⟩ := s
  simp only at hpc hp
  subst hpc hp
  rfl

/-- One pass of the standard-error loop run without interruption (lines 151-160):
one record with the line and the present time is appended to `c.STDERR`, and
`c.STDOUT` is untouched. -/
theorem stderr_pass (s : Exec) (m : String) (rest : List String)
    (hpc : s.stderrPc = .scan) (hp : s.stderrPipe = m :: rest) :
    run (List.replicate 7 (.reader .stderr)) s =
      some { s with
        stderrPipe := rest
        c := { s.c with STDERR := s.c.STDERR ++ [{ Output := m, At := s.now }],
                        Action := "update_command" }
        conn := (s.conn.call (.capture .stderr)
          (.command { s.c with STDERR := s.c.STDERR ++ [{ Output := m, At := s.now }],
                               Action := "update_command" })).ret (.capture .stderr) true } := by
  obtain ⟨c, cmd, main, stdoutPc, stderrPc, startOK, proc, stdoutPipe, stderrPipe, now, conn⟩ := s
  simp only at hpc hp
  subst hpc hp
  rfl

/-! ## The claims about `GetArgs` and `executeCommand` -/

/-- Not every command line gives a list of tokens: one that is not empty can give an
empty element. -/
theorem GetArgs_tokens_counterexample :
    ¬ ∀ c : Command, c.Command ≠ "" →
      ∃ exe args, c.GetArgs = exe :: args ∧ exe ≠ "" ∧
        ∀ a ∈ exe :: args, a ≠ "" ∧ ∀ ch ∈ a.toList, isSpace ch = false := by
  intro h
  obtain ⟨exe, args, hargs, _, hall⟩ := h { Command.zero with Command := "ls  -l" } (by decide)
  have h0 : Command.GetArgs { Command.zero with Command := "ls  -l" } = ["ls", "", "-l"] := by
    decide
  rw [h0] at hargs
  have hmem : "" ∈ exe :: args := by
    rw [← hargs]
    simp
  exact (hall "" hmem).1 rfl

/-- What `GetArgs` computes: it cuts the command line at every space character. For
every command line the result has at least one element, one more than there are
spaces; no element contains a space; and the elements joined by single spaces are the
command line again, so they are its pieces in order. -/
theorem GetArgs_splits_at_spaces (c : Command) :
    (∃ exe args, c.GetArgs = exe :: args) ∧
    c.GetArgs.length = c.Command.toList.count ' ' + 1 ∧
    (∀ a ∈ c.GetArgs, ' ' ∉ a.toList) ∧
    joinChars ' ' (c.GetArgs.map String.toList) = c.Command.toList := by
  refine ⟨?_, ?_, ?_, ?_⟩
  · cases h : c.GetArgs with
    | nil => exact absurd h (GetArgs_ne_nil c)
    | cons exe args => exact ⟨exe, args, rfl⟩
  · simp [Command.GetArgs, stringsSplit, splitChars_length]
  · intro a ha
    simp only [Command.GetArgs, stringsSplit, List.mem_map] at ha
    obtain ⟨t, ht, rfl⟩ := ha
    exact splitChars_no_sep ' ' _ t ht
  · have hmap : (c.GetArgs.map String.toList) = splitChars ' ' c.Command.toList := by
      simp only [Command.GetArgs, stringsSplit, List.map_map]
      conv_rhs => rw [← List.map_id (splitChars ' ' c.Command.toList)]
      apply List.map_congr_left
      intro t _
      rfl
    rw [hmap, joinChars_splitChars]

/-- C8 (what the code does): for every command line that begins with a space, which
is not the empty command line, `GetArgs` returns the empty string as its first
element, followed by at least one more element; `executeCommand` takes that first
element as the executable and creates the command with the empty name. The doc comment
of `GetArgs` says the first element is always the command itself. -/
theorem GetArgs_leading_space_gives_empty_executable (c : Command) (rest : List Char)
    (h : c.Command.toList = ' ' :: rest) :
    c.Command ≠ "" ∧
    (∃ args, c.GetArgs = "" :: args ∧ args ≠ []) ∧
    ∀ now ok, (finalState [.main] (Exec.init c now ok)).cmd = some (execCommand "" []) := by
  have hget : c.GetArgs = "" :: (splitChars ' ' rest).map String.mk := by
    simp only [Command.GetArgs, stringsSplit, h, splitChars, if_true, List.map_cons]
  refine ⟨?_, ⟨_, hget, ?_⟩, ?_⟩
  · intro hc
    rw [hc] at h
    cases h
  · intro hnil
    exact splitChars_ne_nil ' ' rest (List.map_eq_nil_iff.mp hnil)
  · intro now ok
    simp [finalState, run, step, stepMain, Exec.init, hget]

/-- C8 at the command line of one space, ls, one space and -l: the elements are the
empty string, ls and -l, and the command is created with the empty name. -/
theorem GetArgs_leading_space_gives_empty_executable_witness :
    Command.GetArgs { Command.zero with Command := " ls -l" } = ["", "ls", "-l"] ∧
    (finalState [.main] (Exec.init { Command.zero with Command := " ls -l" } 100 true)).cmd =
      some { Path := "", Args := [""] } :=
  ⟨by decide,
    (GetArgs_leading_space_gives_empty_executable { Command.zero with Command := " ls -l" }
      "ls -l".toList (by decide)).2.2 100 true⟩

/-- C3 (what the code does): in every execution the `exec.Cmd` that is started was
built by `exec.Command(args[0])` alone: its argument list holds the executable name
and nothing else, whatever further elements `GetArgs` returned. -/
theorem executeCommand_passes_no_arguments (c0 : Command) (now : Int) (ok : Bool)
    (sched : List Action) (s : Exec) (cmd : Cmd)
    (h : run sched (Exec.init c0 now ok) = some s) (hc : s.cmd = some cmd) :
    ∃ name rest, c0.GetArgs = name :: rest ∧ cmd.Args = [name] := by
  have hinv : CmdInv c0 s :=
    run_invariant (CmdInv c0) (cmdInv_step c0) sched _ s ⟨rfl, Or.inl rfl⟩ h
  rcases hinv.2 with hn | ⟨name, rest, hargs, hcmd⟩
  · rw [hn] at hc
    cases hc
  · rw [hcmd] at hc
    simp only [Option.some.injEq] at hc
    subst hc
    exact ⟨name, rest, hargs, rfl⟩

/-- C3 at the command line of the specification: `GetArgs` gives echo and hi, and the
subprocess is started as echo with no argument. -/
theorem executeCommand_passes_no_arguments_witness :
    echoCommand.GetArgs = ["echo", "hi"] ∧
    (finalState [.main] (Exec.init echoCommand 100 true)).cmd =
      some { Path := "echo", Args := ["echo"] } ∧
    ∃ name rest, echoCommand.GetArgs = name :: rest ∧ (execCommand "echo" []).Args = [name] :=
  ⟨by decide, by decide,
    executeCommand_passes_no_arguments echoCommand 100 true [.main]
      (finalState [.main] (Exec.init echoCommand 100 true)) (execCommand "echo" [])
      (by decide) (by decide)⟩

/-- C4 (what the code does): when the executable cannot be started, no execution ever
hands a frame to `writeWebSocket` or appends a record: every send on the connection is
another goroutine's, so the completion time that line 167 records in `c` is never
sent. -/
theorem failed_launch_sends_no_frame (c0 : Command) (now : Int) (sched : List Action)
    (s : Exec) (h : run sched (Exec.init c0 now false) = some s) :
    s.sent = [] ∧ (∀ x ∈ s.conn.calls, x.1 = .other) ∧
      s.c.STDOUT = c0.STDOUT ∧ s.c.STDERR = c0.STDERR := by
  have hinv : FailInv c0 s :=
    run_invariant (FailInv c0) (failInv_step c0) sched _ s
      ⟨rfl, rfl, rfl, Or.inl rfl, Or.inl rfl, Or.inl rfl, rfl, rfl, by simp [Exec.init, Conn.idle]⟩
      h
  obtain ⟨_, _, _, _, _, _, h8, h9, h10⟩ := hinv
  exact ⟨sentBy_other _ h10, h10, h8, h9⟩

/-- C4 at the command line of the bad-executable scenario: the execution runs to the
return, the completion time 101 is recorded after the start time 100, and nothing was
handed to `WriteMessage` at all. -/
theorem failed_launch_sends_no_frame_witness :
    (finalState failedSchedule (Exec.init missingCommand 100 false)).main = .returned ∧
    (finalState failedSchedule (Exec.init missingCommand 100 false)).c.StartedAt = 100 ∧
    (finalState failedSchedule (Exec.init missingCommand 100 false)).c.CompletedAt = 101 ∧
    (finalState failedSchedule (Exec.init missingCommand 100 false)).conn.calls = [] ∧
    (finalState failedSchedule (Exec.init missingCommand 100 false)).sent = [] :=
  ⟨by decide, by decide, by decide, by decide,
    (failed_launch_sends_no_frame missingCommand 100 failedSchedule
      (finalState failedSchedule (Exec.init missingCommand 100 false)) (by decide)).1⟩

/-- C5 as stated fails: in the execution `lateSchedule` the body has returned with the
completion time 100 recorded and nothing appended yet (after twelve actions); the
standard-output goroutine then appends a record stamped 101. A record is appended
after `completed_at` is set, and its time is later than `completed_at`. -/
theorem completed_before_last_record :
    (run (lateSchedule.take 12) (Exec.init echoCommand 100 true)).isSome = true ∧
    (finalState (lateSchedule.take 12) (Exec.init echoCommand 100 true)).main = .returned ∧
    (finalState (lateSchedule.take 12) (Exec.init echoCommand 100 true)).c.CompletedAt = 100 ∧
    appendedStdout echoCommand
      (finalState (lateSchedule.take 12) (Exec.init echoCommand 100 true)) = [] ∧
    (run lateSchedule (Exec.init echoCommand 100 true)).isSome = true ∧
    (finalState lateSchedule (Exec.init echoCommand 100 true)).c.CompletedAt = 100 ∧
    appendedStdout echoCommand (finalState lateSchedule (Exec.init echoCommand 100 true)) =
      [{ Output := "hi", At := 101 }] := by
  decide

theorem appended_prefix (l0 l1 l2 : List CommandOutput) (h0 : l0 <+: l1) (h1 : l1 <+: l2) :
    l1.drop l0.length <+: l2.drop l0.length := by
  obtain ⟨t, ht⟩ := h1
  have hle : l0.length ≤ l1.length := h0.length_le
  refine ⟨t, ?_⟩
  rw [← ht, List.drop_append_of_le_length hle]

/-- C5 as amended: in every execution, with a clock that never goes back, every record
appended to either sequence is stamped at or after `c.StartedAt`, and the completion
time, once stored, is at or after the start time. Moreover take any moment at which
`cmd.Wait()` has returned and the body reads the completion time (line 167), and any
continuation to the return: the completion time stored is the time read; the records
appended by that moment stay at the front of the sequences; and every record stamped
by that moment, whether appended already or still held in a goroutine's variable `out`
and appended later, lies between `StartedAt` and `CompletedAt`. -/
theorem timestamps_bracket_stamped_records (c0 : Command) (now : Int) (ok : Bool)
    (sched : List Action) (s : Exec) (h : run sched (Exec.init c0 now ok) = some s) :
    (∀ r ∈ appendedStdout c0 s ++ appendedStderr c0 s, s.c.StartedAt ≤ r.At) ∧
    (s.main = .returned → s.c.StartedAt ≤ s.c.CompletedAt) ∧
    ∀ s1 sched2 s2, s.main = .waited → step .main s = some s1 →
      run sched2 s1 = some s2 → s2.main = .returned →
      s2.c.CompletedAt = s.now ∧
      appendedStdout c0 s <+: appendedStdout c0 s2 ∧
      appendedStderr c0 s <+: appendedStderr c0 s2 ∧
      ∀ r, (r ∈ appendedStdout c0 s ++ appendedStderr c0 s ∨
            s.stdoutPc.pending = some r ∨ s.stderrPc.pending = some r) →
        s2.c.StartedAt ≤ r.At ∧ r.At ≤ s2.c.CompletedAt := by
  have hinv : TimeInv c0 s :=
    run_invariant (TimeInv c0) (timeInv_step c0) sched _ s (timeInv_init c0 now ok) h
  obtain ⟨⟨xs, hx, hxs⟩, ⟨ys, hy, hys⟩, _, _, h5, h6, _, _, h9⟩ := hinv
  have hax : appendedStdout c0 s = xs := by
    simp only [appendedStdout, hx, List.drop_left]
  have hay : appendedStderr c0 s = ys := by
    simp only [appendedStderr, hy, List.drop_left]
  refine ⟨?_, h9, ?_⟩
  · intro r hr
    rw [hax, hay] at hr
    rcases List.mem_append.mp hr with hr | hr
    · exact (hxs r hr).1
    · exact (hys r hr).1
  · intro s1 sched2 s2 hm hs hr hret
    simp only [step, stepMain, hm, Option.some.injEq] at hs
    subst hs
    have hend : EndInv s.c.StartedAt s.now s2 := by
      refine run_invariant (EndInv s.c.StartedAt s.now) (endInv_step _ _) sched2 _ s2 ?_ hr
      exact ⟨rfl, Or.inl rfl⟩
    obtain ⟨e1, e2⟩ := hend
    have hco : s2.c.CompletedAt = s.now := by
      rcases e2 with e2 | ⟨_, e2⟩
      · rw [hret] at e2
        cases e2
      · exact e2
    have hev := run_earlier sched2 _ s2 hr
    refine ⟨hco, ?_, ?_, ?_⟩
    · exact appended_prefix _ _ _ ⟨xs, hx.symm⟩ hev.1
    · exact appended_prefix _ _ _ ⟨ys, hy.symm⟩ hev.2
    · intro r hr
      rw [e1, hco]
      rcases hr with hr | hr | hr
      · rw [hax, hay] at hr
        rcases List.mem_append.mp hr with hr | hr
        · exact hxs r hr
        · exact hys r hr
      · exact h5 r hr
      · exact h6 r hr

/-- C5 as amended, on the execution `stampedSchedule`: when the body reads the
completion time 102, one record (stamped 100) is appended and one (stamped 101) is
still held by the standard-output goroutine, which appends it afterwards; the body
then stores 102, and both records lie between the start time 100 and 102. -/
theorem timestamps_bracket_stamped_records_witness :
    (finalState (stampedSchedule ++ .main :: stampedRest)
      (Exec.init echoCommand 100 true)).c.StartedAt = 100 ∧
    (finalState (stampedSchedule ++ .main :: stampedRest)
      (Exec.init echoCommand 100 true)).c.STDERR = [{ Output := "e", At := 100 }] ∧
    (finalState (stampedSchedule ++ .main :: stampedRest)
      (Exec.init echoCommand 100 true)).c.STDOUT = [{ Output := "hi", At := 101 }] ∧
    (finalState stampedSchedule (Exec.init echoCommand 100 true)).c.STDOUT = [] ∧
    (finalState (stampedSchedule ++ .main :: stampedRest)
      (Exec.init echoCommand 100 true)).c.CompletedAt =
        (finalState stampedSchedule (Exec.init echoCommand 100 true)).now ∧
    ((finalState (stampedSchedule ++ .main :: stampedRest)
        (Exec.init echoCommand 100 true)).c.StartedAt ≤
          ({ Output := "hi", At := 101 } : CommandOutput).At ∧
      ({ Output := "hi", At := 101 } : CommandOutput).At ≤
        (finalState (stampedSchedule ++ .main :: stampedRest)
          (Exec.init echoCommand 100 true)).c.CompletedAt) :=
  have h := (timestamps_bracket_stamped_records echoCommand 100 true stampedSchedule
    (finalState stampedSchedule (Exec.init echoCommand 100 true)) (by decide)).2.2
    (finalState (stampedSchedule ++ [.main]) (Exec.init echoCommand 100 true))
    stampedRest
    (finalState (stampedSchedule ++ .main :: stampedRest) (Exec.init echoCommand 100 true))
    (by decide) (by decide) (by decide) (by decide)
  ⟨by decide, by decide, by decide, by decide, h.1,
    h.2.2.2 { Output := "hi", At := 101 } (Or.inr (Or.inl (by decide)))⟩

/-- C6 as stated fails: in the execution `reorderSchedule` two frames are sent, one
after the other, so both are transmitted whole. The first, from the standard-error
goroutine, carries the standard-error sequence with the record e; the second,
marshalled earlier by the standard-output goroutine, carries the empty standard-error
sequence. The sequence of the earlier frame is not a prefix of the sequence of the
later frame. -/
theorem later_frame_carries_shorter_sequence :
    (run reorderSchedule (Exec.init echoCommand 100 true)).isSome = true ∧
    (finalState reorderSchedule (Exec.init echoCommand 100 true)).sent.map
        (fun f => (f.1, f.2.STDERR)) =
      [(.stderr, [{ Output := "e", At := 100 }]), (.stdout, [])] ∧
    (finalState reorderSchedule (Exec.init echoCommand 100 true)).conn.wire =
      (finalState reorderSchedule (Exec.init echoCommand 100 true)).conn.calls ∧
    ¬ ([{ Output := "e", At := 100 }] : List CommandOutput) <+: [] := by
  refine ⟨by decide, by decide, by decide, ?_⟩
  simp

/-- C6 as amended: in every execution, a step either leaves both output sequences as
they are or appends the goroutine's one record `out` at the end of that goroutine's
own sequence, leaving the other sequence alone; the record of a line is stamped with
the present time; a pass of either loop run without interruption appends exactly that
record and hands the resulting Command to `writeWebSocket`. Hence, for each stream,
the sequence carried by a frame is a prefix of the sequence in `c`; the sequences
carried by any two frames are comparable by prefix; the sequence of a stream carried
by a frame is a prefix of the one carried by every later frame sent by that stream's
own goroutine; and both sequences of a frame are prefixes of those of every later frame
of the same goroutine. While no two sends have overlapped and none has failed, the
frames handed over are transmitted whole in that order. -/
theorem capture_appends_and_frames_grow (c0 : Command) (now : Int) (ok : Bool)
    (sched : List Action) (s : Exec) (h : run sched (Exec.init c0 now ok) = some s) :
    (∀ a s1, step a s = some s1 →
      (s1.c.STDOUT = s.c.STDOUT ∧ s1.c.STDERR = s.c.STDERR) ∨
      (∃ o, a = .reader .stdout ∧ s.stdoutPc = .out o ∧
        s1.c.STDOUT = s.c.STDOUT ++ [o] ∧ s1.c.STDERR = s.c.STDERR) ∨
      (∃ o, a = .reader .stderr ∧ s.stderrPc = .half o ∧
        s1.c.STDERR = s.c.STDERR ++ [o] ∧ s1.c.STDOUT = s.c.STDOUT)) ∧
    (∀ m, s.stdoutPc = .text m →
      step (.reader .stdout) s = some { s with stdoutPc := .out { Output := m, At := s.now } }) ∧
    (∀ m, s.stderrPc = .text m →
      step (.reader .stderr) s = some { s with stderrPc := .out { Output := m, At := s.now } }) ∧
    (∀ m rest, s.stdoutPc = .scan → s.stdoutPipe = m :: rest →
      ∃ s1, run (List.replicate 7 (.reader .stdout)) s = some s1 ∧
        s1.c.STDOUT = s.c.STDOUT ++ [{ Output := m, At := s.now }] ∧
        s1.c.STDERR = s.c.STDERR ∧ s1.sent = s.sent ++ [(.stdout, s1.c)]) ∧
    (∀ m rest, s.stderrPc = .scan → s.stderrPipe = m :: rest →
      ∃ s1, run (List.replicate 7 (.reader .stderr)) s = some s1 ∧
        s1.c.STDERR = s.c.STDERR ++ [{ Output := m, At := s.now }] ∧
        s1.c.STDOUT = s.c.STDOUT ∧ s1.sent = s.sent ++ [(.stderr, s1.c)]) ∧
    (∀ f ∈ s.sent, f.2.STDOUT <+: s.c.STDOUT ∧ f.2.STDERR <+: s.c.STDERR) ∧
    (∀ f ∈ s.sent, ∀ g ∈ s.sent,
      (f.2.STDOUT <+: g.2.STDOUT ∨ g.2.STDOUT <+: f.2.STDOUT) ∧
      (f.2.STDERR <+: g.2.STDERR ∨ g.2.STDERR <+: f.2.STDERR)) ∧
    s.sent.Pairwise (fun f g =>
      (g.1 = .stdout → f.2.STDOUT <+: g.2.STDOUT) ∧
      (g.1 = .stderr → f.2.STDERR <+: g.2.STDERR) ∧
      (f.1 = g.1 → f.2.STDOUT <+: g.2.STDOUT ∧ f.2.STDERR <+: g.2.STDERR)) ∧
    (s.conn.clashed = false → s.conn.dropped = 0 →
      s.conn.wire ++ s.conn.inflight = s.conn.calls) := by
  have hinv : WireInv s :=
    run_invariant WireInv wireInv_step sched _ s (wireInv_init c0 now ok) h
  have hwhole : s.conn.Whole :=
    run_invariant (fun t => t.conn.Whole) whole_step sched _ s whole_idle h
  obtain ⟨h1, _, _, h4⟩ := hinv
  refine ⟨fun a s1 hs => step_sequences a s s1 hs, ?_, ?_, ?_, ?_, h1, ?_, h4,
    fun hc hd => (hwhole hc).2 hd⟩
  · intro m hpc
    simp only [step, stepStdout, hpc]
  · intro m hpc
    simp only [step, stepStderr, hpc]
  · intro m rest hpc hp
    refine ⟨_, stdout_pass s m rest hpc hp, rfl, rfl, ?_⟩
    simp only [Exec.sent, sentBy_ret, sentBy_call_capture]
  · intro m rest hpc hp
    refine ⟨_, stderr_pass s m rest hpc hp, rfl, rfl, ?_⟩
    simp only [Exec.sent, sentBy_ret, sentBy_call_capture]
  · intro f hf g hg
    exact ⟨List.prefix_or_prefix_of_prefix (h1 f hf).1 (h1 g hg).1,
      List.prefix_or_prefix_of_prefix (h1 f hf).2 (h1 g hg).2⟩

/-- C6 as amended, on the execution `growSchedule`, whose three frames come from the
standard-output goroutine, the standard-error goroutine and the standard-output
goroutine again: the standard-output sequences they carry are a, then a, then a and b,
and the order of the theorem holds between every two of them. -/
theorem capture_appends_and_frames_grow_witness :
    (run growSchedule (Exec.init echoCommand 100 true)).isSome = true ∧
    (finalState growSchedule (Exec.init echoCommand 100 true)).sent.map
        (fun f => (f.1, f.2.STDOUT.map (fun r => r.Output), f.2.STDERR.map (fun r => r.Output))) =
      [(.stdout, ["a"], []), (.stderr, ["a"], ["e"]), (.stdout, ["a", "b"], ["e"])] ∧
    (finalState growSchedule (Exec.init echoCommand 100 true)).sent.Pairwise (fun f g =>
      (g.1 = .stdout → f.2.STDOUT <+: g.2.STDOUT) ∧
      (g.1 = .stderr → f.2.STDERR <+: g.2.STDERR) ∧
      (f.1 = g.1 → f.2.STDOUT <+: g.2.STDOUT ∧ f.2.STDERR <+: g.2.STDERR)) :=
  ⟨by decide, by decide,
    (capture_appends_and_frames_grow echoCommand 100 true growSchedule
      (finalState growSchedule (Exec.init echoCommand 100 true))
      (by decide)).2.2.2.2.2.2.2.1⟩

/-- The index expression `args[0]` of line 121 never panics: no execution of
`executeCommand` reaches the panicked state. -/
theorem args_index_in_range (c0 : Command) (now : Int) (ok : Bool) (sched : List Action)
    (s : Exec) (h : run sched (Exec.init c0 now ok) = some s) : s.main ≠ .panicked := by
  refine run_invariant (fun t => t.main ≠ .panicked) ?_ sched _ s (by simp [Exec.init]) h
  intro a t t1 hP ht
  by_cases ha : a = .main
  · subst ha
    simp only [step, stepMain] at ht
    split at ht
    · split at ht
      · simp only [Option.some.injEq] at ht; subst ht; simp
      · rename_i hargs
        exact absurd hargs (GetArgs_ne_nil _)
    all_goals first
      | (simp only [Option.some.injEq] at ht; subst ht; simp)
      | (split at ht
         · simp only [Option.some.injEq] at ht; subst ht; simp
         · simp at ht)
      | simp at ht
  · rw [(step_other_keeps_body a t t1 ha ht).1]
    exact hP

/-- No panic on the complete failed execution: it ends returned. -/
theorem args_index_in_range_witness :
    (finalState failedSchedule (Exec.init missingCommand 100 false)).main ≠ .panicked :=
  args_index_in_range missingCommand 100 false failedSchedule
    (finalState failedSchedule (Exec.init missingCommand 100 false)) (by decide)

/-! ## The process: read loop and subscription goroutines -/

theorem liveRun_invariant (lib : JSONLib) (P : Live → Prop)
    (hstep : ∀ a p p1, P p → liveStep lib a p = some p1 → P p1) :
    ∀ (sched : List LiveAction) (p p1 : Live), P p → liveRun lib sched p = some p1 → P p1 := by
  intro sched
  induction sched with
  | nil =>
    intro p p1 hP h
    simp only [liveRun, Option.some.injEq] at h
    exact h ▸ hP
  | cons a rest ih =>
    intro p p1 hP h
    simp only [liveRun] at h
    split at h
    · rename_i p2 h2
      exact ih p2 p1 (hstep a p p2 hP h2) h
    · exact absurd h (by simp)

/-- What the dispatch of lines 203-237 does to the goroutines started and to `errChan`:
it starts at most one goroutine and sends nothing on the channel. -/
theorem dispatch_effect (lib : JSONLib) (s : Session) (text : String) :
    (dispatch lib s text).errChan = s.errChan ∧
    ∃ l, (dispatch lib s text).spawned = s.spawned ++ l := by
  unfold dispatch
  dsimp only
  repeat' split
  all_goals first
    | exact ⟨rfl, _, rfl⟩
    | exact ⟨rfl, [], (List.append_nil _).symm⟩

/-- What a pass of the loop does to the goroutines started and to `errChan`: goroutines
are only added, and a pass after which the loop is still running sent nothing on the
channel. -/
theorem iteration_effect (lib : JSONLib) (s : Session) (r : ReadMessage) :
    ((iteration lib s r).status = .running → (iteration lib s r).errChan = s.errChan) ∧
    ∃ l, (iteration lib s r).spawned = s.spawned ++ l := by
  unfold iteration
  repeat' split
  all_goals first
    | exact ⟨fun _ => (dispatch_effect lib s _).1, (dispatch_effect lib s _).2⟩
    | (refine ⟨fun hh => ?_, [], (List.append_nil _).symm⟩; cases hh)

theorem advance_spec : ∀ (i : Nat) (ps qs : List SubPc) (old : SubPc),
    advance i ps = some (qs, old) →
    qs.length = ps.length ∧ ps[i]? = some old ∧ old ≠ .done ∧
    qs[i]? = some (if old = .start then .writing else .done) ∧
    ∀ j, j ≠ i → qs[j]? = ps[j]? := by
  intro i
  induction i with
  | zero =>
    intro ps qs old h
    cases ps with
    | nil => simp [advance] at h
    | cons p ps =>
      cases p with
      | start =>
        simp only [advance, Option.some.injEq, Prod.mk.injEq] at h
        obtain ⟨rfl, rfl⟩ := h
        refine ⟨rfl, by simp, by simp, by simp, ?_⟩
        intro j hj
        cases j with
        | zero => exact absurd rfl hj
        | succ j => simp
      | writing =>
        simp only [advance, Option.some.injEq, Prod.mk.injEq] at h
        obtain ⟨rfl, rfl⟩ := h
        refine ⟨rfl, by simp, by simp, by simp, ?_⟩
        intro j hj
        cases j with
        | zero => exact absurd rfl hj
        | succ j => simp
      | done => simp [advance] at h
  | succ i ih =>
    intro ps qs old h
    cases ps with
    | nil => simp [advance] at h
    | cons p ps =>
      simp only [advance] at h
      split at h
      · rename_i rs old2 hrs
        simp only [Option.some.injEq, Prod.mk.injEq] at h
        obtain ⟨rfl, rfl⟩ := h
        obtain ⟨a1, a2, a3, a4, a5⟩ := ih ps rs old2 hrs
        refine ⟨by simp [a1], by simpa using a2, a3, by simpa using a4, ?_⟩
        intro j hj
        cases j with
        | zero => simp
        | succ j =>
          simp only [List.getElem?_cons_succ]
          exact a5 j (fun hh => hj (by rw [hh]))
      · simp at h

theorem callsOf_call (j : Nat) (k : Conn) (w : Writer) (msg : Frame) :
    callsOf j (k.call w msg) = callsOf j k + (if w = .subscribe j then 1 else 0) := by
  simp only [callsOf, Conn.call, List.filter_append, List.length_append]
  by_cases hw : w = .subscribe j
  · simp [hw]
  · simp [hw]

theorem callsOf_ret (j : Nat) (k : Conn) (w : Writer) (ok : Bool) :
    callsOf j (k.ret w ok) = callsOf j k := by
  simp only [callsOf, ret_calls]

/-- The call that `takeOut` takes out is one of the writer, and the calls of the other
writers stay; it finds a call whenever the writer has one in flight. -/
theorem takeOut_count (w : Writer) : ∀ (l : List (Writer × Frame)),
    match takeOut w l with
    | none => (l.filter fun x => x.1 = w).length = 0
    | some (_, rest) => ∀ v, (rest.filter fun x => x.1 = v).length + (if v = w then 1 else 0) =
        (l.filter fun x => x.1 = v).length := by
  intro l
  induction l with
  | nil => simp [takeOut]
  | cons a as ih =>
    by_cases ha : a.1 = w
    · simp only [takeOut, ha, if_true]
      intro v
      by_cases hv : v = w
      · simp [List.filter_cons, ha, hv]
      · have hne : ¬ w = v := fun hh => hv hh.symm
        simp [List.filter_cons, ha, hv, hne]
    · simp only [takeOut, ha, if_false]
      cases ht : takeOut w as with
      | none =>
        rw [ht] at ih
        simp only at ih ⊢
        simpa [List.filter_cons, ha] using ih
      | some yr =>
        obtain ⟨y, rest⟩ := yr
        rw [ht] at ih
        simp only at ih ⊢
        intro v
        have := ih v
        by_cases hav : a.1 = v
        · simp only [List.filter_cons, hav, decide_True, if_true, List.length_cons]
          omega
        · simp only [List.filter_cons, hav, decide_False, Bool.false_eq_true, if_false]
          exact this

theorem inflightOf_call (v : Writer) (k : Conn) (w : Writer) (msg : Frame) :
    inflightOf v (k.call w msg) = inflightOf v k + (if w = v then 1 else 0) := by
  simp only [inflightOf, Conn.call, List.filter_append, List.length_append]
  by_cases hw : w = v
  · simp [hw]
  · simp [hw]

theorem inflightOf_ret (v : Writer) (k : Conn) (w : Writer) (ok : Bool) :
    inflightOf v (k.ret w ok) = inflightOf v k - (if v = w then 1 else 0) := by
  have h := takeOut_count w k.inflight
  unfold Conn.ret
  split
  · rename_i hn
    rw [hn] at h
    simp only at h
    by_cases hv : v = w
    · subst hv
      simp only [inflightOf, h, if_true]
    · simp [hv]
  · rename_i x rest hs
    rw [hs] at h
    simp only at h
    have := h v
    simp only [inflightOf]
    omega

theorem liveInv_init (config : Config) (frames : List ReadMessage) :
    LiveInv (Live.init config frames) := by
  refine ⟨rfl, ?_, ?_, fun _ => rfl, ?_⟩
  · intro i
    simp [Live.init, callsOf, Conn.idle]
  · intro x hx
    simp [Live.init, Conn.idle] at hx
  · intro i
    simp [Live.init, inflightOf, Conn.idle]

theorem subscribe_ne {i j : Nat} (h : j ≠ i) : Writer.subscribe i ≠ Writer.subscribe j := by
  intro hh
  cases hh
  exact h rfl

theorem liveInv_step (lib : JSONLib) (a : LiveAction) (p p1 : Live) (hP : LiveInv p)
    (h : liveStep lib a p = some p1) : LiveInv p1 := by
  obtain ⟨h1, h2, h3, h4, h5⟩ := hP
  have hret : ∀ (i : Nat) (qs : List SubPc) (ok : Bool),
      advance i p.subs = some (qs, .writing) →
      LiveInv { p with subs := qs, conn := p.conn.ret (.subscribe i) ok } := by
    intro i qs ok hadv
    obtain ⟨a1, a2, _, a4, a5⟩ := advance_spec i p.subs qs .writing hadv
    refine ⟨by simp only; rw [a1, h1], ?_, ?_, h4, ?_⟩
    · intro j
      simp only
      rw [callsOf_ret, h2 j]
      by_cases hj : j = i
      · subst hj
        rw [a2, a4]
        simp
      · rw [a5 j hj]
    · intro x hx j hxj
      simp only [ret_calls] at hx
      exact h3 x hx j hxj
    · intro j
      simp only
      rw [inflightOf_ret, h5 j]
      by_cases hj : j = i
      · subst hj
        rw [a2, a4]
        simp
      · rw [a5 j hj]
        have hne : ¬ Writer.subscribe j = Writer.subscribe i := fun hh =>
          subscribe_ne hj hh.symm
        simp [hne]
  unfold liveStep at h
  split at h
  · simp at h
  · cases a with
    | loop =>
      simp only at h
      split at h
      · rename_i r rest hst hin
        simp only [Option.some.injEq] at h
        subst h
        obtain ⟨e1, l, e2⟩ := iteration_effect lib { p.sess with inbox := rest } r
        simp only at e1 e2
        refine ⟨?_, ?_, h3, ?_, ?_⟩
        · simp only [List.length_append, List.length_replicate, e2, List.count_append, h1]
          omega
        · intro i
          simp only
          rw [h2 i]
          by_cases hi : i < p.subs.length
          · rw [List.getElem?_append_left hi]
          · have hle : p.subs.length ≤ i := Nat.le_of_not_lt hi
            have hn : p.subs[i]? = none := List.getElem?_eq_none hle
            rw [List.getElem?_append_right hle, hn, List.getElem?_replicate]
            split_ifs <;> rfl
        · intro hrun
          simp only at hrun ⊢
          rw [e1 hrun]
          exact h4 hst
        · intro i
          simp only
          rw [h5 i]
          by_cases hi : i < p.subs.length
          · rw [List.getElem?_append_left hi]
          · have hle : p.subs.length ≤ i := Nat.le_of_not_lt hi
            have hn : p.subs[i]? = none := List.getElem?_eq_none hle
            rw [List.getElem?_append_right hle, hn, List.getElem?_replicate]
            split_ifs <;> rfl
      · simp at h
    | sub i =>
      simp only at h
      split at h
      · rename_i qs hadv
        simp only [Option.some.injEq] at h
        subst h
        obtain ⟨a1, a2, _, a4, a5⟩ := advance_spec i p.subs qs .start hadv
        refine ⟨by simp only; rw [a1, h1], ?_, ?_, h4, ?_⟩
        · intro j
          simp only
          rw [callsOf_call, h2 j]
          by_cases hj : j = i
          · subst hj
            rw [a2, a4]
            simp
          · rw [a5 j hj]
            simp [subscribe_ne hj]
        · intro x hx j hxj
          simp only [Conn.call, List.mem_append, List.mem_singleton] at hx
          rcases hx with hx | hx
          · exact h3 x hx j hxj
          · rw [hx]
        · intro j
          simp only
          rw [inflightOf_call, h5 j]
          by_cases hj : j = i
          · subst hj
            rw [a2, a4]
            simp
          · rw [a5 j hj]
            simp [subscribe_ne hj]
      · rename_i qs hadv
        simp only [Option.some.injEq] at h
        subst h
        exact hret i qs true hadv
      · simp at h
    | subFail i =>
      simp only at h
      split at h
      · rename_i qs hadv
        simp only [Option.some.injEq] at h
        subst h
        exact hret i qs false hadv
      · simp at h
    | otherCall msg =>
      simp only [Option.some.injEq] at h
      subst h
      refine ⟨h1, ?_, ?_, h4, ?_⟩
      · intro j
        simp only
        rw [callsOf_call, h2 j]
        simp
      · intro x hx j hxj
        simp only [Conn.call, List.mem_append, List.mem_singleton] at hx
        rcases hx with hx | hx
        · exact h3 x hx j hxj
        · rw [hx] at hxj
          cases hxj
      · intro j
        simp only
        rw [inflightOf_call, h5 j]
        simp
    | otherRet ok =>
      simp only [Option.some.injEq] at h
      subst h
      refine ⟨h1, ?_, ?_, h4, ?_⟩
      · intro j
        simp only
        rw [callsOf_ret, h2 j]
      · intro x hx j hxj
        simp only [ret_calls] at hx
        exact h3 x hx j hxj
      · intro j
        simp only
        rw [inflightOf_ret, h5 j]
        simp
    | crash =>
      simp only at h
      split at h
      · simp only [Option.some.injEq] at h
        subst h
        exact ⟨h1, h2, h3, h4, h5⟩
      · simp at h

/-- What a step of the process does to the connection: nothing, a call, or a return. -/
theorem liveStep_conn (lib : JSONLib) (a : LiveAction) (p p1 : Live)
    (h : liveStep lib a p = some p1) :
    p1.conn = p.conn ∨ (∃ w msg, p1.conn = p.conn.call w msg) ∨
      (∃ w ok, p1.conn = p.conn.ret w ok) := by
  unfold liveStep at h
  split at h
  · simp at h
  · cases a <;> simp only at h <;> repeat' split at h
    all_goals first
      | (simp only [Option.some.injEq] at h; subst h; exact Or.inl rfl)
      | (simp only [Option.some.injEq] at h; subst h; exact Or.inr (Or.inl ⟨_, _, rfl⟩))
      | (simp only [Option.some.injEq] at h; subst h; exact Or.inr (Or.inr ⟨_, _, rfl⟩))
      | simp at h

theorem liveWhole_step (lib : JSONLib) (a : LiveAction) (p p1 : Live) (hP : p.conn.Whole)
    (h : liveStep lib a p = some p1) : p1.conn.Whole := by
  rcases liveStep_conn lib a p p1 h with h1 | ⟨w, msg, h1⟩ | ⟨w, ok, h1⟩
  · rw [h1]; exact hP
  · rw [h1]; exact whole_call _ _ _ hP
  · rw [h1]; exact whole_ret _ _ _ hP

/-- C9 as stated fails: two connected frames are dispatched, the two subscription
goroutines both call `WriteMessage` before either call returns, and the library
panics. No frame is transmitted for either connected frame, the process has ended, and
the third frame is never read. -/
theorem concurrent_subscriptions_clash :
    (liveRun encodingJSON clashSchedule
      (Live.init sampleConfig [connectedFrame, connectedFrame, outputFrame])).isSome = true ∧
    (liveFinal encodingJSON clashSchedule
      (Live.init sampleConfig [connectedFrame, connectedFrame, outputFrame])).conn.inflight =
        [(.subscribe 0, subscription), (.subscribe 1, subscription)] ∧
    (liveFinal encodingJSON clashSchedule
      (Live.init sampleConfig [connectedFrame, connectedFrame, outputFrame])).conn.wire = [] ∧
    (liveFinal encodingJSON clashSchedule
      (Live.init sampleConfig [connectedFrame, connectedFrame, outputFrame])).dead = true ∧
    (liveFinal encodingJSON clashSchedule
      (Live.init sampleConfig [connectedFrame, connectedFrame, outputFrame])).sess.inbox =
        [outputFrame] ∧
    liveStep encodingJSON .loop (liveFinal encodingJSON clashSchedule
      (Live.init sampleConfig [connectedFrame, connectedFrame, outputFrame])) = none := by
  decide

/-- C9 as amended: in every execution of the process, for every configuration, a pass
of the read loop on a text frame whose action is connected starts exactly one goroutine,
the subscription, sends nothing itself, launches no command, and leaves the loop
running at the next frame; there is one subscription goroutine for each such frame;
each goroutine calls `writeWebSocket` exactly once, when it leaves its start, with the
frame `NewCommands{"new_commands", "abc123"}`, the JSON object with the members action
and server_id, whatever the configured server_id; and while no two sends on the
connection have overlapped and none has failed, the frames handed over are transmitted
whole, in the order of the calls, so that for a goroutine whose send has returned
exactly one frame, the subscription, has been transmitted. -/
theorem connected_starts_one_subscription (lib : JSONLib) (config : Config)
    (frames : List ReadMessage) (sched : List LiveAction) (p : Live)
    (h : liveRun lib sched (Live.init config frames) = some p) :
    (∀ buf rest m, p.dead = false → p.sess.status = .running →
      p.sess.inbox = { msgType := TextMessage, buf := buf, err := none } :: rest →
      lib.unmarshal (goString buf) = some (.obj m) →
      JSON.index m "action" = some (.str "connected") →
      liveStep lib .loop p =
        some { p with
          sess := { p.sess with
            inbox := rest
            display := p.sess.display ++ ["< " ++ goString buf ++ "\n"]
            spawned := p.sess.spawned ++ [.subscribe] }
          subs := p.subs ++ [.start] }) ∧
    p.subs.length = p.sess.spawned.count .subscribe ∧
    (∀ i, callsOf i p.conn =
      match p.subs[i]? with
      | some .writing => 1
      | some .done => 1
      | _ => 0) ∧
    (∀ x ∈ p.conn.calls, ∀ i, x.1 = .subscribe i → x.2 = subscription) ∧
    subscription.toJSON = .obj [("action", .str "new_commands"), ("server_id", .str "abc123")] ∧
    (p.conn.clashed = false → p.conn.dropped = 0 →
      p.conn.wire ++ p.conn.inflight = p.conn.calls ∧
      ∀ i, p.subs[i]? = some .done →
        (p.conn.wire.filter fun x => x.1 = .subscribe i) = [(.subscribe i, subscription)]) := by
  have hinv : LiveInv p :=
    liveRun_invariant lib LiveInv (liveInv_step lib) sched _ p (liveInv_init config frames) h
  have hwhole : p.conn.Whole :=
    liveRun_invariant lib (fun t => t.conn.Whole) (liveWhole_step lib) sched _ p whole_idle h
  obtain ⟨h1, h2, h3, h4, h5⟩ := hinv
  refine ⟨?_, h1, h2, h3, rfl, ?_⟩
  · intro buf rest m hdead hrun hin hobj hact
    have herr := h4 hrun
    clear h hwhole h1 h2 h3 h4 h5
    obtain ⟨⟨inbox, display, spawned, errChan, status⟩, subs, conn, dead⟩ := p
    simp only at hdead hrun hin herr
    subst hdead hrun hin herr
    have hit : iteration lib ⟨rest, display, spawned, [], .running⟩
        { msgType := TextMessage, buf := buf, err := none } =
          ⟨rest, display ++ ["< " ++ goString buf ++ "\n"], spawned ++ [.subscribe], [],
            .running⟩ := by
      simp [iteration, dispatch_connected lib _ _ m hobj hact]
    simp [liveStep, hit, Session.exit, List.count_append]
  · intro hc hd
    have hw := (hwhole hc).2 hd
    refine ⟨hw, ?_⟩
    intro i hdone
    have hf : (p.conn.wire.filter fun x => x.1 = .subscribe i) ++
        (p.conn.inflight.filter fun x => x.1 = .subscribe i) =
          p.conn.calls.filter fun x => x.1 = .subscribe i := by
      rw [← List.filter_append, hw]
    have h5i := h5 i
    rw [hdone] at h5i
    have h2i := h2 i
    rw [hdone] at h2i
    simp only [inflightOf] at h5i
    simp only [callsOf] at h2i
    rw [List.length_eq_zero.mp h5i, List.append_nil] at hf
    rw [hf]
    obtain ⟨x, hx⟩ := List.length_eq_one.mp h2i
    rw [hx]
    have hmem : x ∈ p.conn.calls.filter fun x => x.1 = .subscribe i := by
      rw [hx]
      exact List.mem_singleton_self x
    rw [List.mem_filter] at hmem
    have hx1 : x.1 = .subscribe i := by simpa using hmem.2
    have hx2 := h3 x hmem.1 i hx1
    rw [← hx1, ← hx2]

/-- C9 as amended, with the concrete decoder on two connected frames and the configured
server_id srv-7: the first frame is dispatched and its goroutine sends, alone on the
connection, the frame with the literal abc123, which is the one frame transmitted; the
pass on the second frame then starts a second goroutine and leaves the loop running. -/
theorem connected_starts_one_subscription_witness :
    (liveFinal encodingJSON calmSchedule
      (Live.init sampleConfig [connectedFrame, connectedFrame])).conn.wire =
        [(.subscribe 0, .newCommands { Action := "new_commands", ServerID := "abc123" })] ∧
    ((liveFinal encodingJSON calmSchedule
      (Live.init sampleConfig [connectedFrame, connectedFrame])).conn.wire.filter
        fun x => x.1 = .subscribe 0) = [(.subscribe 0, subscription)] ∧
    (liveStep encodingJSON .loop (liveFinal encodingJSON calmSchedule
      (Live.init sampleConfig [connectedFrame, connectedFrame]))).map
        (fun q => (q.subs, q.sess.inbox, q.sess.status, q.dead)) =
      some ([.done, .start], [], .running, false) :=
  have h := connected_starts_one_subscription encodingJSON sampleConfig
    [connectedFrame, connectedFrame] calmSchedule
    (liveFinal encodingJSON calmSchedule
      (Live.init sampleConfig [connectedFrame, connectedFrame])) (by decide)
  ⟨by decide, (h.2.2.2.2.2 (by decide) (by decide)).2 0 (by decide),
    (congrArg (Option.map (fun q => (q.subs, q.sess.inbox, q.sess.status, q.dead)))
      (h.1 (goBytes "\x7b\"action\":\"connected\"\x7d") [] [("action", .str "connected")]
        (by decide) (by decide) (by decide) (by rfl) (by rfl))).trans (by decide)⟩

/-! ## Several producers on one connection -/

theorem writersRun_invariant (P : Writers → Prop)
    (hstep : ∀ a w w1, P w → writersStep a w = some w1 → P w1) :
    ∀ (sched : List WriterAction) (w w1 : Writers), P w → writersRun sched w = some w1 → P w1 := by
  intro sched
  induction sched with
  | nil =>
    intro w w1 hP h
    simp only [writersRun, Option.some.injEq] at h
    exact h ▸ hP
  | cons a rest ih =>
    intro w w1 hP h
    simp only [writersRun] at h
    split at h
    · rename_i w2 h2
      exact ih w2 w1 (hstep a w w2 hP h2) h
    · exact absurd h (by simp)

theorem remaining_cons (p : Producer) (ps : List Producer) :
    remaining (p :: ps) = p.pending.length + remaining ps := by
  simp [remaining]

theorem sendingCount_cons (p : Producer) (ps : List Producer) :
    sendingCount (p :: ps) = (if p.sending = true then 1 else 0) + sendingCount ps := by
  simp only [sendingCount, List.filter_cons]
  split <;> first | (simp; done) | (simp; omega)

/-- What a step of a producer does: the producer at its position leaves or enters
`writeWebSocket`, the others stay as they are, and the connection sees the return or
the call. -/
theorem stepAt_spec (id : Nat) (ok : Bool) : ∀ (j : Nat) (ps qs : List Producer) (k k1 : Conn),
    stepAt id ok j ps k = some (qs, k1) →
    ∃ p q, ps[j]? = some p ∧ qs[j]? = some q ∧ (∀ i, i ≠ j → qs[i]? = ps[i]?) ∧
      ((p.sending = true ∧ q.sending = false ∧ q.pending = p.pending ∧
          k1 = k.ret (.producer id) ok ∧ remaining qs = remaining ps ∧
          sendingCount qs + 1 = sendingCount ps) ∨
       (p.sending = false ∧ q.sending = true ∧ ∃ msg, p.pending = msg :: q.pending ∧
          k1 = k.call (.producer id) msg ∧ remaining qs + 1 = remaining ps ∧
          sendingCount qs = sendingCount ps + 1)) := by
  intro j
  induction j with
  | zero =>
    intro ps qs k k1 h
    cases ps with
    | nil => simp [stepAt] at h
    | cons p ps =>
      simp only [stepAt] at h
      split at h
      · rename_i hs
        simp only [Option.some.injEq, Prod.mk.injEq] at h
        obtain ⟨rfl, rfl⟩ := h
        refine ⟨p, { p with sending := false }, by simp, by simp, ?_, Or.inl ?_⟩
        · intro i hi
          cases i with
          | zero => exact absurd rfl hi
          | succ i => simp
        · refine ⟨hs, rfl, rfl, rfl, ?_, ?_⟩
          · simp [remaining_cons]
          · simp [sendingCount_cons, hs]
            omega
      · rename_i hs
        split at h
        · rename_i msg rest hp
          split at h
          · simp only [Option.some.injEq, Prod.mk.injEq] at h
            obtain ⟨rfl, rfl⟩ := h
            refine ⟨p, { pending := rest, sending := true }, by simp, by simp, ?_, Or.inr ?_⟩
            · intro i hi
              cases i with
              | zero => exact absurd rfl hi
              | succ i => simp
            · refine ⟨by simpa using hs, rfl, msg, hp, rfl, ?_, ?_⟩
              · simp [remaining_cons, hp]
                omega
              · simp [sendingCount_cons, hs]
                omega
          · simp at h
        · simp at h
  | succ j ih =>
    intro ps qs k k1 h
    cases ps with
    | nil => simp [stepAt] at h
    | cons p ps =>
      simp only [stepAt] at h
      split at h
      · rename_i rs k2 hrs
        simp only [Option.some.injEq, Prod.mk.injEq] at h
        obtain ⟨rfl, rfl⟩ := h
        obtain ⟨p0, q0, a1, a2, a3, a4⟩ := ih ps rs k k2 hrs
        refine ⟨p0, q0, by simpa using a1, by simpa using a2, ?_, ?_⟩
        · intro i hi
          cases i with
          | zero => simp
          | succ i =>
            simp only [List.getElem?_cons_succ]
            exact a3 i (fun hh => hi (by rw [hh]))
        · rcases a4 with ⟨b1, b2, b3, b4, b5, b6⟩ | ⟨b1, b2, msg, b3, b4, b5, b6⟩
          · exact Or.inl ⟨b1, b2, b3, b4, by simp [remaining_cons, b5],
              by simp only [sendingCount_cons]; omega⟩
          · exact Or.inr ⟨b1, b2, msg, b3, b4, by simp only [remaining_cons]; omega,
              by simp only [sendingCount_cons]; omega⟩
      · simp at h

/-- A call in flight of the writer `w` is found by `takeOut`, which takes one call out
and leaves the calls of the other writers. -/
theorem takeOut_some (w : Writer) : ∀ (l : List (Writer × Frame)),
    (∃ x ∈ l, x.1 = w) →
    ∃ y rest, takeOut w l = some (y, rest) ∧ rest.length + 1 = l.length ∧
      ∀ z ∈ l, z.1 ≠ w → z ∈ rest := by
  intro l
  induction l with
  | nil =>
    intro h
    obtain ⟨x, hx, _⟩ := h
    simp at hx
  | cons a as ih =>
    intro h
    by_cases ha : a.1 = w
    · refine ⟨a, as, by simp [takeOut, ha], rfl, ?_⟩
      intro z hz hzw
      rcases List.mem_cons.mp hz with hz | hz
      · rw [hz] at hzw
        exact absurd ha hzw
      · exact hz
    · have hex : ∃ x ∈ as, x.1 = w := by
        obtain ⟨x, hx, hxw⟩ := h
        rcases List.mem_cons.mp hx with hx | hx
        · rw [hx] at hxw
          exact absurd hxw ha
        · exact ⟨x, hx, hxw⟩
      obtain ⟨y, rest, h1, h2, h3⟩ := ih hex
      refine ⟨y, a :: rest, by simp [takeOut, ha, h1], by simp [h2], ?_⟩
      intro z hz hzw
      rcases List.mem_cons.mp hz with hz | hz
      · rw [hz]
        exact List.mem_cons_self _ _
      · exact List.mem_cons_of_mem _ (h3 z hz hzw)

theorem callsBy_call (j : Nat) (k : Conn) (i : Nat) (msg : Frame) :
    callsBy j (k.call (.producer i) msg).calls =
      callsBy j k.calls ++ (if i = j then [msg] else []) := by
  simp only [callsBy, Conn.call, List.filter_append, List.map_append]
  by_cases h : i = j
  · simp [h]
  · have hne : Writer.producer i ≠ Writer.producer j := by
      intro hh
      cases hh
      exact h rfl
    simp [h, hne]

theorem writersInv_init (frames : List (List Frame)) :
    WritersInv frames (Writers.init frames) := by
  refine ⟨?_, ?_, ?_, ?_⟩
  · simp only [Writers.init, Conn.idle, List.length_nil, Nat.zero_add, remaining,
      List.map_map]
    rfl
  · intro j
    simp only [Writers.init, Conn.idle, callsBy, pendingAt, List.filter_nil, List.map_nil,
      List.nil_append, List.getElem?_map]
    cases frames[j]? <;> rfl
  · simp only [Writers.init, Conn.idle, List.length_nil, sendingCount]
    symm
    rw [List.length_eq_zero, List.filter_eq_nil_iff]
    intro p hp
    simp only [List.mem_map] at hp
    obtain ⟨l, _, rfl⟩ := hp
    simp
  · intro j p hp hs
    simp only [Writers.init, List.getElem?_map] at hp
    cases hf : frames[j]? with
    | none => simp [hf] at hp
    | some l =>
      simp only [hf, Option.map_some', Option.some.injEq] at hp
      subst hp
      simp at hs

theorem writersInv_stepAt (frames : List (List Frame)) (w : Writers) (i : Nat) (ok : Bool)
    (qs : List Producer) (k1 : Conn) (hP : WritersInv frames w)
    (h : stepAt i ok i w.producers w.conn = some (qs, k1)) :
    WritersInv frames { producers := qs, conn := k1 } := by
  obtain ⟨h1, h2, h3, h4⟩ := hP
  obtain ⟨p, q, a1, a2, a3, a4⟩ := stepAt_spec i ok i w.producers qs w.conn k1 h
  rcases a4 with ⟨b1, b2, b3, b4, b5, b6⟩ | ⟨b1, b2, msg, b3, b4, b5, b6⟩
  · obtain ⟨y, rest, t1, t2, t3⟩ := takeOut_some (.producer i) w.conn.inflight (h4 i p a1 b1)
    have hin : k1.inflight = rest := by
      rw [b4]
      simp [Conn.ret, t1]
    have hcalls : k1.calls = w.conn.calls := by
      rw [b4]
      exact ret_calls _ _ _
    refine ⟨?_, ?_, ?_, ?_⟩
    · simp only [hcalls, b5]
      exact h1
    · intro j
      simp only [hcalls]
      rw [← h2 j]
      congr 1
      by_cases hj : j = i
      · subst hj
        simp only [pendingAt, a1, a2, b3]
      · simp only [pendingAt, a3 j hj]
    · simp only [hin]
      omega
    · intro j p1 hp1 hs1
      simp only at hp1
      by_cases hj : j = i
      · subst hj
        rw [a2] at hp1
        simp only [Option.some.injEq] at hp1
        rw [← hp1, b2] at hs1
        cases hs1
      · rw [a3 j hj] at hp1
        obtain ⟨x, hx, hxw⟩ := h4 j p1 hp1 hs1
        refine ⟨x, ?_, hxw⟩
        simp only [hin]
        refine t3 x hx ?_
        rw [hxw]
        intro hh
        cases hh
        exact hj rfl
  · refine ⟨?_, ?_, ?_, ?_⟩
    · simp only [b4, Conn.call, List.length_append, List.length_singleton]
      omega
    · intro j
      simp only [b4]
      rw [callsBy_call, ← h2 j, List.append_assoc]
      congr 1
      by_cases hj : j = i
      · subst hj
        simp only [pendingAt, a1, a2, b3, if_true, List.singleton_append]
      · have hij : ¬ i = j := fun hh => hj hh.symm
        simp only [pendingAt, a3 j hj, hij, if_false, List.nil_append]
    · simp only [b4, Conn.call, List.length_append, List.length_singleton]
      omega
    · intro j p1 hp1 hs1
      simp only at hp1
      by_cases hj : j = i
      · subst hj
        exact ⟨(.producer j, msg), by simp [b4, Conn.call], rfl⟩
      · rw [a3 j hj] at hp1
        obtain ⟨x, hx, hxw⟩ := h4 j p1 hp1 hs1
        exact ⟨x, by simp [b4, Conn.call, hx], hxw⟩

theorem writersInv_step (frames : List (List Frame)) (a : WriterAction) (w w1 : Writers)
    (hP : WritersInv frames w) (h : writersStep a w = some w1) : WritersInv frames w1 := by
  cases a <;> simp only [writersStep] at h <;> split at h
  all_goals first
    | (simp only [Option.some.injEq] at h; subst h
       exact writersInv_stepAt frames w _ _ _ _ hP (by assumption))
    | simp at h

theorem writersWhole_step (a : WriterAction) (w w1 : Writers) (hP : w.conn.Whole)
    (h : writersStep a w = some w1) : w1.conn.Whole := by
  have key : ∀ i ok qs k1, stepAt i ok i w.producers w.conn = some (qs, k1) → k1.Whole := by
    intro i ok qs k1 hs
    obtain ⟨p, q, _, _, _, a4⟩ := stepAt_spec i ok i w.producers qs w.conn k1 hs
    rcases a4 with ⟨_, _, _, b4, _, _⟩ | ⟨_, _, msg, _, b4, _, _⟩
    · rw [b4]; exact whole_ret _ _ _ hP
    · rw [b4]; exact whole_call _ _ _ hP
  cases a <;> simp only [writersStep] at h <;> split at h
  all_goals first
    | (simp only [Option.some.injEq] at h; subst h
       exact key _ _ _ _ (by assumption))
    | simp at h

theorem sum_lengths (M : Nat) : ∀ (frames : List (List Frame)),
    (∀ l ∈ frames, l.length = M) → (frames.map List.length).sum = frames.length * M := by
  intro frames
  induction frames with
  | nil => intro _; simp
  | cons l ls ih =>
    intro h
    simp only [List.map_cons, List.sum_cons, List.length_cons]
    rw [ih (fun x hx => h x (List.mem_cons_of_mem _ hx)), h l (List.mem_cons_self _ _)]
    rw [Nat.add_mul, Nat.one_mul, Nat.add_comm]

/-- C7 as stated fails: two producers both call `WriteMessage` before either call
returns. Two sends are in flight at the same time, the two producers are both in
`writeWebSocket`, and no frame has been transmitted whole. -/
theorem two_sends_in_flight :
    (writersRun overlapSchedule (Writers.init twoFrames)).isSome = true ∧
    (writersFinal overlapSchedule (Writers.init twoFrames)).conn.inflight.length = 2 ∧
    sendingCount (writersFinal overlapSchedule (Writers.init twoFrames)).producers = 2 ∧
    (writersFinal overlapSchedule (Writers.init twoFrames)).conn.clashed = true ∧
    (writersFinal overlapSchedule (Writers.init twoFrames)).conn.wire = [] := by
  decide

/-- C7 as amended: for every N and M, when N concurrent producers each call
`writeWebSocket` M times, then in every execution the calls made and the frames still
to send are N*M together; each producer hands its frames over complete and in their
order; the sends in flight are as many as the producers in `writeWebSocket`; while no
send has begun during another, at most one send is in flight, and if moreover none has
failed, the frames transmitted followed by the one in flight are the calls made, in
their order; so when all producers are through, no send overlapped and none failed,
exactly N*M frames have been transmitted, each whole, and those of each producer are
its frames in their order. -/
theorem producers_frames_whole_unless_overlap (frames : List (List Frame)) (N M : Nat)
    (hN : frames.length = N) (hM : ∀ l ∈ frames, l.length = M)
    (sched : List WriterAction) (w : Writers)
    (h : writersRun sched (Writers.init frames) = some w) :
    w.conn.calls.length + remaining w.producers = N * M ∧
    (∀ j, callsBy j w.conn.calls ++ pendingAt j w.producers = (frames[j]?).getD []) ∧
    w.conn.inflight.length = sendingCount w.producers ∧
    (w.conn.clashed = false → w.conn.inflight.length ≤ 1 ∧
      (w.conn.dropped = 0 → w.conn.wire ++ w.conn.inflight = w.conn.calls)) ∧
    (remaining w.producers = 0 → sendingCount w.producers = 0 →
      w.conn.clashed = false → w.conn.dropped = 0 →
        w.conn.wire.length = N * M ∧ w.conn.wire = w.conn.calls ∧
        ∀ j, callsBy j w.conn.wire = (frames[j]?).getD []) := by
  have hinv : WritersInv frames w :=
    writersRun_invariant (WritersInv frames) (writersInv_step frames) sched _ w
      (writersInv_init frames) h
  have hwhole : w.conn.Whole :=
    writersRun_invariant (fun t => t.conn.Whole) writersWhole_step sched _ w whole_idle h
  obtain ⟨h1, h2, h3, _⟩ := hinv
  rw [sum_lengths M frames hM, hN] at h1
  refine ⟨h1, h2, h3, hwhole, ?_⟩
  intro hr hs hc hd
  have hfl : w.conn.inflight = [] := List.length_eq_zero.mp (by omega)
  have hw : w.conn.wire = w.conn.calls := by
    have := (hwhole hc).2 hd
    rw [hfl, List.append_nil] at this
    exact this
  refine ⟨by rw [hw]; omega, hw, ?_⟩
  intro j
  have hp : pendingAt j w.producers = [] := by
    unfold pendingAt
    split
    · rename_i p hp
      have hmem : p ∈ w.producers := List.mem_iff_getElem?.mpr ⟨j, hp⟩
      have hle : p.pending.length ≤ remaining w.producers := by
        unfold remaining
        exact List.single_le_sum (by simp) _ (List.mem_map_of_mem _ hmem)
      exact List.length_eq_zero.mp (by omega)
    · rfl
  rw [hw, ← h2 j, hp, List.append_nil]

/-- C7 as amended, for two producers with two frames each that take turns: the four
frames are transmitted whole, in the order of the calls. -/
theorem producers_frames_whole_unless_overlap_witness :
    (writersFinal turnsSchedule (Writers.init pairFrames)).conn.wire.length = 2 * 2 ∧
    (writersFinal turnsSchedule (Writers.init pairFrames)).conn.wire =
      (writersFinal turnsSchedule (Writers.init pairFrames)).conn.calls ∧
    callsBy 1 (writersFinal turnsSchedule (Writers.init pairFrames)).conn.wire =
      [.newCommands { Action := "new_commands", ServerID := "b1" },
       .newCommands { Action := "new_commands", ServerID := "b2" }] :=
  have h := (producers_frames_whole_unless_overlap pairFrames 2 2 (by decide) (by decide)
    turnsSchedule (writersFinal turnsSchedule (Writers.init pairFrames)) (by decide)).2.2.2.2
    (by decide) (by decide) (by decide) (by decide)
  ⟨h.1, h.2.1, h.2.2 1⟩

/-- C1 at the frame of the specification, in a session that has nothing on `errChan`:
the loop returns, the frame after it stays unread, and `main` is left blocked. -/
theorem unknown_action_returns_without_signal_witness :
    (readWebsocket encodingJSON
        { inbox := [textFrame "\x7b\"action\":\"bogus\"\x7d", textFrame "\x7b\"action\":\"connected\"\x7d"],
          display := [], spawned := [], errChan := [], status := .running }).errChan = [] ∧
    (readWebsocket encodingJSON
        { inbox := [textFrame "\x7b\"action\":\"bogus\"\x7d", textFrame "\x7b\"action\":\"connected\"\x7d"],
          display := [], spawned := [], errChan := [], status := .running }).exit = .blocked :=
  have h := unknown_action_returns_without_signal encodingJSON
    { inbox := [textFrame "\x7b\"action\":\"bogus\"\x7d", textFrame "\x7b\"action\":\"connected\"\x7d"],
      display := [], spawned := [], errChan := [], status := .running }
    (goBytes "\x7b\"action\":\"bogus\"\x7d") [textFrame "\x7b\"action\":\"connected\"\x7d"]
    [("action", .str "bogus")] rfl rfl (by rfl)
    (by
      intro a ha
      simp only [knownActions, List.mem_cons, List.mem_singleton, List.not_mem_nil,
        or_false] at ha
      rcases ha with rfl | rfl | rfl | rfl <;> simp [JSON.index])
  ⟨h.2.1, h.2.2 rfl⟩


/-! ## Further properties of the read loop and the executor -/

/-- The function `bytesToFormattedHex` renders every byte, in order, as its two lower-case
hexadecimal digits followed by one space. -/
theorem hexdump_two_digits_and_space_per_byte (bytes : List Byte) :
    bytesToFormattedHex bytes =
      String.mk (bytes.flatMap fun b => [hexDigit (b.val / 16), hexDigit (b.val % 16), ' ']) :=
  bytesToFormattedHex_eq bytes

/-- When `ReadMessage` returns an error, the loop sends the error on `errChan` and
returns: no later frame is read, nothing is spawned, and `main` receives and returns. -/
theorem read_error_signals_main (lib : JSONLib) (s : Session) (r : ReadMessage)
    (rest : List ReadMessage) (e : String) (hrun : s.status = .running)
    (hin : s.inbox = r :: rest) (herr : r.err = some e) :
    readWebsocket lib s =
      { s with inbox := rest, errChan := s.errChan ++ [e], status := .returned } ∧
    (readWebsocket lib s).exit = .returned := by
  have h : readWebsocket lib s =
      { s with inbox := rest, errChan := s.errChan ++ [e], status := .returned } := by
    rw [readWebsocket_step lib s r rest hrun hin]
    simp [iteration, herr]
  refine ⟨h, ?_⟩
  rw [h]
  simp [Session.exit]

/-- The read-error exit at a concrete session: the first read fails with a closed connection. -/
theorem read_error_signals_main_witness :
    (readWebsocket encodingJSON
        { inbox := [{ msgType := 0, buf := [], err := some "EOF" }, textFrame "x"],
          display := [], spawned := [], errChan := [], status := .running }).exit = .returned :=
  (read_error_signals_main encodingJSON
    { inbox := [{ msgType := 0, buf := [], err := some "EOF" }, textFrame "x"],
      display := [], spawned := [], errChan := [], status := .running }
    { msgType := 0, buf := [], err := some "EOF" } [textFrame "x"] "EOF" rfl rfl rfl).2

/-- A frame read without error whose type is neither text nor binary makes the loop
send an error on `errChan` and return, so `main` receives and returns. -/
theorem unknown_frame_type_signals_main (lib : JSONLib) (s : Session) (r : ReadMessage)
    (rest : List ReadMessage) (hrun : s.status = .running) (hin : s.inbox = r :: rest)
    (herr : r.err = none) (ht : r.msgType ≠ TextMessage) (hb : r.msgType ≠ BinaryMessage) :
    readWebsocket lib s =
      { s with inbox := rest,
               errChan := s.errChan ++
                 ["unknown websocket frame type: " ++ toString r.msgType],
               status := .returned } ∧
    (readWebsocket lib s).exit = .returned := by
  have h : readWebsocket lib s =
      { s with inbox := rest,
               errChan := s.errChan ++
                 ["unknown websocket frame type: " ++ toString r.msgType],
               status := .returned } := by
    rw [readWebsocket_step lib s r rest hrun hin]
    simp [iteration, herr, ht, hb]
  refine ⟨h, ?_⟩
  rw [h]
  simp [Session.exit]

/-- The frame-type exit at a concrete session: a frame of type 9. -/
theorem unknown_frame_type_signals_main_witness :
    (readWebsocket encodingJSON
        { inbox := [{ msgType := 9, buf := [], err := none }],
          display := [], spawned := [], errChan := [], status := .running }).errChan =
      ["unknown websocket frame type: 9"] :=
  congrArg Session.errChan
    (unknown_frame_type_signals_main encodingJSON
      { inbox := [{ msgType := 9, buf := [], err := none }],
        display := [], spawned := [], errChan := [], status := .running }
      { msgType := 9, buf := [], err := none } [] rfl rfl rfl (by decide) (by decide)).1

/-- A text frame whose action is new_commands and whose `new_val` decodes into a
Command spawns `executeCommand` for that Command and nothing else; the loop does not
wait for it and goes on with the frames after this one. -/
theorem new_commands_spawns_executor (lib : JSONLib) (s : Session) (buf : List Byte)
    (rest : List ReadMessage) (m : List (String × JSON)) (newCmd : Command)
    (hrun : s.status = .running)
    (hin : s.inbox = { msgType := TextMessage, buf := buf, err := none } :: rest)
    (hobj : lib.unmarshal (goString buf) = some (.obj m))
    (hact : JSON.index m "action" = some (.str "new_commands"))
    (hcmd : lib.unmarshalCommand ((JSON.index m "new_val").getD .null) = some newCmd) :
    readWebsocket lib s =
      readWebsocket lib
        { s with inbox := rest, display := s.display ++ ["< " ++ goString buf ++ "\n"],
                 spawned := s.spawned ++ [.executeCommand newCmd] } ∧
    launched (s.spawned ++ [.executeCommand newCmd]) = launched s.spawned ++ [newCmd] ∧
    List.count Task.subscribe (s.spawned ++ [.executeCommand newCmd]) =
      List.count Task.subscribe s.spawned := by
  have h1 : JSON.eqString (JSON.index m "action") "connected" = false := by
    rw [Bool.eq_false_iff, Ne, eqString_iff, hact]
    simp
  have h2 : JSON.eqString (JSON.index m "action") "output_command" = false := by
    rw [Bool.eq_false_iff, Ne, eqString_iff, hact]
    simp
  have h3 : JSON.eqString (JSON.index m "action") "new_commands" = true :=
    (eqString_iff _ _).mpr hact
  refine ⟨?_, ?_, ?_⟩
  · rw [readWebsocket_step lib s _ rest hrun hin]
    simp [iteration, dispatch, hobj, h1, h2, h3, hcmd, hrun]
  · simp [launched, List.filterMap_append]
  · simp [List.count_append]

/-- The new_commands dispatch at the frame of the happy-path scenario, with the concrete decoder. -/
theorem new_commands_spawns_executor_witness :
    launched (main encodingJSON { Location := "wss://ctrl.example/ws", ServerID := "abc123" }
      [textFrame
        "\x7b\"action\":\"new_commands\",\"new_val\":\x7b\"id\":\"1\",\"command\":\"echo hi\"\x7d\x7d"]).1.spawned =
      [echoCommand] :=
  have h := new_commands_spawns_executor encodingJSON
    { inbox := [textFrame
        "\x7b\"action\":\"new_commands\",\"new_val\":\x7b\"id\":\"1\",\"command\":\"echo hi\"\x7d\x7d"],
      display := [], spawned := [], errChan := [], status := .running }
    (goBytes
      "\x7b\"action\":\"new_commands\",\"new_val\":\x7b\"id\":\"1\",\"command\":\"echo hi\"\x7d\x7d")
    []
    [("action", .str "new_commands"),
     ("new_val", .obj [("id", .str "1"), ("command", .str "echo hi")])]
    echoCommand rfl rfl (by rfl) (by rfl) (by rfl)
  (congrArg (fun t => launched t.spawned) h.1).trans (by decide)


end Minion
